import Mathlib

/-!
# Universal Robots kinematics: verification development

A shallow embedding of `mathLib.cpp` and `universalRobotsKinematics.cpp`.

The program computes with single-precision scalars.  Every definition below is
written once, over an arbitrary scalar type `F` carrying the operations the
program uses (`FloatArith F`), so the control flow, the indexing and the order of
the operations are those of the source and the definitions stay executable for
any executable scalar type.  Statements about numbers are proved in the model
`Flt` of exact real arithmetic extended with one not-a-number element.
-/

/-! ## Scalars -/

/-- The scalar operations the program applies to its `float` values. -/
class FloatArith (F : Type) extends Add F, Sub F, Mul F, Div F, Neg F where
  /-- A non-negative integer literal converted to a scalar. -/
  lit : Nat → F
  /-- The constant `std::numbers::pi_v<float>`. -/
  pi : F
  sqrt : F → F
  sin : F → F
  cos : F → F
  acos : F → F
  asin : F → F
  /-- The call `atan2(y, x)`. -/
  atan2 : F → F → F
  isnan : F → Bool
  /-- The comparison `==`. -/
  eq : F → F → Bool
  /-- The comparison `>`. -/
  gt : F → F → Bool

instance instOfNatFloatArith {F : Type} [FloatArith F] (n : Nat) : OfNat F n := ⟨FloatArith.lit n⟩

/-- Exact real arithmetic with one not-a-number element.  `nan` stands for every
non-finite result: it is produced by `acos` and `asin` outside `[-1, 1]`, by `sqrt`
of a negative number and by a quotient whose divisor is zero, and every
operation propagates it.  Rounding is not modelled: `pi`, `sin`, `cos` and `acos`
are exact, so `acos (-1)` is `π` and `sin π` is zero, whereas in single precision
`acos(-1)` is the number nearest π and its sine is about `-8.7e-8`. -/
inductive Flt : Type where
  | fin (r : ℝ)
  | nan

namespace Flt

/-- Lift a unary real function, propagating `nan`. -/
def map1 (f : ℝ → ℝ) : Flt → Flt
  | fin x => fin (f x)
  | nan => nan

/-- Lift a binary real function, propagating `nan`. -/
def map2 (f : ℝ → ℝ → ℝ) : Flt → Flt → Flt
  | fin x, fin y => fin (f x y)
  | _, _ => nan

noncomputable def div : Flt → Flt → Flt
  | fin x, fin y => if y = 0 then nan else fin (x / y)
  | _, _ => nan

noncomputable def sqrt : Flt → Flt
  | fin x => if x < 0 then nan else fin (Real.sqrt x)
  | nan => nan

noncomputable def acos : Flt → Flt
  | fin x => if -1 ≤ x ∧ x ≤ 1 then fin (Real.arccos x) else nan
  | nan => nan

noncomputable def asin : Flt → Flt
  | fin x => if -1 ≤ x ∧ x ≤ 1 then fin (Real.arcsin x) else nan
  | nan => nan

/-- The angle of the point `(x, y)`, in `(-π, π]`, with `atan2 0 0 = 0`. -/
noncomputable def atan2 : Flt → Flt → Flt
  | fin y, fin x => fin (Complex.arg ⟨x, y⟩)
  | _, _ => nan

def isnan : Flt → Bool
  | fin _ => false
  | nan => true

noncomputable def eq : Flt → Flt → Bool
  | fin x, fin y => decide (x = y)
  | _, _ => false

noncomputable def gt : Flt → Flt → Bool
  | fin x, fin y => decide (x > y)
  | _, _ => false

end Flt

/-- The scalar operations of the model `Flt`: the exact real operations, lifted so
that not-a-number propagates. -/
noncomputable instance instFloatArithFlt : FloatArith Flt where
  add := Flt.map2 (fun x y => x + y)
  sub := Flt.map2 (fun x y => x - y)
  mul := Flt.map2 (fun x y => x * y)
  div := Flt.div
  neg := Flt.map1 (fun x => -x)
  lit := fun n => Flt.fin (n : ℝ)
  pi := Flt.fin Real.pi
  sqrt := Flt.sqrt
  sin := Flt.map1 Real.sin
  cos := Flt.map1 Real.cos
  acos := Flt.acos
  asin := Flt.asin
  atan2 := Flt.atan2
  isnan := Flt.isnan
  eq := Flt.eq
  gt := Flt.gt

/-- Two scalars are numbers and differ by an integer multiple of `2π`. -/
def Flt.eqMod2Pi (x y : Flt) : Prop :=
  ∃ (a b : ℝ) (k : ℤ), x = Flt.fin a ∧ y = Flt.fin b ∧ a - b = k * (2 * Real.pi)

/-! ## Fixed-size matrices -/

/-- A 3×3 matrix (`Eigen::Matrix3f`). -/
abbrev Mat3 (F : Type) : Type := Fin 3 → Fin 3 → F

/-- A 4×4 matrix (`Eigen::Matrix4f`). -/
abbrev Mat4 (F : Type) : Type := Fin 4 → Fin 4 → F

namespace Mat3
variable {F : Type} [FloatArith F]

/-- Matrix product, each entry summed from left to right. -/
def mul (A B : Mat3 F) : Mat3 F :=
  fun i j => A i 0 * B 0 j + A i 1 * B 1 j + A i 2 * B 2 j

/-- Determinant, expanded along the first row. -/
def det (M : Mat3 F) : F :=
  M 0 0 * (M 1 1 * M 2 2 - M 1 2 * M 2 1)
    - M 0 1 * (M 1 0 * M 2 2 - M 1 2 * M 2 0)
    + M 0 2 * (M 1 0 * M 2 1 - M 1 1 * M 2 0)

end Mat3

namespace Mat4
variable {F : Type} [FloatArith F]

/-- The matrix `Eigen::Matrix4f::Identity()`. -/
def identity : Mat4 F := fun i j => if i = j then 1 else 0

/-- Matrix product, each entry summed from left to right. -/
def mul (A B : Mat4 F) : Mat4 F :=
  fun i j => A i 0 * B 0 j + A i 1 * B 1 j + A i 2 * B 2 j + A i 3 * B 3 j

/-- Product of a matrix and a column vector. -/
def mulVec (A : Mat4 F) (v : Fin 4 → F) : Fin 4 → F :=
  fun i => A i 0 * v 0 + A i 1 * v 1 + A i 2 * v 2 + A i 3 * v 3

/-- The 3×3 matrix left after deleting row `i` and column `j`. -/
def minor (M : Mat4 F) (i j : Fin 4) : Mat3 F :=
  fun r c => M (i.succAbove r) (j.succAbove c)

/-- Signed minor. -/
def cofactor (M : Mat4 F) (i j : Fin 4) : F :=
  if (i.val + j.val) % 2 = 0 then Mat3.det (minor M i j) else - Mat3.det (minor M i j)

/-- Determinant, expanded along the first row. -/
def det (M : Mat4 F) : F :=
  M 0 0 * cofactor M 0 0 + M 0 1 * cofactor M 0 1 + M 0 2 * cofactor M 0 2
    + M 0 3 * cofactor M 0 3

/-- The member `inverse()` of a fixed-size 4×4 matrix: cofactors over the
determinant. -/
def inverse (M : Mat4 F) : Mat4 F :=
  fun i j => cofactor M j i / det M

/-- The block `block<3, 3>(0, 0)`. -/
def rotationBlock (M : Mat4 F) : Mat3 F :=
  fun i j => M i.castSucc j.castSucc

/-- The first three entries of the last column. -/
def translation (M : Mat4 F) : Fin 3 → F :=
  fun i => M i.castSucc 3

end Mat4

/-! ## mathLib -/

namespace mathLib
variable {F : Type} [FloatArith F]

/-- Degrees to radians: `degree * pi / 180`. -/
def rad (degree : F) : F := degree * FloatArith.pi / 180

/-- Radians to degrees: `rad * 180 / pi`. -/
def deg (rad : F) : F := rad * 180 / FloatArith.pi

/-- A pose: position and roll-pitch-yaw angles `(alpha, beta, gamma)`.  The robot
code calls this type `pose` and its angle field `m_eulerAngles`. -/
structure tipPose (F : Type) where
  m_pos : Fin 3 → F
  m_rpy : Fin 3 → F

/-- The constructor `tipPose::tipPose(pos, rotationMatrix)`: keeps the position and
decomposes the rotation matrix into roll-pitch-yaw angles. -/
def tipPose.ctor (pos : Fin 3 → F) (rotationMatrix : Mat3 F) : tipPose F :=
  if FloatArith.eq (rotationMatrix 0 2) 1 || FloatArith.eq (rotationMatrix 0 2) (-1) then
    let alpha : F := 0
    if FloatArith.eq (rotationMatrix 0 2) (-1) then
      ⟨pos, ![alpha, FloatArith.pi / 2,
        alpha + FloatArith.atan2 (rotationMatrix 0 1) (rotationMatrix 0 2)]⟩
    else
      ⟨pos, ![alpha, -FloatArith.pi / 2,
        -alpha + FloatArith.atan2 (rotationMatrix 0 1) (rotationMatrix 0 2)]⟩
  else
    let beta : F := -FloatArith.asin (rotationMatrix 0 2)
    let gamma : F := FloatArith.atan2 (rotationMatrix 1 2 / FloatArith.cos beta)
      (rotationMatrix 2 2 / FloatArith.cos beta)
    let alpha : F := FloatArith.atan2 (rotationMatrix 0 1 / FloatArith.cos beta)
      (rotationMatrix 0 0 / FloatArith.cos beta)
    ⟨pos, ![alpha, beta, gamma]⟩

/-- Rotation about the x-axis by `t`. -/
def rotX (t : F) : Mat4 F :=
  ![![1, 0, 0, 0],
    ![0, FloatArith.cos t, -FloatArith.sin t, 0],
    ![0, FloatArith.sin t, FloatArith.cos t, 0],
    ![0, 0, 0, 1]]

/-- Rotation about the z-axis by `t`. -/
def rotZ (t : F) : Mat4 F :=
  ![![FloatArith.cos t, -FloatArith.sin t, 0, 0],
    ![FloatArith.sin t, FloatArith.cos t, 0, 0],
    ![0, 0, 1, 0],
    ![0, 0, 0, 1]]

/-- Translation along the x-axis by `a`. -/
def transX (a : F) : Mat4 F :=
  ![![1, 0, 0, a], ![0, 1, 0, 0], ![0, 0, 1, 0], ![0, 0, 0, 1]]

/-- Translation along the z-axis by `d`. -/
def transZ (d : F) : Mat4 F :=
  ![![1, 0, 0, 0], ![0, 1, 0, 0], ![0, 0, 1, d], ![0, 0, 0, 1]]

/-- Modelled from the spec: the body of `mathLib::calcTransformationMatrix` is not
among the source files.  The homogeneous transform of one MDH row
`(alpha, a, d, theta)`: in order, a rotation about x by `alpha`, a translation
along x by `a`, a translation along z by `d` and a rotation about z by `theta`. -/
def calcTransformationMatrix (row : Fin 4 → F) : Mat4 F :=
  Mat4.mul (Mat4.mul (Mat4.mul (rotX (row 0)) (transX (row 1))) (transZ (row 2))) (rotZ (row 3))

end mathLib

/-! ## The robot model -/

namespace universalRobots
open mathLib
variable {F : Type} [FloatArith F]

/-- The robot variants.  `other` stands for a value of the enumeration type that is
none of the three enumerators. -/
inductive URtype : Type where
  | UR3
  | UR5
  | UR10
  | other (tag : Nat)
  deriving DecidableEq, Repr

/-- Modelled from the spec: the array sizes are declared in a header that is not
among the source files.  Seven z-offsets. -/
abbrev m_numTransZ : Nat := 7

/-- Modelled from the spec: four x-offsets. -/
abbrev m_numTransX : Nat := 4

/-- Modelled from the spec: six joints. -/
abbrev m_numDoF : Nat := 6

/-- Modelled from the spec: nine reference frames. -/
abbrev m_numReferenceFrames : Nat := 9

/-- Modelled from the spec: eight inverse-kinematics solutions. -/
abbrev m_numIkSol : Nat := 8

/-- The six link-dimension tables.  Their values are declared in a header that is
not among the source files, so they are a parameter of the model. -/
structure LinkDimensions (F : Type) where
  UR3_LINK_DIMENSIONS_d : Fin m_numTransZ → F
  UR3_LINK_DIMENSIONS_a : Fin m_numTransX → F
  UR5_LINK_DIMENSIONS_d : Fin m_numTransZ → F
  UR5_LINK_DIMENSIONS_a : Fin m_numTransX → F
  UR10_LINK_DIMENSIONS_d : Fin m_numTransZ → F
  UR10_LINK_DIMENSIONS_a : Fin m_numTransX → F

/-- One joint: its value and the pose of its frame. -/
structure jointState (F : Type) where
  m_jointValue : F
  m_jointPose : tipPose F

/-- The members of the class `UR`. -/
structure UR (F : Type) where
  m_type : URtype
  m_endEffector : Bool
  m_d : Fin m_numTransZ → F
  m_a : Fin m_numTransX → F
  m_MDHmatrix : Fin m_numReferenceFrames → Fin 4 → F
  m_jointState : Fin m_numDoF → jointState F
  m_individualTransformationMatrices : Fin m_numReferenceFrames → Mat4 F
  m_generalTransformationMatrices : Fin m_numReferenceFrames → Mat4 F

namespace UR

/-- The method `setRobotType`. -/
def setRobotType (self : UR F) (type : URtype) : UR F :=
  { self with m_type := type }

/-- The method `setTransZ`: copies the whole array. -/
def setTransZ (self : UR F) (d : Fin m_numTransZ → F) : UR F :=
  { self with m_d := d }

/-- The method `setTransX`: copies the whole array. -/
def setTransX (self : UR F) (a : Fin m_numTransX → F) : UR F :=
  { self with m_a := a }

/-- The nine MDH rows written by the constructor and by `setMDHmatrix`. -/
def mdhRows (d : Fin m_numTransZ → F) (a : Fin m_numTransX → F)
    (js : Fin m_numDoF → jointState F) : Fin m_numReferenceFrames → Fin 4 → F :=
  ![![0, 0, d 0, (js 0).m_jointValue],
    ![rad (-90), 0, d 1, (js 1).m_jointValue + rad (-90)],
    ![0, a 0, d 2, (js 2).m_jointValue],
    ![0, a 1, d 3, (js 3).m_jointValue],
    ![0, a 2, d 4, rad 90],
    ![rad 90, 0, 0, (js 4).m_jointValue],
    ![rad (-90), 0, 0, rad (-90)],
    ![0, a 3, d 5, (js 5).m_jointValue],
    ![0, 0, d 6, 0]]

/-- The method `setMDHmatrix`. -/
def setMDHmatrix (self : UR F) : UR F :=
  { self with m_MDHmatrix := mdhRows self.m_d self.m_a self.m_jointState }

/-- The switch of the constructor: the tables copied for a variant. -/
def selectTables (tables : LinkDimensions F) (self : UR F) (robotType : URtype) : UR F :=
  match robotType with
  | URtype.UR3 =>
    setTransX (setTransZ self tables.UR3_LINK_DIMENSIONS_d) tables.UR3_LINK_DIMENSIONS_a
  | URtype.UR5 =>
    setTransX (setTransZ self tables.UR5_LINK_DIMENSIONS_d) tables.UR5_LINK_DIMENSIONS_a
  | URtype.UR10 =>
    setTransX (setTransZ self tables.UR10_LINK_DIMENSIONS_d) tables.UR10_LINK_DIMENSIONS_a
  | URtype.other _ =>
    setTransX (setTransZ self tables.UR10_LINK_DIMENSIONS_d) tables.UR10_LINK_DIMENSIONS_a

/-- The constructor `UR::UR(robotType, endEffector, endEffectorDimension)`.
`fresh` holds the members as they are before the constructor body runs. -/
def ctor (tables : LinkDimensions F) (fresh : UR F) (robotType : URtype) (endEffector : Bool)
    (endEffectorDimension : F) : UR F :=
  let s0 : UR F := { fresh with m_type := robotType, m_endEffector := endEffector }
  let s1 : UR F := selectTables tables s0 robotType
  let s2 : UR F :=
    { s1 with m_d := Function.update s1.m_d ⟨m_numTransZ - 1, by decide⟩ endEffectorDimension }
  { s2 with m_MDHmatrix := mdhRows s2.m_d s2.m_a s2.m_jointState }

/-- The method `setTheta`. -/
def setTheta (self : UR F) (jointVal : Fin m_numDoF → F) : UR F :=
  { self with
    m_jointState := fun i => { self.m_jointState i with m_jointValue := jointVal i } }

/-- The method `getRobotType`. -/
def getRobotType (self : UR F) : URtype := self.m_type

/-- The method `getTransZ`. -/
def getTransZ (self : UR F) : Fin m_numTransZ → F := self.m_d

/-- The method `getTransX`. -/
def getTransX (self : UR F) : Fin m_numTransX → F := self.m_a

/-- The method `getTheta`. -/
def getTheta (self : UR F) (ix : Fin m_numDoF) : F := (self.m_jointState ix).m_jointValue

/-- The method `getTipPose`. -/
def getTipPose (self : UR F) : tipPose F :=
  (self.m_jointState ⟨m_numDoF - 1, by decide⟩).m_jointPose

/-- Modelled from the spec: the constructor `pose(position, rotationMatrix)` called by
`forwardKinematics` is declared in a header that is not among the source files.
The spec has each frame's rotation block decomposed into roll-pitch-yaw angles by
the decomposition that `tipPose::tipPose` implements. -/
def pose (position : Fin 3 → F) (rotationMatrix : Mat3 F) : tipPose F :=
  tipPose.ctor position rotationMatrix

/-- The state threaded through the second loop of `forwardKinematics`: the robot,
the local `currentJoint` and the local `tipPose`. -/
structure fkLoopState (F : Type) where
  robot : UR F
  currentJoint : Nat
  tipPose : tipPose F

/-- The matrix the second loop of `forwardKinematics` stores in
`m_generalTransformationMatrices[i]`. -/
def fkCumulative (self : UR F) (i : Fin m_numReferenceFrames) : Mat4 F :=
  if i.val = 0 then self.m_individualTransformationMatrices 0
  else Mat4.mul (self.m_generalTransformationMatrices ⟨i.val - 1, by omega⟩)
    (self.m_individualTransformationMatrices i)

/-- One iteration of the second loop of `forwardKinematics`. -/
def fkLoopBody (st : fkLoopState F) (i : Fin m_numReferenceFrames) : fkLoopState F :=
  let self := st.robot
  let self1 : UR F :=
    { self with
      m_generalTransformationMatrices :=
        Function.update self.m_generalTransformationMatrices i (fkCumulative self i) }
  if i.val = 0 ∨ i.val = 1 ∨ i.val = 2 ∨ i.val = 3 ∨ i.val = 5 ∨ i.val = 7 ∨ i.val = 8 then
    let rotationMatrix : Mat3 F := Mat4.rotationBlock (self1.m_generalTransformationMatrices i)
    let position : Fin 3 → F := Mat4.translation (self1.m_generalTransformationMatrices i)
    if i.val = 8 then
      ⟨self1, st.currentJoint, pose position rotationMatrix⟩
    else
      let self2 : UR F :=
        { self1 with
          m_jointState := fun k =>
            if k.val = st.currentJoint then
              { self1.m_jointState k with m_jointPose := pose position rotationMatrix }
            else self1.m_jointState k }
      ⟨self2, st.currentJoint + 1, st.tipPose⟩
  else
    ⟨self1, st.currentJoint, st.tipPose⟩

/-- The state of `forwardKinematics` when the second loop starts: the joint values
are set, the MDH rows rebuilt and the nine individual transforms computed. -/
def fkInit (self : UR F) (targetJointVal : Fin m_numDoF → F) : fkLoopState F :=
  let s1 : UR F := setMDHmatrix (setTheta self targetJointVal)
  let s2 : UR F :=
    { s1 with
      m_individualTransformationMatrices := fun i => calcTransformationMatrix (s1.m_MDHmatrix i) }
  ⟨s2, 0, ⟨fun _ => 0, fun _ => 0⟩⟩

/-- The state of `forwardKinematics` after the first `n` iterations of the second
loop. -/
def fkLoopUpTo (self : UR F) (targetJointVal : Fin m_numDoF → F) (n : Nat) : fkLoopState F :=
  ((List.finRange m_numReferenceFrames).take n).foldl fkLoopBody (fkInit self targetJointVal)

/-- The state of `forwardKinematics` after both loops. -/
def fkLoop (self : UR F) (targetJointVal : Fin m_numDoF → F) : fkLoopState F :=
  (List.finRange m_numReferenceFrames).foldl fkLoopBody (fkInit self targetJointVal)

/-- The method `forwardKinematics`: the returned tip pose and the robot afterwards. -/
def forwardKinematics (self : UR F) (targetJointVal : Fin m_numDoF → F) : tipPose F × UR F :=
  ((fkLoop self targetJointVal).tipPose, (fkLoop self targetJointVal).robot)

/-- The loop of `checkPoseReachability`, from index `i` on. -/
def checkPoseReachabilityFrom (ikSol : Nat → F) (i : Nat) : Bool :=
  if i < 6 then
    if FloatArith.isnan (ikSol i) then false
    else checkPoseReachabilityFrom ikSol (i + 1)
  else true
termination_by 6 - i

/-- The method `checkPoseReachability`. -/
def checkPoseReachability (_self : UR F) (ikSol : Nat → F) : Bool :=
  checkPoseReachabilityFrom ikSol 0

/-- The call `pow(x, 2)`. -/
def pow2 (x : F) : F := x * x

/-- The rotation matrix of `Eigen::AngleAxisf(t, Eigen::Vector3f::UnitX())`. -/
def angleAxisX (t : F) : Mat3 F :=
  ![![1, 0, 0],
    ![0, FloatArith.cos t, -FloatArith.sin t],
    ![0, FloatArith.sin t, FloatArith.cos t]]

/-- The rotation matrix of `Eigen::AngleAxisf(t, Eigen::Vector3f::UnitY())`. -/
def angleAxisY (t : F) : Mat3 F :=
  ![![FloatArith.cos t, 0, FloatArith.sin t],
    ![0, 1, 0],
    ![-FloatArith.sin t, 0, FloatArith.cos t]]

/-- The rotation matrix of `Eigen::AngleAxisf(t, Eigen::Vector3f::UnitZ())`. -/
def angleAxisZ (t : F) : Mat3 F :=
  ![![FloatArith.cos t, -FloatArith.sin t, 0],
    ![FloatArith.sin t, FloatArith.cos t, 0],
    ![0, 0, 1]]

/-- The local `rotation` of `inverseKinematics`: the product of the three axis
rotations, taken as a product of rotation matrices. -/
def ikRotation (targetTipPose : tipPose F) : Mat3 F :=
  Mat3.mul (Mat3.mul (angleAxisX (targetTipPose.m_rpy 0)) (angleAxisY (targetTipPose.m_rpy 1)))
    (angleAxisZ (targetTipPose.m_rpy 2))

/-- The local `T_07` of `inverseKinematics`: the identity with the rotation block and
the translation column overwritten. -/
def ikT07 (targetTipPose : tipPose F) : Mat4 F :=
  fun i j =>
    if hi : i.val < 3 then
      if hj : j.val < 3 then ikRotation targetTipPose ⟨i.val, hi⟩ ⟨j.val, hj⟩
      else targetTipPose.m_pos ⟨i.val, hi⟩
    else (Mat4.identity : Mat4 F) i j

/-- The local `P_05` of `inverseKinematics`. -/
def ikP05 (self : UR F) (targetTipPose : tipPose F) : Fin 4 → F :=
  Mat4.mulVec (ikT07 targetTipPose) ![0, 0, -self.m_d 5 - self.m_d 6, 1]

/-- The local `theta1_psi` of `inverseKinematics`. -/
def ikTheta1Psi (self : UR F) (targetTipPose : tipPose F) : F :=
  FloatArith.atan2 (ikP05 self targetTipPose 1) (ikP05 self targetTipPose 0)

/-- The local `theta1_phi` of `inverseKinematics`. -/
def ikTheta1Phi (self : UR F) (targetTipPose : tipPose F) : F :=
  FloatArith.acos ((self.m_d 1 + self.m_d 2 + self.m_d 3 + self.m_d 4)
    / FloatArith.sqrt (pow2 (ikP05 self targetTipPose 1) + pow2 (ikP05 self targetTipPose 0)))

/-- The value the first loop of `inverseKinematics` writes to `outIkSols[row][0]`;
the loop variable is `row - 4`. -/
def ikTheta1 (self : UR F) (targetTipPose : tipPose F) (row : Fin m_numIkSol) : F :=
  (FloatArith.pi / 2 + ikTheta1Psi self targetTipPose
    + (if row.val < 4 then (1 : F) else -1) * ikTheta1Phi self targetTipPose) - FloatArith.pi

/-- The local `T_06` of `inverseKinematics`. -/
def ikT06 (self : UR F) (targetTipPose : tipPose F) : Mat4 F :=
  Function.update (ikT07 targetTipPose) 2
    (Function.update (ikT07 targetTipPose 2) 3
      (ikT07 targetTipPose 2 3 - self.m_d ⟨m_numTransZ - 1, by decide⟩))

/-- The local `T_01` of one iteration of the second loop. -/
def ikT01 (self : UR F) (theta1 : F) : Mat4 F :=
  calcTransformationMatrix ![0, 0, self.m_d 0, theta1]

/-- The local `T_16` of one iteration of the second loop. -/
def ikT16 (self : UR F) (T_06 : Mat4 F) (theta1 : F) : Mat4 F :=
  Mat4.mul (Mat4.inverse (ikT01 self theta1)) T_06

/-- The value written to `outIkSols[i][4]`. -/
def ikTheta5 (self : UR F) (T_16 : Mat4 F) (i : Fin m_numIkSol) : F :=
  if i.val = 0 ∨ i.val = 1 ∨ i.val = 4 ∨ i.val = 5 then
    FloatArith.acos ((T_16 1 3 - (self.m_d 1 + self.m_d 2 + self.m_d 3 + self.m_d 4)) / self.m_d 5)
  else
    -FloatArith.acos ((T_16 1 3 - (self.m_d 1 + self.m_d 2 + self.m_d 3 + self.m_d 4)) / self.m_d 5)

/-- The value written to `outIkSols[i][5]`. -/
def ikTheta6 (T_16 : Mat4 F) (theta5 : F) : F :=
  if FloatArith.eq theta5 0 || FloatArith.eq theta5 (2 * FloatArith.pi) then 0
  else
    let sinTheta5 : F := FloatArith.sin theta5
    FloatArith.pi / 2 + FloatArith.atan2 (-Mat4.inverse T_16 1 1 / sinTheta5)
      (Mat4.inverse T_16 0 1 / sinTheta5)

/-- The local `T_46` of one iteration of the second loop. -/
def ikT46 (self : UR F) (theta5 theta6 : F) : Mat4 F :=
  let T_44_ : Mat4 F := calcTransformationMatrix ![0, self.m_a 2, self.m_d 4, FloatArith.pi / 2]
  let T_4_5 : Mat4 F := calcTransformationMatrix ![FloatArith.pi / 2, 0, 0, theta5]
  let T_45 : Mat4 F := Mat4.mul T_44_ T_4_5
  let T_55_ : Mat4 F :=
    calcTransformationMatrix ![-FloatArith.pi / 2, 0, 0, -FloatArith.pi / 2]
  let T_5_6 : Mat4 F := calcTransformationMatrix ![0, self.m_a 3, self.m_d 5, theta6]
  let T_56 : Mat4 F := Mat4.mul T_55_ T_5_6
  Mat4.mul T_45 T_56

/-- The local `P_14_xz` of one iteration of the second loop. -/
def ikP14xz (T_14 : Mat4 F) : F :=
  FloatArith.sqrt (pow2 (T_14 0 3) + pow2 (T_14 2 3))

/-- The local `theta3_psi` of one iteration of the second loop. -/
def ikTheta3Psi (self : UR F) (P_14_xz : F) : F :=
  FloatArith.acos ((pow2 P_14_xz - pow2 (self.m_a 1) - pow2 (self.m_a 0))
    / (-2 * self.m_a 0 * self.m_a 1))

/-- The masking of `theta3`: values above `pi` are lowered by `pi * 2`. -/
def ikMask (theta3 : F) : F :=
  if FloatArith.gt theta3 FloatArith.pi then theta3 - FloatArith.pi * 2 else theta3

/-- The value written to `outIkSols[i][3]`, shared by both elbow branches. -/
def ikTheta4 (self : UR F) (T_06 T_01 T_46 : Mat4 F) (theta2 theta3 : F) : F :=
  let T_12 : Mat4 F :=
    calcTransformationMatrix ![-FloatArith.pi / 2, 0, self.m_d 1, theta2 - FloatArith.pi / 2]
  let T_23 : Mat4 F := calcTransformationMatrix ![0, self.m_a 0, self.m_d 2, theta3]
  let T_03 : Mat4 F := Mat4.mul (Mat4.mul T_01 T_12) T_23
  let T_36 : Mat4 F := Mat4.mul (Mat4.inverse T_03) T_06
  let T_34 : Mat4 F := Mat4.mul T_36 (Mat4.inverse T_46)
  FloatArith.atan2 (T_34 1 0) (T_34 0 0)

/-- The value written to `outIkSols[i][1]` in the branch `(i + 1) % 2 == 0`. -/
def ikTheta2Odd (self : UR F) (T_14 : Mat4 F) (theta3_psi P_14_xz : F) : F :=
  FloatArith.pi / 2 - FloatArith.atan2 (T_14 2 3) (T_14 0 3)
    + FloatArith.asin ((self.m_a 1 * FloatArith.sin (-theta3_psi)) / P_14_xz)

/-- The value written to `outIkSols[i][1]` in the other branch. -/
def ikTheta2Even (self : UR F) (T_14 : Mat4 F) (theta3_psi P_14_xz : F) : F :=
  FloatArith.pi / 2 - FloatArith.atan2 (T_14 2 3) (T_14 0 3)
    + FloatArith.asin (self.m_a 1 * FloatArith.sin theta3_psi / P_14_xz)

/-- One iteration of the second loop of `inverseKinematics`: row `i` of `outIkSols`,
given the value `theta1` the first loop wrote to `outIkSols[i][0]`. -/
def ikRow (self : UR F) (T_06 : Mat4 F) (theta1 : F) (i : Fin m_numIkSol) : Fin m_numDoF → F :=
  let T_01 : Mat4 F := ikT01 self theta1
  let T_16 : Mat4 F := ikT16 self T_06 theta1
  let theta5 : F := ikTheta5 self T_16 i
  let theta6 : F := ikTheta6 T_16 theta5
  let T_46 : Mat4 F := ikT46 self theta5 theta6
  let T_14 : Mat4 F := Mat4.mul T_16 (Mat4.inverse T_46)
  let P_14_xz : F := ikP14xz T_14
  let theta3_psi : F := ikTheta3Psi self P_14_xz
  if (i.val + 1) % 2 = 0 then
    let theta3 : F := ikMask (FloatArith.pi - theta3_psi)
    let theta2 : F := ikTheta2Odd self T_14 theta3_psi P_14_xz
    ![theta1, theta2, theta3, ikTheta4 self T_06 T_01 T_46 theta2 theta3, theta5, theta6]
  else
    let theta3 : F := ikMask (FloatArith.pi + theta3_psi)
    let theta2 : F := ikTheta2Even self T_14 theta3_psi P_14_xz
    ![theta1, theta2, theta3, ikTheta4 self T_06 T_01 T_46 theta2 theta3, theta5, theta6]

/-- The method `inverseKinematics`: the array written to `outIkSols`. -/
def inverseKinematics (self : UR F) (targetTipPose : tipPose F) :
    Fin m_numIkSol → Fin m_numDoF → F :=
  fun i => ikRow self (ikT06 self targetTipPose) (ikTheta1 self targetTipPose i) i

/-- The local `theta5` of iteration `i`, as a function of the inputs of the
iteration. -/
def ikRowTheta5 (self : UR F) (T_06 : Mat4 F) (theta1 : F) (i : Fin m_numIkSol) : F :=
  ikTheta5 self (ikT16 self T_06 theta1) i

/-- The local `theta6` of iteration `i`. -/
def ikRowTheta6 (self : UR F) (T_06 : Mat4 F) (theta1 : F) (i : Fin m_numIkSol) : F :=
  ikTheta6 (ikT16 self T_06 theta1) (ikRowTheta5 self T_06 theta1 i)

/-- The local `T_46` of iteration `i`. -/
def ikRowT46 (self : UR F) (T_06 : Mat4 F) (theta1 : F) (i : Fin m_numIkSol) : Mat4 F :=
  ikT46 self (ikRowTheta5 self T_06 theta1 i) (ikRowTheta6 self T_06 theta1 i)

/-- The local `T_14` of iteration `i`. -/
def ikRowT14 (self : UR F) (T_06 : Mat4 F) (theta1 : F) (i : Fin m_numIkSol) : Mat4 F :=
  Mat4.mul (ikT16 self T_06 theta1) (Mat4.inverse (ikRowT46 self T_06 theta1 i))

/-- The local `theta3_psi` of iteration `i`. -/
def ikRowPsi3 (self : UR F) (T_06 : Mat4 F) (theta1 : F) (i : Fin m_numIkSol) : F :=
  ikTheta3Psi self (ikP14xz (ikRowT14 self T_06 theta1 i))

/-- The value iteration `i` writes to `outIkSols[i][2]`. -/
def ikRowTheta3 (self : UR F) (T_06 : Mat4 F) (theta1 : F) (i : Fin m_numIkSol) : F :=
  if (i.val + 1) % 2 = 0 then ikMask (FloatArith.pi - ikRowPsi3 self T_06 theta1 i)
  else ikMask (FloatArith.pi + ikRowPsi3 self T_06 theta1 i)

/-- The value iteration `i` writes to `outIkSols[i][1]`. -/
def ikRowTheta2 (self : UR F) (T_06 : Mat4 F) (theta1 : F) (i : Fin m_numIkSol) : F :=
  if (i.val + 1) % 2 = 0 then
    ikTheta2Odd self (ikRowT14 self T_06 theta1 i) (ikRowPsi3 self T_06 theta1 i)
      (ikP14xz (ikRowT14 self T_06 theta1 i))
  else
    ikTheta2Even self (ikRowT14 self T_06 theta1 i) (ikRowPsi3 self T_06 theta1 i)
      (ikP14xz (ikRowT14 self T_06 theta1 i))

/-- The value iteration `i` writes to `outIkSols[i][3]`. -/
def ikRowTheta4 (self : UR F) (T_06 : Mat4 F) (theta1 : F) (i : Fin m_numIkSol) : F :=
  ikTheta4 self T_06 (ikT01 self theta1) (ikRowT46 self T_06 theta1 i)
    (ikRowTheta2 self T_06 theta1 i) (ikRowTheta3 self T_06 theta1 i)

/-- A row of `outIkSols` as the array `checkPoseReachability` reads. -/
def rowArray (row : Fin m_numDoF → F) : Nat → F :=
  fun k => if h : k < m_numDoF then row ⟨k, h⟩ else 0

/-- The table of z-offsets the spec assigns to a variant: the variant's own table,
and the largest variant's for a tag that is none of the three. -/
def variantTableD (tables : LinkDimensions F) : URtype → Fin m_numTransZ → F
  | URtype.UR3 => tables.UR3_LINK_DIMENSIONS_d
  | URtype.UR5 => tables.UR5_LINK_DIMENSIONS_d
  | _ => tables.UR10_LINK_DIMENSIONS_d

/-- The table of x-offsets the spec assigns to a variant. -/
def variantTableA (tables : LinkDimensions F) : URtype → Fin m_numTransX → F
  | URtype.UR3 => tables.UR3_LINK_DIMENSIONS_a
  | URtype.UR5 => tables.UR5_LINK_DIMENSIONS_a
  | _ => tables.UR10_LINK_DIMENSIONS_a

/-- A robot object with every member zero, standing for the object before the
constructor body runs. -/
def blank : UR F :=
  ⟨URtype.UR10, false, fun _ => 0, fun _ => 0, fun _ _ => 0,
    fun _ => ⟨0, ⟨fun _ => 0, fun _ => 0⟩⟩, fun _ _ _ => 0, fun _ _ _ => 0⟩

end UR

/-- Example link dimensions in metres, used where a statement is evaluated on a
concrete robot.  All three variants get the same arm: base height 0.089159,
shoulder offset 0.10915, upper arm 0.425, forearm 0.39225, wrist lengths 0.09465
and 0.0823, and a final z-offset of zero. -/
noncomputable def exampleTables : LinkDimensions Flt :=
  ⟨![Flt.fin 0.089159, Flt.fin 0.10915, Flt.fin 0, Flt.fin 0, Flt.fin 0, Flt.fin 0.0823, Flt.fin 0],
    ![Flt.fin 0.425, Flt.fin 0.39225, Flt.fin 0.09465, Flt.fin 0],
    ![Flt.fin 0.089159, Flt.fin 0.10915, Flt.fin 0, Flt.fin 0, Flt.fin 0, Flt.fin 0.0823, Flt.fin 0],
    ![Flt.fin 0.425, Flt.fin 0.39225, Flt.fin 0.09465, Flt.fin 0],
    ![Flt.fin 0.089159, Flt.fin 0.10915, Flt.fin 0, Flt.fin 0, Flt.fin 0, Flt.fin 0.0823, Flt.fin 0],
    ![Flt.fin 0.425, Flt.fin 0.39225, Flt.fin 0.09465, Flt.fin 0]⟩

/-- Example link dimensions whose final z-offset is not zero. -/
noncomputable def exampleTablesLongTip : LinkDimensions Flt :=
  ⟨![Flt.fin 0, Flt.fin 0, Flt.fin 0, Flt.fin 0, Flt.fin 0, Flt.fin 0, Flt.fin 1],
    ![Flt.fin 0, Flt.fin 0, Flt.fin 0, Flt.fin 0],
    ![Flt.fin 0, Flt.fin 0, Flt.fin 0, Flt.fin 0, Flt.fin 0, Flt.fin 0, Flt.fin 1],
    ![Flt.fin 0, Flt.fin 0, Flt.fin 0, Flt.fin 0],
    ![Flt.fin 0, Flt.fin 0, Flt.fin 0, Flt.fin 0, Flt.fin 0, Flt.fin 0, Flt.fin 1],
    ![Flt.fin 0, Flt.fin 0, Flt.fin 0, Flt.fin 0]⟩

end universalRobots

/-! ## Real matrices behind finite model matrices -/

/-- The model matrix with the entries of a real 4×4 matrix. -/
def Mat4.ofReal (M : Matrix (Fin 4) (Fin 4) ℝ) : Mat4 Flt := fun i j => Flt.fin (M i j)

/-- The model matrix with the entries of a real 3×3 matrix. -/
def Mat3.ofReal (M : Matrix (Fin 3) (Fin 3) ℝ) : Mat3 Flt := fun i j => Flt.fin (M i j)

/-- The homogeneous transform of one MDH row over the reals, in closed form. -/
noncomputable def mdhReal (al a d th : ℝ) : Matrix (Fin 4) (Fin 4) ℝ :=
  Matrix.of ![![Real.cos th, -Real.sin th, 0, a],
    ![Real.sin th * Real.cos al, Real.cos th * Real.cos al, -Real.sin al, -Real.sin al * d],
    ![Real.sin th * Real.sin al, Real.cos th * Real.sin al, Real.cos al, Real.cos al * d],
    ![0, 0, 0, 1]]

/-- The product of the rotations about x by `al`, about y by `be` and about z by `ga`
over the reals, in closed form. -/
noncomputable def rpyReal (al be ga : ℝ) : Matrix (Fin 3) (Fin 3) ℝ :=
  Matrix.of ![![Real.cos be * Real.cos ga, -(Real.cos be * Real.sin ga), Real.sin be],
    ![Real.cos al * Real.sin ga + Real.sin al * Real.sin be * Real.cos ga,
      Real.cos al * Real.cos ga - Real.sin al * Real.sin be * Real.sin ga,
      -(Real.sin al * Real.cos be)],
    ![Real.sin al * Real.sin ga - Real.cos al * Real.sin be * Real.cos ga,
      Real.sin al * Real.cos ga + Real.cos al * Real.sin be * Real.sin ga,
      Real.cos al * Real.cos be]]

/-- The target transform `T_07` of `inverseKinematics` over the reals, for the
position `p` and the angles `(al, be, ga)`. -/
noncomputable def t07Real (p : Fin 3 → ℝ) (al be ga : ℝ) : Matrix (Fin 4) (Fin 4) ℝ :=
  fun i j =>
    if hi : i.val < 3 then
      if hj : j.val < 3 then rpyReal al be ga ⟨i.val, hi⟩ ⟨j.val, hj⟩ else p ⟨i.val, hi⟩
    else if i = j then 1 else 0

/-- A target pose with finite position `p` and finite angles `(al, be, ga)`. -/
def finPose (p : Fin 3 → ℝ) (al be ga : ℝ) : mathLib.tipPose Flt :=
  ⟨fun i => Flt.fin (p i), ![Flt.fin al, Flt.fin be, Flt.fin ga]⟩

/-- The rotation block of a real homogeneous matrix. -/
def rotR (M : Matrix (Fin 4) (Fin 4) ℝ) : Matrix (Fin 3) (Fin 3) ℝ :=
  M.submatrix Fin.castSucc Fin.castSucc

/-- A rigid transform: orthogonal rotation block and last row `(0, 0, 0, 1)`. -/
def IsRigid (M : Matrix (Fin 4) (Fin 4) ℝ) : Prop :=
  Matrix.transpose (rotR M) * rotR M = 1 ∧ (∀ j : Fin 3, M 3 j.castSucc = 0) ∧ M 3 3 = 1

/-- The determinant of a real 3×3 matrix, expanded along the first row. -/
def det3R (M : Matrix (Fin 3) (Fin 3) ℝ) : ℝ :=
  M 0 0 * (M 1 1 * M 2 2 - M 1 2 * M 2 1)
    - M 0 1 * (M 1 0 * M 2 2 - M 1 2 * M 2 0)
    + M 0 2 * (M 1 0 * M 2 1 - M 1 1 * M 2 0)

/-- The real 3×3 matrix left after deleting row `i` and column `j`. -/
def minorR (M : Matrix (Fin 4) (Fin 4) ℝ) (i j : Fin 4) : Matrix (Fin 3) (Fin 3) ℝ :=
  fun r c => M (i.succAbove r) (j.succAbove c)

/-- Signed minor of a real matrix. -/
def cofR (M : Matrix (Fin 4) (Fin 4) ℝ) (i j : Fin 4) : ℝ :=
  if (i.val + j.val) % 2 = 0 then det3R (minorR M i j) else - det3R (minorR M i j)

/-- The determinant of a real 4×4 matrix, expanded along the first row. -/
def detR (M : Matrix (Fin 4) (Fin 4) ℝ) : ℝ :=
  M 0 0 * cofR M 0 0 + M 0 1 * cofR M 0 1 + M 0 2 * cofR M 0 2 + M 0 3 * cofR M 0 3

/-- The inverse of a rigid transform: transposed rotation block and rotated-back,
negated translation. -/
def rigidInv (M : Matrix (Fin 4) (Fin 4) ℝ) : Matrix (Fin 4) (Fin 4) ℝ :=
  fun i j =>
    if i.val < 3 then
      if j.val < 3 then M j i else -(M 0 i * M 0 3 + M 1 i * M 1 3 + M 2 i * M 2 3)
    else if i = j then 1 else 0

namespace universalRobots

/-- The nine MDH rows of `setMDHmatrix` over the reals, for real link dimensions
`d`, `a` and real joint values `t`. -/
noncomputable def mdhRowsReal (d : Fin m_numTransZ → ℝ) (a : Fin m_numTransX → ℝ)
    (t : Fin m_numDoF → ℝ) : Fin m_numReferenceFrames → Fin 4 → ℝ :=
  ![![0, 0, d 0, t 0],
    ![-(Real.pi / 2), 0, d 1, t 1 + -(Real.pi / 2)],
    ![0, a 0, d 2, t 2],
    ![0, a 1, d 3, t 3],
    ![0, a 2, d 4, Real.pi / 2],
    ![Real.pi / 2, 0, 0, t 4],
    ![-(Real.pi / 2), 0, 0, -(Real.pi / 2)],
    ![0, a 3, d 5, t 5],
    ![0, 0, d 6, 0]]

/-- The individual transform of frame `i` over the reals. -/
noncomputable def linkReal (d : Fin m_numTransZ → ℝ) (a : Fin m_numTransX → ℝ)
    (t : Fin m_numDoF → ℝ) (i : Fin m_numReferenceFrames) : Matrix (Fin 4) (Fin 4) ℝ :=
  mdhReal (mdhRowsReal d a t i 0) (mdhRowsReal d a t i 1) (mdhRowsReal d a t i 2)
    (mdhRowsReal d a t i 3)

/-- The cumulative transform of frame `n` over the reals. -/
noncomputable def frameReal (d : Fin m_numTransZ → ℝ) (a : Fin m_numTransX → ℝ)
    (t : Fin m_numDoF → ℝ) : Nat → Matrix (Fin 4) (Fin 4) ℝ
  | 0 => linkReal d a t 0
  | n + 1 =>
    frameReal d a t n * (if h : n + 1 < m_numReferenceFrames then linkReal d a t ⟨n + 1, h⟩ else 1)

end universalRobots

namespace universalRobots

/-- The local `T_06` of `inverseKinematics` over the reals. -/
noncomputable def t06Real (p : Fin 3 → ℝ) (al be ga d6 : ℝ) : Matrix (Fin 4) (Fin 4) ℝ :=
  Function.update (t07Real p al be ga) 2
    (Function.update (t07Real p al be ga 2) 3 (t07Real p al be ga 2 3 - d6))

/-- The local `T_16` over the reals. -/
noncomputable def ik16Real (d0 t1 : ℝ) (M06 : Matrix (Fin 4) (Fin 4) ℝ) :
    Matrix (Fin 4) (Fin 4) ℝ :=
  rigidInv (mdhReal 0 0 d0 t1) * M06

/-- The local `T_46` over the reals. -/
noncomputable def t46Real (d : Fin m_numTransZ → ℝ) (a : Fin m_numTransX → ℝ) (t5 t6 : ℝ) :
    Matrix (Fin 4) (Fin 4) ℝ :=
  mdhReal 0 (a 2) (d 4) (Real.pi / 2) * mdhReal (Real.pi / 2) 0 0 t5
    * (mdhReal (-Real.pi / 2) 0 0 (-Real.pi / 2) * mdhReal 0 (a 3) (d 5) t6)

/-- The argument of `acos` in the fifth angle over the reals. -/
noncomputable def ikX5Real (d : Fin m_numTransZ → ℝ) (M16 : Matrix (Fin 4) (Fin 4) ℝ) : ℝ :=
  (M16 1 3 - (d 1 + d 2 + d 3 + d 4)) / d 5

/-- The fifth angle of row `i` over the reals. -/
noncomputable def ikTheta5Real (d : Fin m_numTransZ → ℝ) (M16 : Matrix (Fin 4) (Fin 4) ℝ)
    (i : Fin m_numIkSol) : ℝ :=
  if i.val = 0 ∨ i.val = 1 ∨ i.val = 4 ∨ i.val = 5 then Real.arccos (ikX5Real d M16)
  else -Real.arccos (ikX5Real d M16)

/-- The sixth angle over the reals, for a rigid `T_16`. -/
noncomputable def ikTheta6Real (M16 : Matrix (Fin 4) (Fin 4) ℝ) (t5 : ℝ) : ℝ :=
  if t5 = 0 ∨ t5 = 2 * Real.pi then 0
  else Real.pi / 2 + Complex.arg ⟨M16 1 0 / Real.sin t5, -M16 1 1 / Real.sin t5⟩

/-- The local `T_14` over the reals. -/
noncomputable def ik14Real (d : Fin m_numTransZ → ℝ) (a : Fin m_numTransX → ℝ)
    (M16 : Matrix (Fin 4) (Fin 4) ℝ) (t5 t6 : ℝ) : Matrix (Fin 4) (Fin 4) ℝ :=
  M16 * rigidInv (t46Real d a t5 t6)

/-- The local `P_14_xz` over the reals. -/
noncomputable def ikPReal (M14 : Matrix (Fin 4) (Fin 4) ℝ) : ℝ :=
  Real.sqrt (M14 0 3 * M14 0 3 + M14 2 3 * M14 2 3)

/-- The argument of `acos` in `theta3_psi` over the reals. -/
noncomputable def ikArg3Real (a : Fin m_numTransX → ℝ) (P : ℝ) : ℝ :=
  (P * P - a 1 * a 1 - a 0 * a 0) / (-2 * a 0 * a 1)

end universalRobots

namespace universalRobots

/-- Example link dimensions with a long offset `d[4] = 2`, `d[5] = 1`, upper arm and
forearm of length 1 and all other dimensions zero, the same for the three variants. -/
noncomputable def exampleTablesLongWrist : LinkDimensions Flt :=
  ⟨![Flt.fin 0, Flt.fin 0, Flt.fin 0, Flt.fin 0, Flt.fin 2, Flt.fin 1, Flt.fin 0],
    ![Flt.fin 1, Flt.fin 1, Flt.fin 0, Flt.fin 0],
    ![Flt.fin 0, Flt.fin 0, Flt.fin 0, Flt.fin 0, Flt.fin 2, Flt.fin 1, Flt.fin 0],
    ![Flt.fin 1, Flt.fin 1, Flt.fin 0, Flt.fin 0],
    ![Flt.fin 0, Flt.fin 0, Flt.fin 0, Flt.fin 0, Flt.fin 2, Flt.fin 1, Flt.fin 0],
    ![Flt.fin 1, Flt.fin 1, Flt.fin 0, Flt.fin 0]⟩

end universalRobots

namespace universalRobots

/-- The robot built from the long-wrist example dimensions with an end-effector of
length 1. -/
noncomputable def exampleLongWristRobot : UR Flt :=
  UR.ctor exampleTablesLongWrist UR.blank URtype.UR5 true (Flt.fin 1)

/-- A target at `(0, 3, 29/10 + (3/2)·√3)` with the tool rolled by `-π/6`. -/
noncomputable def exampleFarTarget : mathLib.tipPose Flt :=
  finPose ![0, 3, 29 / 10 + 3 / 2 * Real.sqrt 3] (-(Real.pi / 6)) 0 0

end universalRobots

namespace universalRobots

/-- The rotation block the chain of nine MDH transforms has at the zero
configuration: the product of the quarter turns about x and about z that the
fixed rows of the MDH table contribute. -/
def zeroConfigRotation : Matrix (Fin 3) (Fin 3) ℝ :=
  Matrix.of ![![0, 1, 0], ![0, 0, 1], ![1, 0, 0]]

end universalRobots

namespace universalRobots
namespace UR
open mathLib
variable {F : Type} [FloatArith F]

/-- The memory `inverseKinematics` runs on: the robot object and the caller's array
`outIkSols`. -/
structure ikState (F : Type) where
  robot : UR F
  outIkSols : Fin m_numIkSol → Fin m_numDoF → F

/-- One iteration of the first loop of `inverseKinematics`: the assignment to
`(*outIkSols)[row][0]`.  The locals `theta1_psi` and `theta1_phi` were computed from
the robot `self` before the loop. -/
def ikFirstLoopBody (self : UR F) (targetTipPose : tipPose F) (st : ikState F)
    (row : Fin m_numIkSol) : ikState F :=
  { st with
    outIkSols := Function.update st.outIkSols row
      (Function.update (st.outIkSols row) 0 (ikTheta1 self targetTipPose row)) }

/-- One iteration of the second loop of `inverseKinematics`: it reads
`(*outIkSols)[i][0]` and the members `m_d`, `m_a`, and assigns the other five
entries of row `i`. -/
def ikSecondLoopBody (T_06 : Mat4 F) (st : ikState F) (i : Fin m_numIkSol) : ikState F :=
  { st with
    outIkSols := Function.update st.outIkSols i (ikRow st.robot T_06 (st.outIkSols i 0) i) }

/-- The method `inverseKinematics` as a transformer of the robot object and the
caller's array: the first loop, the local `T_06`, the second loop. -/
def inverseKinematicsRun (self : UR F) (targetTipPose : tipPose F)
    (outIkSols : Fin m_numIkSol → Fin m_numDoF → F) : ikState F :=
  let st1 : ikState F :=
    (List.finRange m_numIkSol).foldl (ikFirstLoopBody self targetTipPose) ⟨self, outIkSols⟩
  (List.finRange m_numIkSol).foldl (ikSecondLoopBody (ikT06 st1.robot targetTipPose)) st1

/-- The method `checkPoseReachability` together with the robot object it leaves
behind.  The method is declared `const` and its body assigns to no member. -/
def checkPoseReachabilityRun (self : UR F) (ikSol : Nat → F) : Bool × UR F :=
  (checkPoseReachabilityFrom ikSol 0, self)

/-- The reference frame the spec assigns to each joint: the cumulative frames
0, 1, 2, 3, 5, 7 for the joints 1 to 6; the frames 4 and 6 are the phantom frames
and the frame 8 is the tip. -/
def jointFrame : Fin m_numDoF → Fin m_numReferenceFrames :=
  ![0, 1, 2, 3, 5, 7]

/-- The value of the local `currentJoint` of `forwardKinematics` when iteration `n`
of the second loop starts: the number of joint frames below `n`. -/
def jointsBefore (n : Nat) : Nat :=
  if n ≤ 4 then n else if n = 5 then 4 else if n ≤ 7 then 5 else 6

end UR
end universalRobots

namespace universalRobots

end universalRobots

/-- A scalar of the model that is a number. -/
def Flt.IsFin (x : Flt) : Prop := ∃ r : ℝ, x = Flt.fin r

namespace universalRobots
namespace UR
open mathLib
variable {F : Type} [FloatArith F]

/-- The first row of the elbow pair `k`: row `2k` of `outIkSols`. -/
def evenRow (k : Fin 4) : Fin m_numIkSol :=
  ⟨2 * k.val, by have h := k.isLt; show 2 * k.val < 8; omega⟩

/-- The second row of the elbow pair `k`: row `2k + 1` of `outIkSols`. -/
def oddRow (k : Fin 4) : Fin m_numIkSol :=
  ⟨2 * k.val + 1, by have h := k.isLt; show 2 * k.val + 1 < 8; omega⟩

/-- The number of rows of `inverseKinematics` that `checkPoseReachability`
accepts. -/
def validRowCount (self : UR F) (targetTipPose : tipPose F) : Nat :=
  (List.finRange m_numIkSol).countP
    (fun i => checkPoseReachability self (rowArray (inverseKinematics self targetTipPose i)))

end UR
end universalRobots

/-! ## Theorems -/

/-! ### Reading the entries of array literals -/

section VecLiterals
variable {α : Type}

@[simp] theorem vec3_zero (a0 a1 a2 : α) :
    (![a0, a1, a2] : Fin 3 → α) 0 = a0 := rfl

@[simp] theorem vec3_one (a0 a1 a2 : α) :
    (![a0, a1, a2] : Fin 3 → α) 1 = a1 := rfl

@[simp] theorem vec3_two (a0 a1 a2 : α) :
    (![a0, a1, a2] : Fin 3 → α) 2 = a2 := rfl

@[simp] theorem vec4_zero (a0 a1 a2 a3 : α) :
    (![a0, a1, a2, a3] : Fin 4 → α) 0 = a0 := rfl

@[simp] theorem vec4_one (a0 a1 a2 a3 : α) :
    (![a0, a1, a2, a3] : Fin 4 → α) 1 = a1 := rfl

@[simp] theorem vec4_two (a0 a1 a2 a3 : α) :
    (![a0, a1, a2, a3] : Fin 4 → α) 2 = a2 := rfl

@[simp] theorem vec4_three (a0 a1 a2 a3 : α) :
    (![a0, a1, a2, a3] : Fin 4 → α) 3 = a3 := rfl

@[simp] theorem vec6_zero (a0 a1 a2 a3 a4 a5 : α) :
    (![a0, a1, a2, a3, a4, a5] : Fin 6 → α) 0 = a0 := rfl

@[simp] theorem vec6_one (a0 a1 a2 a3 a4 a5 : α) :
    (![a0, a1, a2, a3, a4, a5] : Fin 6 → α) 1 = a1 := rfl

@[simp] theorem vec6_two (a0 a1 a2 a3 a4 a5 : α) :
    (![a0, a1, a2, a3, a4, a5] : Fin 6 → α) 2 = a2 := rfl

@[simp] theorem vec6_three (a0 a1 a2 a3 a4 a5 : α) :
    (![a0, a1, a2, a3, a4, a5] : Fin 6 → α) 3 = a3 := rfl

@[simp] theorem vec6_four (a0 a1 a2 a3 a4 a5 : α) :
    (![a0, a1, a2, a3, a4, a5] : Fin 6 → α) 4 = a4 := rfl

@[simp] theorem vec6_five (a0 a1 a2 a3 a4 a5 : α) :
    (![a0, a1, a2, a3, a4, a5] : Fin 6 → α) 5 = a5 := rfl

@[simp] theorem vec7_zero (a0 a1 a2 a3 a4 a5 a6 : α) :
    (![a0, a1, a2, a3, a4, a5, a6] : Fin 7 → α) 0 = a0 := rfl

@[simp] theorem vec7_one (a0 a1 a2 a3 a4 a5 a6 : α) :
    (![a0, a1, a2, a3, a4, a5, a6] : Fin 7 → α) 1 = a1 := rfl

@[simp] theorem vec7_two (a0 a1 a2 a3 a4 a5 a6 : α) :
    (![a0, a1, a2, a3, a4, a5, a6] : Fin 7 → α) 2 = a2 := rfl

@[simp] theorem vec7_three (a0 a1 a2 a3 a4 a5 a6 : α) :
    (![a0, a1, a2, a3, a4, a5, a6] : Fin 7 → α) 3 = a3 := rfl

@[simp] theorem vec7_four (a0 a1 a2 a3 a4 a5 a6 : α) :
    (![a0, a1, a2, a3, a4, a5, a6] : Fin 7 → α) 4 = a4 := rfl

@[simp] theorem vec7_five (a0 a1 a2 a3 a4 a5 a6 : α) :
    (![a0, a1, a2, a3, a4, a5, a6] : Fin 7 → α) 5 = a5 := rfl

@[simp] theorem vec7_six (a0 a1 a2 a3 a4 a5 a6 : α) :
    (![a0, a1, a2, a3, a4, a5, a6] : Fin 7 → α) 6 = a6 := rfl

@[simp] theorem vec9_zero (a0 a1 a2 a3 a4 a5 a6 a7 a8 : α) :
    (![a0, a1, a2, a3, a4, a5, a6, a7, a8] : Fin 9 → α) 0 = a0 := rfl

@[simp] theorem vec9_one (a0 a1 a2 a3 a4 a5 a6 a7 a8 : α) :
    (![a0, a1, a2, a3, a4, a5, a6, a7, a8] : Fin 9 → α) 1 = a1 := rfl

@[simp] theorem vec9_two (a0 a1 a2 a3 a4 a5 a6 a7 a8 : α) :
    (![a0, a1, a2, a3, a4, a5, a6, a7, a8] : Fin 9 → α) 2 = a2 := rfl

@[simp] theorem vec9_three (a0 a1 a2 a3 a4 a5 a6 a7 a8 : α) :
    (![a0, a1, a2, a3, a4, a5, a6, a7, a8] : Fin 9 → α) 3 = a3 := rfl

@[simp] theorem vec9_four (a0 a1 a2 a3 a4 a5 a6 a7 a8 : α) :
    (![a0, a1, a2, a3, a4, a5, a6, a7, a8] : Fin 9 → α) 4 = a4 := rfl

@[simp] theorem vec9_five (a0 a1 a2 a3 a4 a5 a6 a7 a8 : α) :
    (![a0, a1, a2, a3, a4, a5, a6, a7, a8] : Fin 9 → α) 5 = a5 := rfl

@[simp] theorem vec9_six (a0 a1 a2 a3 a4 a5 a6 a7 a8 : α) :
    (![a0, a1, a2, a3, a4, a5, a6, a7, a8] : Fin 9 → α) 6 = a6 := rfl

@[simp] theorem vec9_seven (a0 a1 a2 a3 a4 a5 a6 a7 a8 : α) :
    (![a0, a1, a2, a3, a4, a5, a6, a7, a8] : Fin 9 → α) 7 = a7 := rfl

@[simp] theorem vec9_eight (a0 a1 a2 a3 a4 a5 a6 a7 a8 : α) :
    (![a0, a1, a2, a3, a4, a5, a6, a7, a8] : Fin 9 → α) 8 = a8 := rfl

end VecLiterals

/-! ### Arithmetic of the real model -/

namespace Flt

theorem fin_injective {x y : ℝ} (h : fin x = fin y) : x = y := by
  cases h; rfl

@[simp] theorem fin_inj_iff (x y : ℝ) : (fin x = fin y) ↔ x = y :=
  ⟨fin_injective, fun h => by rw [h]⟩

@[simp] theorem nan_ne_fin (x : ℝ) : nan ≠ fin x := by
  intro h; cases h

@[simp] theorem lit_zero : (0 : Flt) = fin 0 := by
  show fin ((0 : ℕ) : ℝ) = fin 0
  simp

@[simp] theorem lit_one : (1 : Flt) = fin 1 := by
  show fin ((1 : ℕ) : ℝ) = fin 1
  simp

@[simp] theorem lit_two : (2 : Flt) = fin 2 := by
  show fin ((2 : ℕ) : ℝ) = fin 2
  simp

@[simp] theorem lit_ninety : (90 : Flt) = fin 90 := by
  show fin ((90 : ℕ) : ℝ) = fin 90
  simp

@[simp] theorem lit_one_eighty : (180 : Flt) = fin 180 := by
  show fin ((180 : ℕ) : ℝ) = fin 180
  simp

@[simp] theorem pi_eq : (FloatArith.pi : Flt) = fin Real.pi := rfl

@[simp] theorem add_fin (x y : ℝ) : fin x + fin y = fin (x + y) := rfl
@[simp] theorem sub_fin (x y : ℝ) : fin x - fin y = fin (x - y) := rfl
@[simp] theorem mul_fin (x y : ℝ) : fin x * fin y = fin (x * y) := rfl
@[simp] theorem neg_fin (x : ℝ) : -fin x = fin (-x) := rfl
@[simp] theorem sin_fin (x : ℝ) : FloatArith.sin (fin x) = fin (Real.sin x) := rfl
@[simp] theorem cos_fin (x : ℝ) : FloatArith.cos (fin x) = fin (Real.cos x) := rfl

@[simp] theorem nan_add (x : Flt) : nan + x = nan := rfl
@[simp] theorem add_nan (x : Flt) : x + nan = nan := by cases x <;> rfl
@[simp] theorem nan_sub (x : Flt) : nan - x = nan := rfl
@[simp] theorem sub_nan (x : Flt) : x - nan = nan := by cases x <;> rfl
@[simp] theorem nan_mul (x : Flt) : nan * x = nan := rfl
@[simp] theorem mul_nan (x : Flt) : x * nan = nan := by cases x <;> rfl
@[simp] theorem nan_div (x : Flt) : nan / x = nan := rfl
@[simp] theorem div_nan (x : Flt) : x / nan = nan := by cases x <;> rfl
@[simp] theorem neg_nan : -nan = nan := rfl
@[simp] theorem sin_nan : FloatArith.sin nan = nan := rfl
@[simp] theorem cos_nan : FloatArith.cos nan = nan := rfl
@[simp] theorem acos_nan : FloatArith.acos nan = nan := rfl
@[simp] theorem asin_nan : FloatArith.asin nan = nan := rfl
@[simp] theorem sqrt_nan : FloatArith.sqrt nan = nan := rfl
@[simp] theorem nan_atan2 (x : Flt) : FloatArith.atan2 nan x = nan := rfl
@[simp] theorem atan2_nan (x : Flt) : FloatArith.atan2 x nan = nan := by cases x <;> rfl

theorem div_fin (x y : ℝ) : fin x / fin y = if y = 0 then nan else fin (x / y) := rfl

theorem div_fin_of_ne {y : ℝ} (x : ℝ) (h : y ≠ 0) : fin x / fin y = fin (x / y) := by
  rw [div_fin, if_neg h]

@[simp] theorem div_fin_zero (x : ℝ) : fin x / fin 0 = nan := by
  rw [div_fin, if_pos rfl]

theorem sqrt_fin (x : ℝ) :
    FloatArith.sqrt (fin x) = if x < 0 then nan else fin (Real.sqrt x) := rfl

theorem acos_fin (x : ℝ) :
    FloatArith.acos (fin x) = if -1 ≤ x ∧ x ≤ 1 then fin (Real.arccos x) else nan := rfl

theorem asin_fin (x : ℝ) :
    FloatArith.asin (fin x) = if -1 ≤ x ∧ x ≤ 1 then fin (Real.arcsin x) else nan := rfl

@[simp] theorem atan2_fin (y x : ℝ) :
    FloatArith.atan2 (fin y) (fin x) = fin (Complex.arg ⟨x, y⟩) := rfl

@[simp] theorem isnan_fin (x : ℝ) : FloatArith.isnan (fin x) = false := rfl
@[simp] theorem isnan_nan : FloatArith.isnan nan = true := rfl

theorem isnan_iff (x : Flt) : FloatArith.isnan x = true ↔ x = nan := by
  cases x <;> simp

@[simp] theorem eq_fin (x y : ℝ) : FloatArith.eq (fin x) (fin y) = decide (x = y) := rfl
@[simp] theorem eq_nan_left (x : Flt) : FloatArith.eq nan x = false := rfl
@[simp] theorem eq_nan_right (x : Flt) : FloatArith.eq x nan = false := by cases x <;> rfl
@[simp] theorem gt_fin (x y : ℝ) : FloatArith.gt (fin x) (fin y) = decide (x > y) := rfl
@[simp] theorem gt_nan_left (x : Flt) : FloatArith.gt nan x = false := rfl
@[simp] theorem gt_nan_right (x : Flt) : FloatArith.gt x nan = false := by cases x <;> rfl

end Flt

namespace universalRobots
namespace UR
open mathLib
variable {F : Type} [FloatArith F]

/-! ### Construction -/

theorem ctor_m_d (tables : LinkDimensions F) (fresh : UR F) (robotType : URtype)
    (endEffector : Bool) (L : F) :
    (ctor tables fresh robotType endEffector L).m_d
      = Function.update (variantTableD tables robotType) 6 L := by
  cases robotType <;> rfl

theorem ctor_m_a (tables : LinkDimensions F) (fresh : UR F) (robotType : URtype)
    (endEffector : Bool) (L : F) :
    (ctor tables fresh robotType endEffector L).m_a = variantTableA tables robotType := by
  cases robotType <;> rfl

/-- C3 (amended): constructing with the end-effector flag set makes the final
z-offset `d[6]` equal to the length `L` itself: the table's `d[6]` is overwritten,
so the result is the table's `d[6]` plus `L` when the table's `d[6]` is zero.  The
offsets `d[0..5]` and `a[0..3]` are those of the variant's table. -/
theorem C3_endEffector_overwrites_last_offset (tables : LinkDimensions Flt) (fresh : UR Flt)
    (robotType : URtype) (L : Flt) :
    (ctor tables fresh robotType true L).m_d 6 = L
    ∧ (variantTableD tables robotType 6 = 0 →
        (ctor tables fresh robotType true L).m_d 6 = variantTableD tables robotType 6 + L)
    ∧ (∀ k : Fin m_numTransZ, k ≠ 6 →
        (ctor tables fresh robotType true L).m_d k = variantTableD tables robotType k)
    ∧ (ctor tables fresh robotType true L).m_a = variantTableA tables robotType := by
  refine ⟨?_, ?_, ?_, ctor_m_a tables fresh robotType true L⟩
  · rw [ctor_m_d]; simp
  · intro h0
    rw [ctor_m_d, h0]
    cases L <;> simp
  · intro k hk
    rw [ctor_m_d, Function.update_noteq hk]

/-- C3, witness: the example tables have a zero final z-offset, and there the
length 0.15 becomes the table's `d[6]` plus 0.15. -/
theorem C3_endEffector_overwrites_last_offset_witness :
    (ctor exampleTables blank URtype.UR5 true (Flt.fin 0.15)).m_d 6
      = variantTableD exampleTables URtype.UR5 6 + Flt.fin 0.15 :=
  (C3_endEffector_overwrites_last_offset exampleTables blank URtype.UR5 (Flt.fin 0.15)).2.1
    (by simp [variantTableD, exampleTables])

/-- C3, counterexample: with a table whose final z-offset is 1 and the length 2, the
constructed `d[6]` is 2 and not the table's `d[6]` plus the length, 3. -/
theorem C3_counterexample :
    ¬ ((ctor exampleTablesLongTip blank URtype.UR5 true (Flt.fin 2)).m_d 6
          = variantTableD exampleTablesLongTip URtype.UR5 6 + Flt.fin 2
        ∧ (∀ k : Fin m_numTransZ, k ≠ 6 →
            (ctor exampleTablesLongTip blank URtype.UR5 true (Flt.fin 2)).m_d k
              = variantTableD exampleTablesLongTip URtype.UR5 k)
        ∧ (ctor exampleTablesLongTip blank URtype.UR5 true (Flt.fin 2)).m_a
            = variantTableA exampleTablesLongTip URtype.UR5) := by
  rintro ⟨h, -⟩
  rw [ctor_m_d] at h
  simp [variantTableD, exampleTablesLongTip] at h

/-- C4 (the code at the failing input): the constructor ignores the end-effector
flag.  With the flag false it stores the same offsets as with the flag true, the
final z-offset is the length passed, and for the example robot built with flag
false and length 0.15 the final z-offset is 0.15 and differs from the table's. -/
theorem C4_flag_false_still_overwrites :
    (∀ (tables : LinkDimensions Flt) (fresh : UR Flt) (robotType : URtype) (L : Flt),
        (ctor tables fresh robotType false L).m_d 6 = L
        ∧ (ctor tables fresh robotType false L).m_d = (ctor tables fresh robotType true L).m_d)
    ∧ (ctor exampleTables blank URtype.UR5 false (Flt.fin 0.15)).m_d 6 = Flt.fin 0.15
    ∧ (ctor exampleTables blank URtype.UR5 false (Flt.fin 0.15)).m_d 6
        ≠ variantTableD exampleTables URtype.UR5 6 := by
  refine ⟨fun tables fresh robotType L => ⟨?_, ?_⟩, ?_, ?_⟩
  · rw [ctor_m_d]; simp
  · rw [ctor_m_d, ctor_m_d]
  · rw [ctor_m_d]; simp
  · rw [ctor_m_d]
    simp [variantTableD, exampleTables]
    norm_num

/-- C8: for a variant tag that is none of the three known variants the constructor
returns a robot (it is a total function), its x-offsets are those of UR10, and its
z-offsets are those of UR10 with only `d[6]` replaced by the end-effector length;
the switch alone copies both UR10 tables unchanged. -/
theorem C8_unknown_variant_uses_UR10 (tables : LinkDimensions F) (fresh : UR F) (tag : Nat)
    (endEffector : Bool) (L : F) :
    (selectTables tables fresh (URtype.other tag)).m_d = tables.UR10_LINK_DIMENSIONS_d
    ∧ (selectTables tables fresh (URtype.other tag)).m_a = tables.UR10_LINK_DIMENSIONS_a
    ∧ (ctor tables fresh (URtype.other tag) endEffector L).m_d
        = Function.update tables.UR10_LINK_DIMENSIONS_d 6 L
    ∧ (ctor tables fresh (URtype.other tag) endEffector L).m_a = tables.UR10_LINK_DIMENSIONS_a
    ∧ (ctor tables fresh (URtype.other tag) endEffector L).m_d
        = (ctor tables fresh URtype.UR10 endEffector L).m_d
    ∧ (ctor tables fresh (URtype.other tag) endEffector L).m_a
        = (ctor tables fresh URtype.UR10 endEffector L).m_a :=
  ⟨rfl, rfl, rfl, rfl, rfl, rfl⟩

/-! ### Reachability check -/

theorem checkPoseReachabilityFrom_eq_false_iff (ikSol : Nat → F) (n i : Nat) (hn : 6 - i = n) :
    checkPoseReachabilityFrom ikSol i = false
      ↔ ∃ k, i ≤ k ∧ k < 6 ∧ FloatArith.isnan (ikSol k) = true := by
  induction n generalizing i with
  | zero =>
    have hi : ¬ i < 6 := by omega
    rw [checkPoseReachabilityFrom, if_neg hi]
    constructor
    · intro h; cases h
    · rintro ⟨k, h1, h2, -⟩; omega
  | succ m ih =>
    have hi : i < 6 := by omega
    rw [checkPoseReachabilityFrom, if_pos hi]
    by_cases hnan : FloatArith.isnan (ikSol i) = true
    · rw [if_pos hnan]
      exact ⟨fun _ => ⟨i, le_refl i, hi, hnan⟩, fun _ => rfl⟩
    · rw [if_neg hnan, ih (i + 1) (by omega)]
      constructor
      · rintro ⟨k, h1, h2, h3⟩
        exact ⟨k, by omega, h2, h3⟩
      · rintro ⟨k, h1, h2, h3⟩
        have hne : k ≠ i := by
          intro hki
          rw [hki] at h3
          exact hnan h3
        exact ⟨k, by omega, h2, h3⟩

theorem checkPoseReachability_eq_false_iff (self : UR F) (ikSol : Nat → F) :
    checkPoseReachability self ikSol = false
      ↔ ∃ k, k < 6 ∧ FloatArith.isnan (ikSol k) = true := by
  unfold checkPoseReachability
  rw [checkPoseReachabilityFrom_eq_false_iff ikSol 6 0 rfl]
  constructor
  · rintro ⟨k, -, h2, h3⟩; exact ⟨k, h2, h3⟩
  · rintro ⟨k, h2, h3⟩; exact ⟨k, Nat.zero_le k, h2, h3⟩

/-- C5: `checkPoseReachability` returns false exactly when one of the six angles of
the row is not-a-number, returns true exactly when none is, and its result is the
same for any two robots and any two arrays that agree on the six angles. -/
theorem C5_checkPoseReachability_iff_no_nan (self other : UR F) (ikSol ikSol2 : Nat → F) :
    (checkPoseReachability self ikSol = false
        ↔ ∃ k, k < 6 ∧ FloatArith.isnan (ikSol k) = true)
    ∧ (checkPoseReachability self ikSol = true
        ↔ ∀ k, k < 6 → FloatArith.isnan (ikSol k) = false)
    ∧ ((∀ k, k < 6 → ikSol2 k = ikSol k) →
        checkPoseReachability other ikSol2 = checkPoseReachability self ikSol) := by
  refine ⟨checkPoseReachability_eq_false_iff self ikSol, ?_, ?_⟩
  · rw [← Bool.not_eq_false, checkPoseReachability_eq_false_iff]
    constructor
    · intro h k hk
      cases hv : FloatArith.isnan (ikSol k)
      · rfl
      · exact absurd ⟨k, hk, hv⟩ h
    · rintro h ⟨k, hk, hv⟩
      rw [h k hk] at hv
      cases hv
  · intro hagree
    have key : checkPoseReachability other ikSol2 = false
        ↔ checkPoseReachability self ikSol = false := by
      rw [checkPoseReachability_eq_false_iff, checkPoseReachability_eq_false_iff]
      constructor
      · rintro ⟨k, hk, hv⟩
        exact ⟨k, hk, by rw [← hagree k hk]; exact hv⟩
      · rintro ⟨k, hk, hv⟩
        exact ⟨k, hk, by rw [hagree k hk]; exact hv⟩
    cases h1 : checkPoseReachability other ikSol2 <;>
      cases h2 : checkPoseReachability self ikSol <;> simp_all

/-- C5, witness: a row whose fourth angle is not-a-number is rejected, for two
different robots and two arrays that differ only beyond the six angles. -/
theorem C5_checkPoseReachability_iff_no_nan_witness :
    checkPoseReachability (ctor exampleTables blank URtype.UR3 true (Flt.fin 1))
        (fun k => if k = 3 then Flt.nan else if k < 6 then Flt.fin 0 else Flt.fin 7)
      = checkPoseReachability (blank : UR Flt)
          (fun k => if k = 3 then Flt.nan else Flt.fin 0) :=
  (C5_checkPoseReachability_iff_no_nan (blank : UR Flt)
      (ctor exampleTables blank URtype.UR3 true (Flt.fin 1))
      (fun k => if k = 3 then Flt.nan else Flt.fin 0)
      (fun k => if k = 3 then Flt.nan else if k < 6 then Flt.fin 0 else Flt.fin 7)).2.2
    (by
      intro k hk
      by_cases h3 : k = 3
      · simp [h3]
      · simp [h3, hk])

end UR
end universalRobots

/-! ### Finite matrices -/

theorem Mat4.mul_ofReal (A B : Matrix (Fin 4) (Fin 4) ℝ) :
    Mat4.mul (Mat4.ofReal A) (Mat4.ofReal B) = Mat4.ofReal (A * B) := by
  funext i j
  simp only [Mat4.mul, Mat4.ofReal, Matrix.mul_apply, Fin.sum_univ_four, Flt.mul_fin, Flt.add_fin,
    add_assoc]

theorem Mat4.ofReal_injective {A B : Matrix (Fin 4) (Fin 4) ℝ}
    (h : Mat4.ofReal A = Mat4.ofReal B) : A = B := by
  ext i j
  exact Flt.fin_injective (congrFun (congrFun h i) j)

theorem castSucc_zero_fin3 : Fin.castSucc (0 : Fin 3) = (0 : Fin 4) := rfl

theorem castSucc_one_fin3 : Fin.castSucc (1 : Fin 3) = (1 : Fin 4) := rfl

theorem castSucc_two_fin3 : Fin.castSucc (2 : Fin 3) = (2 : Fin 4) := rfl

theorem rotR_mul (A B : Matrix (Fin 4) (Fin 4) ℝ) (hB : ∀ j : Fin 3, B 3 j.castSucc = 0) :
    rotR (A * B) = rotR A * rotR B := by
  ext i j
  simp only [rotR, Matrix.submatrix_apply, Matrix.mul_apply, Fin.sum_univ_four, Fin.sum_univ_three]
  rw [hB j]
  simp [castSucc_two_fin3]

theorem IsRigid.mul {A B : Matrix (Fin 4) (Fin 4) ℝ} (hA : IsRigid A) (hB : IsRigid B) :
    IsRigid (A * B) := by
  obtain ⟨hA1, hA2, hA3⟩ := hA
  obtain ⟨hB1, hB2, hB3⟩ := hB
  have h0 : A 3 0 = 0 := hA2 0
  have h1 : A 3 1 = 0 := hA2 1
  have h2 : A 3 2 = 0 := hA2 2
  refine ⟨?_, ?_, ?_⟩
  · rw [rotR_mul A B hB2, Matrix.transpose_mul, Matrix.mul_assoc, ← Matrix.mul_assoc _ (rotR A),
      hA1, Matrix.one_mul, hB1]
  · intro j
    simp only [Matrix.mul_apply, Fin.sum_univ_four]
    rw [h0, h1, h2, hA3, hB2 j]
    simp
  · simp only [Matrix.mul_apply, Fin.sum_univ_four]
    rw [h0, h1, h2, hA3, hB3]
    simp

theorem isRigid_one : IsRigid (1 : Matrix (Fin 4) (Fin 4) ℝ) := by
  refine ⟨?_, ?_, ?_⟩
  · have : rotR (1 : Matrix (Fin 4) (Fin 4) ℝ) = 1 := by
      ext i j
      fin_cases i <;> fin_cases j <;> simp [rotR, Matrix.one_apply, castSucc_two_fin3]
    rw [this]
    simp
  · intro j
    fin_cases j <;> simp [Matrix.one_apply, castSucc_two_fin3]
  · simp

theorem mdhReal_zero_zero (al a d th : ℝ) : mdhReal al a d th 0 0 = Real.cos th := rfl

theorem mdhReal_zero_one (al a d th : ℝ) : mdhReal al a d th 0 1 = -Real.sin th := rfl

theorem mdhReal_zero_two (al a d th : ℝ) : mdhReal al a d th 0 2 = 0 := rfl

theorem mdhReal_zero_three (al a d th : ℝ) : mdhReal al a d th 0 3 = a := rfl

theorem mdhReal_one_zero (al a d th : ℝ) : mdhReal al a d th 1 0 = Real.sin th * Real.cos al := rfl

theorem mdhReal_one_one (al a d th : ℝ) : mdhReal al a d th 1 1 = Real.cos th * Real.cos al := rfl

theorem mdhReal_one_two (al a d th : ℝ) : mdhReal al a d th 1 2 = -Real.sin al := rfl

theorem mdhReal_one_three (al a d th : ℝ) : mdhReal al a d th 1 3 = -Real.sin al * d := rfl

theorem mdhReal_two_zero (al a d th : ℝ) : mdhReal al a d th 2 0 = Real.sin th * Real.sin al := rfl

theorem mdhReal_two_one (al a d th : ℝ) : mdhReal al a d th 2 1 = Real.cos th * Real.sin al := rfl

theorem mdhReal_two_two (al a d th : ℝ) : mdhReal al a d th 2 2 = Real.cos al := rfl

theorem mdhReal_two_three (al a d th : ℝ) : mdhReal al a d th 2 3 = Real.cos al * d := rfl

theorem mdhReal_three_zero (al a d th : ℝ) : mdhReal al a d th 3 0 = 0 := rfl

theorem mdhReal_three_one (al a d th : ℝ) : mdhReal al a d th 3 1 = 0 := rfl

theorem mdhReal_three_two (al a d th : ℝ) : mdhReal al a d th 3 2 = 0 := rfl

theorem mdhReal_three_three (al a d th : ℝ) : mdhReal al a d th 3 3 = 1 := rfl

theorem isRigid_mdhReal (al a d th : ℝ) : IsRigid (mdhReal al a d th) := by
  refine ⟨?_, ?_, ?_⟩
  · ext i j
    have hs := Real.sin_sq_add_cos_sq th
    have hs2 := Real.sin_sq_add_cos_sq al
    fin_cases i <;> fin_cases j <;>
      simp only [rotR, Matrix.mul_apply, Matrix.transpose_apply, Matrix.submatrix_apply,
        Fin.sum_univ_three, Fin.mk_zero, Fin.mk_one, Fin.reduceFinMk, Fin.zero_eta, Fin.isValue,
        castSucc_zero_fin3, castSucc_one_fin3, castSucc_two_fin3,
        mdhReal_zero_zero, mdhReal_zero_one, mdhReal_zero_two, mdhReal_zero_three, mdhReal_one_zero, mdhReal_one_one,
        mdhReal_one_two, mdhReal_one_three, mdhReal_two_zero, mdhReal_two_one, mdhReal_two_two, mdhReal_two_three,
        Matrix.one_apply_eq, Matrix.one_apply_ne, ne_eq, Fin.reduceEq, not_false_eq_true] <;>
      first
        | nlinarith [hs, hs2]
        | linear_combination (Real.cos th * Real.sin th) * hs2
  · intro j
    fin_cases j <;> rfl
  · rfl

/-- Every column of the rotation block of a rigid transform has unit length. -/
theorem IsRigid.col_sq {M : Matrix (Fin 4) (Fin 4) ℝ} (h : IsRigid M) (j : Fin 3) :
    M 0 j.castSucc ^ 2 + M 1 j.castSucc ^ 2 + M 2 j.castSucc ^ 2 = 1 := by
  have := congrFun (congrFun h.1 j) j
  simp only [rotR, Matrix.mul_apply, Matrix.transpose_apply, Matrix.submatrix_apply,
    Fin.sum_univ_three, castSucc_zero_fin3, castSucc_one_fin3, castSucc_two_fin3,
    Matrix.one_apply_eq] at this
  nlinarith [this]

/-! ### Inverse of a rigid transform -/

theorem Mat4.cofactor_ofReal (M : Matrix (Fin 4) (Fin 4) ℝ) (i j : Fin 4) :
    Mat4.cofactor (Mat4.ofReal M) i j = Flt.fin (cofR M i j) := by
  unfold Mat4.cofactor cofR
  split_ifs <;>
    simp only [Mat3.det, det3R, Mat4.minor, minorR, Mat4.ofReal, Flt.mul_fin, Flt.sub_fin,
      Flt.add_fin, Flt.neg_fin]

theorem Mat4.det_ofReal (M : Matrix (Fin 4) (Fin 4) ℝ) :
    Mat4.det (Mat4.ofReal M) = Flt.fin (detR M) := by
  unfold Mat4.det detR
  simp only [Mat4.cofactor_ofReal, Mat4.ofReal, Flt.mul_fin, Flt.add_fin]

theorem Mat4.inverse_ofReal (M : Matrix (Fin 4) (Fin 4) ℝ) (i j : Fin 4) :
    Mat4.inverse (Mat4.ofReal M) i j
      = if detR M = 0 then Flt.nan else Flt.fin (cofR M j i / detR M) := by
  unfold Mat4.inverse
  rw [Mat4.cofactor_ofReal, Mat4.det_ofReal, Flt.div_fin]

theorem cofR_zero_zero (M : Matrix (Fin 4) (Fin 4) ℝ) :
    cofR M 0 0 = M 1 1 * (M 2 2 * M 3 3 - M 2 3 * M 3 2)
        - M 1 2 * (M 2 1 * M 3 3 - M 2 3 * M 3 1)
        + M 1 3 * (M 2 1 * M 3 2 - M 2 2 * M 3 1) := rfl

theorem cofR_zero_one (M : Matrix (Fin 4) (Fin 4) ℝ) :
    cofR M 0 1 = -(M 1 0 * (M 2 2 * M 3 3 - M 2 3 * M 3 2)
        - M 1 2 * (M 2 0 * M 3 3 - M 2 3 * M 3 0)
        + M 1 3 * (M 2 0 * M 3 2 - M 2 2 * M 3 0)) := rfl

theorem cofR_zero_two (M : Matrix (Fin 4) (Fin 4) ℝ) :
    cofR M 0 2 = M 1 0 * (M 2 1 * M 3 3 - M 2 3 * M 3 1)
        - M 1 1 * (M 2 0 * M 3 3 - M 2 3 * M 3 0)
        + M 1 3 * (M 2 0 * M 3 1 - M 2 1 * M 3 0) := rfl

theorem cofR_zero_three (M : Matrix (Fin 4) (Fin 4) ℝ) :
    cofR M 0 3 = -(M 1 0 * (M 2 1 * M 3 2 - M 2 2 * M 3 1)
        - M 1 1 * (M 2 0 * M 3 2 - M 2 2 * M 3 0)
        + M 1 2 * (M 2 0 * M 3 1 - M 2 1 * M 3 0)) := rfl

theorem cofR_one_zero (M : Matrix (Fin 4) (Fin 4) ℝ) :
    cofR M 1 0 = -(M 0 1 * (M 2 2 * M 3 3 - M 2 3 * M 3 2)
        - M 0 2 * (M 2 1 * M 3 3 - M 2 3 * M 3 1)
        + M 0 3 * (M 2 1 * M 3 2 - M 2 2 * M 3 1)) := rfl

theorem cofR_one_one (M : Matrix (Fin 4) (Fin 4) ℝ) :
    cofR M 1 1 = M 0 0 * (M 2 2 * M 3 3 - M 2 3 * M 3 2)
        - M 0 2 * (M 2 0 * M 3 3 - M 2 3 * M 3 0)
        + M 0 3 * (M 2 0 * M 3 2 - M 2 2 * M 3 0) := rfl

theorem cofR_one_two (M : Matrix (Fin 4) (Fin 4) ℝ) :
    cofR M 1 2 = -(M 0 0 * (M 2 1 * M 3 3 - M 2 3 * M 3 1)
        - M 0 1 * (M 2 0 * M 3 3 - M 2 3 * M 3 0)
        + M 0 3 * (M 2 0 * M 3 1 - M 2 1 * M 3 0)) := rfl

theorem cofR_one_three (M : Matrix (Fin 4) (Fin 4) ℝ) :
    cofR M 1 3 = M 0 0 * (M 2 1 * M 3 2 - M 2 2 * M 3 1)
        - M 0 1 * (M 2 0 * M 3 2 - M 2 2 * M 3 0)
        + M 0 2 * (M 2 0 * M 3 1 - M 2 1 * M 3 0) := rfl

theorem cofR_two_zero (M : Matrix (Fin 4) (Fin 4) ℝ) :
    cofR M 2 0 = M 0 1 * (M 1 2 * M 3 3 - M 1 3 * M 3 2)
        - M 0 2 * (M 1 1 * M 3 3 - M 1 3 * M 3 1)
        + M 0 3 * (M 1 1 * M 3 2 - M 1 2 * M 3 1) := rfl

theorem cofR_two_one (M : Matrix (Fin 4) (Fin 4) ℝ) :
    cofR M 2 1 = -(M 0 0 * (M 1 2 * M 3 3 - M 1 3 * M 3 2)
        - M 0 2 * (M 1 0 * M 3 3 - M 1 3 * M 3 0)
        + M 0 3 * (M 1 0 * M 3 2 - M 1 2 * M 3 0)) := rfl

theorem cofR_two_two (M : Matrix (Fin 4) (Fin 4) ℝ) :
    cofR M 2 2 = M 0 0 * (M 1 1 * M 3 3 - M 1 3 * M 3 1)
        - M 0 1 * (M 1 0 * M 3 3 - M 1 3 * M 3 0)
        + M 0 3 * (M 1 0 * M 3 1 - M 1 1 * M 3 0) := rfl

theorem cofR_two_three (M : Matrix (Fin 4) (Fin 4) ℝ) :
    cofR M 2 3 = -(M 0 0 * (M 1 1 * M 3 2 - M 1 2 * M 3 1)
        - M 0 1 * (M 1 0 * M 3 2 - M 1 2 * M 3 0)
        + M 0 2 * (M 1 0 * M 3 1 - M 1 1 * M 3 0)) := rfl

theorem cofR_three_zero (M : Matrix (Fin 4) (Fin 4) ℝ) :
    cofR M 3 0 = -(M 0 1 * (M 1 2 * M 2 3 - M 1 3 * M 2 2)
        - M 0 2 * (M 1 1 * M 2 3 - M 1 3 * M 2 1)
        + M 0 3 * (M 1 1 * M 2 2 - M 1 2 * M 2 1)) := rfl

theorem cofR_three_one (M : Matrix (Fin 4) (Fin 4) ℝ) :
    cofR M 3 1 = M 0 0 * (M 1 2 * M 2 3 - M 1 3 * M 2 2)
        - M 0 2 * (M 1 0 * M 2 3 - M 1 3 * M 2 0)
        + M 0 3 * (M 1 0 * M 2 2 - M 1 2 * M 2 0) := rfl

theorem cofR_three_two (M : Matrix (Fin 4) (Fin 4) ℝ) :
    cofR M 3 2 = -(M 0 0 * (M 1 1 * M 2 3 - M 1 3 * M 2 1)
        - M 0 1 * (M 1 0 * M 2 3 - M 1 3 * M 2 0)
        + M 0 3 * (M 1 0 * M 2 1 - M 1 1 * M 2 0)) := rfl

theorem cofR_three_three (M : Matrix (Fin 4) (Fin 4) ℝ) :
    cofR M 3 3 = M 0 0 * (M 1 1 * M 2 2 - M 1 2 * M 2 1)
        - M 0 1 * (M 1 0 * M 2 2 - M 1 2 * M 2 0)
        + M 0 2 * (M 1 0 * M 2 1 - M 1 1 * M 2 0) := rfl

theorem mul_adjR (M : Matrix (Fin 4) (Fin 4) ℝ) (i j : Fin 4) :
    M i 0 * cofR M j 0 + M i 1 * cofR M j 1 + M i 2 * cofR M j 2 + M i 3 * cofR M j 3
      = if i = j then detR M else 0 := by
  fin_cases i <;> fin_cases j <;>
    simp only [detR, Fin.mk_zero, Fin.mk_one, Fin.reduceFinMk, Fin.zero_eta, Fin.isValue,
      Fin.reduceEq, if_true, if_false,
      cofR_zero_zero, cofR_zero_one, cofR_zero_two, cofR_zero_three, cofR_one_zero, cofR_one_one, cofR_one_two, cofR_one_three, cofR_two_zero, cofR_two_one, cofR_two_two, cofR_two_three, cofR_three_zero, cofR_three_one, cofR_three_two, cofR_three_three] <;>
    ring

/-- The columns of the rotation block of a rigid transform are orthonormal. -/
theorem IsRigid.orth {M : Matrix (Fin 4) (Fin 4) ℝ} (h : IsRigid M) :
    (M 0 0 * M 0 0 + M 1 0 * M 1 0 + M 2 0 * M 2 0 = 1
      ∧ M 0 1 * M 0 1 + M 1 1 * M 1 1 + M 2 1 * M 2 1 = 1
      ∧ M 0 2 * M 0 2 + M 1 2 * M 1 2 + M 2 2 * M 2 2 = 1)
    ∧ (M 0 0 * M 0 1 + M 1 0 * M 1 1 + M 2 0 * M 2 1 = 0
      ∧ M 0 0 * M 0 2 + M 1 0 * M 1 2 + M 2 0 * M 2 2 = 0
      ∧ M 0 1 * M 0 2 + M 1 1 * M 1 2 + M 2 1 * M 2 2 = 0) := by
  have e : ∀ i j : Fin 3, M 0 i.castSucc * M 0 j.castSucc + M 1 i.castSucc * M 1 j.castSucc
      + M 2 i.castSucc * M 2 j.castSucc = (1 : Matrix (Fin 3) (Fin 3) ℝ) i j := by
    intro i j
    have := congrFun (congrFun h.1 i) j
    simp only [rotR, Matrix.mul_apply, Matrix.transpose_apply, Matrix.submatrix_apply,
      Fin.sum_univ_three, castSucc_zero_fin3, castSucc_one_fin3, castSucc_two_fin3] at this
    exact this
  have e00 := e 0 0
  have e11 := e 1 1
  have e22 := e 2 2
  have e01 := e 0 1
  have e02 := e 0 2
  have e12 := e 1 2
  rw [Matrix.one_apply_eq] at e00 e11 e22
  rw [Matrix.one_apply_ne (by decide)] at e01 e02 e12
  exact ⟨⟨e00, e11, e22⟩, e01, e02, e12⟩

theorem rigidInv_zero_zero (M : Matrix (Fin 4) (Fin 4) ℝ) :
    rigidInv M 0 0 = M 0 0 := rfl

theorem rigidInv_zero_one (M : Matrix (Fin 4) (Fin 4) ℝ) :
    rigidInv M 0 1 = M 1 0 := rfl

theorem rigidInv_zero_two (M : Matrix (Fin 4) (Fin 4) ℝ) :
    rigidInv M 0 2 = M 2 0 := rfl

theorem rigidInv_zero_three (M : Matrix (Fin 4) (Fin 4) ℝ) :
    rigidInv M 0 3 = -(M 0 0 * M 0 3 + M 1 0 * M 1 3 + M 2 0 * M 2 3) := rfl

theorem rigidInv_one_zero (M : Matrix (Fin 4) (Fin 4) ℝ) :
    rigidInv M 1 0 = M 0 1 := rfl

theorem rigidInv_one_one (M : Matrix (Fin 4) (Fin 4) ℝ) :
    rigidInv M 1 1 = M 1 1 := rfl

theorem rigidInv_one_two (M : Matrix (Fin 4) (Fin 4) ℝ) :
    rigidInv M 1 2 = M 2 1 := rfl

theorem rigidInv_one_three (M : Matrix (Fin 4) (Fin 4) ℝ) :
    rigidInv M 1 3 = -(M 0 1 * M 0 3 + M 1 1 * M 1 3 + M 2 1 * M 2 3) := rfl

theorem rigidInv_two_zero (M : Matrix (Fin 4) (Fin 4) ℝ) :
    rigidInv M 2 0 = M 0 2 := rfl

theorem rigidInv_two_one (M : Matrix (Fin 4) (Fin 4) ℝ) :
    rigidInv M 2 1 = M 1 2 := rfl

theorem rigidInv_two_two (M : Matrix (Fin 4) (Fin 4) ℝ) :
    rigidInv M 2 2 = M 2 2 := rfl

theorem rigidInv_two_three (M : Matrix (Fin 4) (Fin 4) ℝ) :
    rigidInv M 2 3 = -(M 0 2 * M 0 3 + M 1 2 * M 1 3 + M 2 2 * M 2 3) := rfl

theorem rigidInv_three_zero (M : Matrix (Fin 4) (Fin 4) ℝ) :
    rigidInv M 3 0 = 0 := rfl

theorem rigidInv_three_one (M : Matrix (Fin 4) (Fin 4) ℝ) :
    rigidInv M 3 1 = 0 := rfl

theorem rigidInv_three_two (M : Matrix (Fin 4) (Fin 4) ℝ) :
    rigidInv M 3 2 = 0 := rfl

theorem rigidInv_three_three (M : Matrix (Fin 4) (Fin 4) ℝ) :
    rigidInv M 3 3 = 1 := rfl

theorem rigidInv_mul {M : Matrix (Fin 4) (Fin 4) ℝ} (h : IsRigid M) : rigidInv M * M = 1 := by
  obtain ⟨⟨h00, h11, h22⟩, h01, h02, h12⟩ := h.orth
  have b0 : M 3 0 = 0 := h.2.1 0
  have b1 : M 3 1 = 0 := h.2.1 1
  have b2 : M 3 2 = 0 := h.2.1 2
  have b3 : M 3 3 = 1 := h.2.2
  ext i j
  fin_cases i <;> fin_cases j <;>
    simp only [Matrix.mul_apply, Fin.sum_univ_four, Fin.mk_zero, Fin.mk_one,
      Fin.reduceFinMk, Fin.zero_eta, Fin.isValue,
      Matrix.one_apply_eq, Matrix.one_apply_ne, ne_eq, Fin.reduceEq, not_false_eq_true,
      rigidInv_zero_zero, rigidInv_zero_one, rigidInv_zero_two, rigidInv_zero_three, rigidInv_one_zero, rigidInv_one_one, rigidInv_one_two, rigidInv_one_three, rigidInv_two_zero, rigidInv_two_one, rigidInv_two_two, rigidInv_two_three, rigidInv_three_zero, rigidInv_three_one, rigidInv_three_two, rigidInv_three_three, b0, b1, b2, b3] <;>
    linarith

theorem mul_rigidInv {M : Matrix (Fin 4) (Fin 4) ℝ} (h : IsRigid M) : M * rigidInv M = 1 :=
  Matrix.mul_eq_one_comm.mp (rigidInv_mul h)

theorem cofR_three_three_eq_det (M : Matrix (Fin 4) (Fin 4) ℝ) :
    cofR M 3 3 = Matrix.det (rotR M) := by
  rw [Matrix.det_fin_three, cofR_three_three]
  simp only [rotR, Matrix.submatrix_apply, castSucc_zero_fin3, castSucc_one_fin3,
    castSucc_two_fin3]
  ring

theorem IsRigid.cofR_ne_zero {M : Matrix (Fin 4) (Fin 4) ℝ} (h : IsRigid M) :
    cofR M 3 3 ≠ 0 := by
  rw [cofR_three_three_eq_det]
  intro h0
  have := congrArg Matrix.det h.1
  rw [Matrix.det_mul, Matrix.det_transpose, h0, Matrix.det_one] at this
  norm_num at this

/-- For a rigid transform the cofactors are the determinant times the entries of the
rigid inverse, and the determinant is not zero. -/
theorem IsRigid.cofR_eq {M : Matrix (Fin 4) (Fin 4) ℝ} (h : IsRigid M) :
    detR M ≠ 0 ∧ ∀ i j : Fin 4, cofR M j i = detR M * rigidInv M i j := by
  have hadj : M * (Matrix.of fun k j => cofR M j k)
      = detR M • (1 : Matrix (Fin 4) (Fin 4) ℝ) := by
    ext i j
    rw [Matrix.mul_apply, Fin.sum_univ_four]
    simp only [Matrix.of_apply, Matrix.smul_apply, Matrix.one_apply, smul_eq_mul]
    rw [mul_adjR]
    split_ifs <;> simp
  have hsolve : (Matrix.of fun k j => cofR M j k) = detR M • rigidInv M := by
    have := congrArg (fun X => rigidInv M * X) hadj
    simp only [← Matrix.mul_assoc, rigidInv_mul h, Matrix.one_mul, Matrix.mul_smul,
      Matrix.mul_one] at this
    exact this
  have hentry : ∀ i j : Fin 4, cofR M j i = detR M * rigidInv M i j := by
    intro i j
    have := congrFun (congrFun hsolve i) j
    simpa using this
  refine ⟨?_, hentry⟩
  intro h0
  have h33 := hentry 3 3
  rw [h0, zero_mul] at h33
  exact h.cofR_ne_zero h33

theorem Mat4.inverse_ofReal_rigid {M : Matrix (Fin 4) (Fin 4) ℝ} (h : IsRigid M) :
    Mat4.inverse (Mat4.ofReal M) = Mat4.ofReal (rigidInv M) := by
  obtain ⟨hdet, hcof⟩ := h.cofR_eq
  funext i j
  rw [Mat4.inverse_ofReal, if_neg hdet, hcof i j]
  show _ = Flt.fin (rigidInv M i j)
  rw [mul_div_cancel_left₀ _ hdet]

theorem isRigid_rigidInv {M : Matrix (Fin 4) (Fin 4) ℝ} (h : IsRigid M) :
    IsRigid (rigidInv M) := by
  refine ⟨?_, ?_, ?_⟩
  · have hr : rotR (rigidInv M) = Matrix.transpose (rotR M) := by
      ext i j
      fin_cases i <;> fin_cases j <;> rfl
    rw [hr, Matrix.transpose_transpose]
    exact Matrix.mul_eq_one_comm.mp h.1
  · intro j
    fin_cases j <;> rfl
  · rfl

namespace mathLib

theorem calcTransformationMatrix_fin (al a d th : ℝ) :
    calcTransformationMatrix ![Flt.fin al, Flt.fin a, Flt.fin d, Flt.fin th]
      = Mat4.ofReal (mdhReal al a d th) := by
  funext i j
  fin_cases i <;> fin_cases j <;>
    simp only [calcTransformationMatrix, Mat4.mul, rotX, rotZ, transX, transZ, Mat4.ofReal, mdhReal,
      Matrix.of_apply, Fin.mk_zero, Fin.mk_one, Fin.reduceFinMk, Fin.zero_eta, Fin.isValue,
      vec4_zero, vec4_one, vec4_two, vec4_three,
      Flt.lit_zero, Flt.lit_one, Flt.add_fin, Flt.mul_fin, Flt.neg_fin, Flt.sin_fin, Flt.cos_fin,
      Flt.fin_inj_iff] <;>
    ring

theorem rad_fin (x : ℝ) : rad (Flt.fin x) = Flt.fin (x * Real.pi / 180) := by
  simp [rad, Flt.div_fin]

theorem rad_ninety : rad (90 : Flt) = Flt.fin (Real.pi / 2) := by
  rw [Flt.lit_ninety, rad_fin, Flt.fin_inj_iff]
  ring

theorem rad_neg_ninety : rad (-90 : Flt) = Flt.fin (-(Real.pi / 2)) := by
  rw [Flt.lit_ninety, Flt.neg_fin, rad_fin, Flt.fin_inj_iff]
  ring

end mathLib

namespace universalRobots
namespace UR
open mathLib
variable {F : Type} [FloatArith F]

/-! ### Forward kinematics: the loop -/

theorem fkLoopUpTo_succ (self : UR F) (q : Fin m_numDoF → F) (n : Nat)
    (h : n < m_numReferenceFrames) :
    fkLoopUpTo self q (n + 1) = fkLoopBody (fkLoopUpTo self q n) ⟨n, h⟩ := by
  have hl : (List.finRange m_numReferenceFrames).take (n + 1)
      = (List.finRange m_numReferenceFrames).take n ++ [⟨n, h⟩] := by
    have hn : n < 9 := h
    interval_cases n <;> rfl
  unfold fkLoopUpTo
  rw [hl, List.foldl_append]
  rfl

theorem fkLoop_eq_upTo (self : UR F) (q : Fin m_numDoF → F) :
    fkLoop self q = fkLoopUpTo self q 9 := by
  unfold fkLoop fkLoopUpTo
  have : (List.finRange m_numReferenceFrames).take 9 = List.finRange m_numReferenceFrames := by
    rfl
  rw [this]

theorem fkLoopBody_individual (st : fkLoopState F) (i : Fin m_numReferenceFrames) :
    (fkLoopBody st i).robot.m_individualTransformationMatrices
      = st.robot.m_individualTransformationMatrices := by
  unfold fkLoopBody
  simp only []
  split_ifs <;> rfl

theorem fkLoopBody_general (st : fkLoopState F) (i : Fin m_numReferenceFrames) :
    (fkLoopBody st i).robot.m_generalTransformationMatrices
      = Function.update st.robot.m_generalTransformationMatrices i (fkCumulative st.robot i) := by
  unfold fkLoopBody
  simp only []
  split_ifs <;> rfl

theorem fkLoopBody_tables (st : fkLoopState F) (i : Fin m_numReferenceFrames) :
    (fkLoopBody st i).robot.m_d = st.robot.m_d ∧ (fkLoopBody st i).robot.m_a = st.robot.m_a := by
  unfold fkLoopBody
  simp only []
  split_ifs <;> exact ⟨rfl, rfl⟩

theorem fkLoopBody_currentJoint (st : fkLoopState F) (i : Fin m_numReferenceFrames) :
    (fkLoopBody st i).currentJoint
      = if i.val = 0 ∨ i.val = 1 ∨ i.val = 2 ∨ i.val = 3 ∨ i.val = 5 ∨ i.val = 7
        then st.currentJoint + 1 else st.currentJoint := by
  unfold fkLoopBody
  simp only []
  split_ifs <;> first | rfl | omega

theorem fkLoopBody_tipPose (st : fkLoopState F) (i : Fin m_numReferenceFrames) :
    (fkLoopBody st i).tipPose
      = if i.val = 8 then
          pose (Mat4.translation (fkCumulative st.robot i))
            (Mat4.rotationBlock (fkCumulative st.robot i))
        else st.tipPose := by
  unfold fkLoopBody
  simp only [Function.update_same]
  split_ifs <;> first | rfl | omega

theorem fkLoopBody_jointState (st : fkLoopState F) (i : Fin m_numReferenceFrames)
    (k : Fin m_numDoF) :
    (fkLoopBody st i).robot.m_jointState k
      = if (i.val = 0 ∨ i.val = 1 ∨ i.val = 2 ∨ i.val = 3 ∨ i.val = 5 ∨ i.val = 7)
            ∧ k.val = st.currentJoint then
          { st.robot.m_jointState k with
            m_jointPose := pose (Mat4.translation (fkCumulative st.robot i))
              (Mat4.rotationBlock (fkCumulative st.robot i)) }
        else st.robot.m_jointState k := by
  unfold fkLoopBody
  simp only [Function.update_same]
  split_ifs <;> first | rfl | omega | (exfalso; omega) | simp_all

theorem fkLoopUpTo_individual (self : UR F) (q : Fin m_numDoF → F) (n : Nat)
    (hn : n ≤ m_numReferenceFrames) :
    (fkLoopUpTo self q n).robot.m_individualTransformationMatrices
      = (fkInit self q).robot.m_individualTransformationMatrices := by
  induction n with
  | zero => rfl
  | succ m ih =>
    rw [fkLoopUpTo_succ self q m (by omega), fkLoopBody_individual, ih (by omega)]

theorem fkLoopUpTo_tables (self : UR F) (q : Fin m_numDoF → F) (n : Nat)
    (hn : n ≤ m_numReferenceFrames) :
    (fkLoopUpTo self q n).robot.m_d = self.m_d ∧ (fkLoopUpTo self q n).robot.m_a = self.m_a := by
  induction n with
  | zero => exact ⟨rfl, rfl⟩
  | succ m ih =>
    rw [fkLoopUpTo_succ self q m (by omega), (fkLoopBody_tables _ _).1, (fkLoopBody_tables _ _).2]
    exact ih (by omega)

theorem fkLoopUpTo_general_stable (self : UR F) (q : Fin m_numDoF → F)
    (k : Fin m_numReferenceFrames) (m : Nat) (hkm : k.val + 1 ≤ m)
    (hm : m ≤ m_numReferenceFrames) :
    (fkLoopUpTo self q m).robot.m_generalTransformationMatrices k
      = (fkLoopUpTo self q (k.val + 1)).robot.m_generalTransformationMatrices k := by
  induction m, hkm using Nat.le_induction with
  | base => rfl
  | succ n hn ih =>
    rw [fkLoopUpTo_succ self q n (by omega), fkLoopBody_general]
    have hne : k ≠ (⟨n, by omega⟩ : Fin m_numReferenceFrames) := by
      intro h
      have := congrArg Fin.val h
      simp at this
      omega
    rw [Function.update_noteq hne]
    exact ih (by omega)

theorem fkLoopUpTo_general_new (self : UR F) (q : Fin m_numDoF → F) (n : Nat)
    (h : n < m_numReferenceFrames) :
    (fkLoopUpTo self q (n + 1)).robot.m_generalTransformationMatrices ⟨n, h⟩
      = fkCumulative (fkLoopUpTo self q n).robot ⟨n, h⟩ := by
  rw [fkLoopUpTo_succ self q n h, fkLoopBody_general, Function.update_same]

theorem fkLoopUpTo_currentJoint (self : UR F) (q : Fin m_numDoF → F) :
    (fkLoopUpTo self q 7).currentJoint = 5 ∧ (fkLoopUpTo self q 8).currentJoint = 6 := by
  have h0 : (fkLoopUpTo self q 0).currentJoint = 0 := rfl
  have h1 : (fkLoopUpTo self q 1).currentJoint = 1 := by
    rw [fkLoopUpTo_succ self q 0 (by decide), fkLoopBody_currentJoint, h0]; simp
  have h2 : (fkLoopUpTo self q 2).currentJoint = 2 := by
    rw [fkLoopUpTo_succ self q 1 (by decide), fkLoopBody_currentJoint, h1]; simp
  have h3 : (fkLoopUpTo self q 3).currentJoint = 3 := by
    rw [fkLoopUpTo_succ self q 2 (by decide), fkLoopBody_currentJoint, h2]; simp
  have h4 : (fkLoopUpTo self q 4).currentJoint = 4 := by
    rw [fkLoopUpTo_succ self q 3 (by decide), fkLoopBody_currentJoint, h3]; simp
  have h5 : (fkLoopUpTo self q 5).currentJoint = 4 := by
    rw [fkLoopUpTo_succ self q 4 (by decide), fkLoopBody_currentJoint, h4]; simp
  have h6 : (fkLoopUpTo self q 6).currentJoint = 5 := by
    rw [fkLoopUpTo_succ self q 5 (by decide), fkLoopBody_currentJoint, h5]; simp
  have h7 : (fkLoopUpTo self q 7).currentJoint = 5 := by
    rw [fkLoopUpTo_succ self q 6 (by decide), fkLoopBody_currentJoint, h6]; simp
  have h8 : (fkLoopUpTo self q 8).currentJoint = 6 := by
    rw [fkLoopUpTo_succ self q 7 (by decide), fkLoopBody_currentJoint, h7]; simp
  exact ⟨h7, h8⟩

/-- After `forwardKinematics` the stored frame 8 is the stored frame 7 times the
last individual transform. -/
theorem fk_frame_eight (self : UR F) (q : Fin m_numDoF → F) :
    (forwardKinematics self q).2.m_generalTransformationMatrices 8
      = Mat4.mul ((forwardKinematics self q).2.m_generalTransformationMatrices 7)
          (calcTransformationMatrix ![0, 0, self.m_d 6, 0]) := by
  show (fkLoop self q).robot.m_generalTransformationMatrices 8 = Mat4.mul
    ((fkLoop self q).robot.m_generalTransformationMatrices 7) _
  rw [fkLoop_eq_upTo, fkLoopUpTo_general_stable self q 7 9 (by decide) (by decide)]
  have h8 := fkLoopUpTo_general_new self q 8 (by decide)
  have hi := fkLoopUpTo_individual self q 8 (by decide)
  show (fkLoopUpTo self q 9).robot.m_generalTransformationMatrices ⟨8, by decide⟩ = _
  rw [h8]
  unfold fkCumulative
  rw [if_neg (by decide), hi]
  rfl

/-- The pose `forwardKinematics` returns is that of the stored frame 8. -/
theorem fk_returned_pose (self : UR F) (q : Fin m_numDoF → F) :
    (forwardKinematics self q).1
      = pose (Mat4.translation ((forwardKinematics self q).2.m_generalTransformationMatrices 8))
          (Mat4.rotationBlock ((forwardKinematics self q).2.m_generalTransformationMatrices 8)) := by
  show (fkLoop self q).tipPose = pose
    (Mat4.translation ((fkLoop self q).robot.m_generalTransformationMatrices 8))
    (Mat4.rotationBlock ((fkLoop self q).robot.m_generalTransformationMatrices 8))
  rw [fkLoop_eq_upTo]
  have h8 := fkLoopUpTo_general_new self q 8 (by decide)
  have hs := fkLoopUpTo_succ self q 8 (by decide)
  show (fkLoopUpTo self q 9).tipPose = pose
    (Mat4.translation ((fkLoopUpTo self q 9).robot.m_generalTransformationMatrices ⟨8, by decide⟩))
    (Mat4.rotationBlock
      ((fkLoopUpTo self q 9).robot.m_generalTransformationMatrices ⟨8, by decide⟩))
  rw [h8, hs, fkLoopBody_tipPose, if_pos rfl]

/-- The pose `getTipPose` reads after `forwardKinematics` is that of the stored
frame 7. -/
theorem fk_getTipPose (self : UR F) (q : Fin m_numDoF → F) :
    getTipPose (forwardKinematics self q).2
      = pose (Mat4.translation ((forwardKinematics self q).2.m_generalTransformationMatrices 7))
          (Mat4.rotationBlock ((forwardKinematics self q).2.m_generalTransformationMatrices 7)) := by
  show ((fkLoop self q).robot.m_jointState ⟨5, by decide⟩).m_jointPose = pose
    (Mat4.translation ((fkLoop self q).robot.m_generalTransformationMatrices 7))
    (Mat4.rotationBlock ((fkLoop self q).robot.m_generalTransformationMatrices 7))
  rw [fkLoop_eq_upTo, fkLoopUpTo_general_stable self q 7 9 (by decide) (by decide)]
  have h7 := fkLoopUpTo_general_new self q 7 (by decide)
  have hcj := (fkLoopUpTo_currentJoint self q).1
  show ((fkLoopUpTo self q 9).robot.m_jointState ⟨5, by decide⟩).m_jointPose = pose
    (Mat4.translation ((fkLoopUpTo self q 8).robot.m_generalTransformationMatrices ⟨7, by decide⟩))
    (Mat4.rotationBlock
      ((fkLoopUpTo self q 8).robot.m_generalTransformationMatrices ⟨7, by decide⟩))
  rw [h7, fkLoopUpTo_succ self q 8 (by decide), fkLoopBody_jointState,
    if_neg (by simp), fkLoopUpTo_succ self q 7 (by decide), fkLoopBody_jointState,
    if_pos ⟨by simp, by rw [hcj]⟩]

/-! ### Forward kinematics on finite inputs -/

theorem calcTransformationMatrix_fin_fun (r : Fin 4 → ℝ) :
    calcTransformationMatrix (fun j => Flt.fin (r j))
      = Mat4.ofReal (mdhReal (r 0) (r 1) (r 2) (r 3)) := by
  have h : (fun j => Flt.fin (r j))
      = ![Flt.fin (r 0), Flt.fin (r 1), Flt.fin (r 2), Flt.fin (r 3)] := by
    funext j
    fin_cases j <;> rfl
  rw [h, calcTransformationMatrix_fin]

theorem mdhRows_fin (d : Fin m_numTransZ → ℝ) (a : Fin m_numTransX → ℝ) (t : Fin m_numDoF → ℝ)
    (js : Fin m_numDoF → jointState Flt) (hjs : ∀ k, (js k).m_jointValue = Flt.fin (t k))
    (i : Fin m_numReferenceFrames) :
    mdhRows (fun k => Flt.fin (d k)) (fun k => Flt.fin (a k)) js i
      = fun j => Flt.fin (mdhRowsReal d a t i j) := by
  funext j
  fin_cases i <;> fin_cases j <;>
    simp only [mdhRows, mdhRowsReal, hjs, rad_ninety, rad_neg_ninety, Flt.lit_zero, Flt.add_fin,
      Fin.mk_zero, Fin.mk_one, Fin.reduceFinMk, Fin.zero_eta, Fin.isValue,
      vec9_zero, vec9_one, vec9_two, vec9_three, vec9_four, vec9_five, vec9_six, vec9_seven,
      vec9_eight, vec4_zero, vec4_one, vec4_two, vec4_three] <;>
    rfl

theorem fkInit_individual_fin (self : UR Flt) (d : Fin m_numTransZ → ℝ) (a : Fin m_numTransX → ℝ)
    (t : Fin m_numDoF → ℝ) (hd : self.m_d = fun k => Flt.fin (d k))
    (ha : self.m_a = fun k => Flt.fin (a k)) (i : Fin m_numReferenceFrames) :
    (fkInit self (fun k => Flt.fin (t k))).robot.m_individualTransformationMatrices i
      = Mat4.ofReal (linkReal d a t i) := by
  show calcTransformationMatrix (mdhRows self.m_d self.m_a
    (setTheta self (fun k => Flt.fin (t k))).m_jointState i) = _
  rw [hd, ha, mdhRows_fin d a t _ (fun k => rfl) i, calcTransformationMatrix_fin_fun]
  rfl

theorem fkLoopUpTo_general_fin (self : UR Flt) (d : Fin m_numTransZ → ℝ)
    (a : Fin m_numTransX → ℝ) (t : Fin m_numDoF → ℝ) (hd : self.m_d = fun k => Flt.fin (d k))
    (ha : self.m_a = fun k => Flt.fin (a k)) (n : Nat) (h : n < m_numReferenceFrames) :
    (fkLoopUpTo self (fun k => Flt.fin (t k)) (n + 1)).robot.m_generalTransformationMatrices ⟨n, h⟩
      = Mat4.ofReal (frameReal d a t n) := by
  induction n with
  | zero =>
    rw [fkLoopUpTo_general_new]
    unfold fkCumulative
    rw [if_pos rfl]
    exact fkInit_individual_fin self d a t hd ha 0
  | succ m ih =>
    rw [fkLoopUpTo_general_new]
    unfold fkCumulative
    rw [if_neg (by simp), fkLoopUpTo_individual _ _ _ (by omega),
      fkInit_individual_fin self d a t hd ha]
    have hm := ih (by omega)
    have hidx : (⟨(⟨m + 1, h⟩ : Fin m_numReferenceFrames).val - 1, by omega⟩ :
        Fin m_numReferenceFrames) = ⟨m, by omega⟩ := by
      apply Fin.ext
      simp
    rw [hidx, hm, Mat4.mul_ofReal]
    show _ = Mat4.ofReal (frameReal d a t m *
      (if h' : m + 1 < m_numReferenceFrames then linkReal d a t ⟨m + 1, h'⟩ else 1))
    rw [dif_pos h]

/-- On finite tables and finite joint values every frame stored by
`forwardKinematics` is the real cumulative transform. -/
theorem fk_general_fin (self : UR Flt) (d : Fin m_numTransZ → ℝ) (a : Fin m_numTransX → ℝ)
    (t : Fin m_numDoF → ℝ) (hd : self.m_d = fun k => Flt.fin (d k))
    (ha : self.m_a = fun k => Flt.fin (a k)) (k : Fin m_numReferenceFrames) :
    (forwardKinematics self (fun k => Flt.fin (t k))).2.m_generalTransformationMatrices k
      = Mat4.ofReal (frameReal d a t k.val) := by
  show (fkLoop self _).robot.m_generalTransformationMatrices k = _
  have hk : k.val < 9 := k.isLt
  rw [fkLoop_eq_upTo, fkLoopUpTo_general_stable self _ k 9 (by omega) (by decide)]
  exact fkLoopUpTo_general_fin self d a t hd ha k.val k.isLt

theorem isRigid_linkReal (d : Fin m_numTransZ → ℝ) (a : Fin m_numTransX → ℝ)
    (t : Fin m_numDoF → ℝ) (i : Fin m_numReferenceFrames) : IsRigid (linkReal d a t i) :=
  isRigid_mdhReal _ _ _ _

theorem isRigid_frameReal (d : Fin m_numTransZ → ℝ) (a : Fin m_numTransX → ℝ)
    (t : Fin m_numDoF → ℝ) (n : Nat) : IsRigid (frameReal d a t n) := by
  induction n with
  | zero => exact isRigid_linkReal d a t 0
  | succ m ih =>
    show IsRigid (frameReal d a t m *
      (if h' : m + 1 < m_numReferenceFrames then linkReal d a t ⟨m + 1, h'⟩ else 1))
    by_cases h : m + 1 < m_numReferenceFrames
    · rw [dif_pos h]
      exact ih.mul (isRigid_linkReal d a t _)
    · rw [dif_neg h]
      exact ih.mul isRigid_one

theorem pose_m_pos (position : Fin 3 → F) (rotationMatrix : Mat3 F) :
    (pose position rotationMatrix).m_pos = position := by
  unfold pose tipPose.ctor
  simp only []
  split_ifs <;> rfl

theorem frameReal_eight_translation (d : Fin m_numTransZ → ℝ) (a : Fin m_numTransX → ℝ)
    (t : Fin m_numDoF → ℝ) (k : Fin 4) :
    frameReal d a t 8 k 3 = frameReal d a t 7 k 2 * d 6 + frameReal d a t 7 k 3 := by
  show (frameReal d a t 7 *
    (if h' : 7 + 1 < m_numReferenceFrames then linkReal d a t ⟨7 + 1, h'⟩ else 1)) k 3 = _
  rw [dif_pos (by decide)]
  have hl : linkReal d a t ⟨7 + 1, by decide⟩ = mdhReal 0 0 (d 6) 0 := rfl
  rw [hl]
  simp only [Matrix.mul_apply, Fin.sum_univ_four, mdhReal_zero_three, mdhReal_one_three,
    mdhReal_two_three, mdhReal_three_three, Real.sin_zero, Real.cos_zero]
  ring

/-- C2 (the code at the failing input): after `forwardKinematics`, `getTipPose`
returns the pose of the stored frame 7 (joint 6), while the pose returned by
`forwardKinematics` is that of frame 8 (the tip).  For every robot with finite link
dimensions whose final z-offset `d[6]` is not zero, and all finite joint values, the
two poses have different positions. -/
theorem C2_getTipPose_reads_joint_six_frame (self : UR Flt) (d : Fin m_numTransZ → ℝ)
    (a : Fin m_numTransX → ℝ) (t : Fin m_numDoF → ℝ) (hd : self.m_d = fun k => Flt.fin (d k))
    (ha : self.m_a = fun k => Flt.fin (a k)) (h6 : d 6 ≠ 0) :
    getTipPose (forwardKinematics self (fun k => Flt.fin (t k))).2
        = pose (Mat4.translation (Mat4.ofReal (frameReal d a t 7)))
            (Mat4.rotationBlock (Mat4.ofReal (frameReal d a t 7)))
    ∧ (forwardKinematics self (fun k => Flt.fin (t k))).1
        = pose (Mat4.translation (Mat4.ofReal (frameReal d a t 8)))
            (Mat4.rotationBlock (Mat4.ofReal (frameReal d a t 8)))
    ∧ (forwardKinematics self (fun k => Flt.fin (t k))).1.m_pos
        ≠ (getTipPose (forwardKinematics self (fun k => Flt.fin (t k))).2).m_pos := by
  have h7 := fk_general_fin self d a t hd ha 7
  have h8 := fk_general_fin self d a t hd ha 8
  have hg : getTipPose (forwardKinematics self (fun k => Flt.fin (t k))).2
      = pose (Mat4.translation (Mat4.ofReal (frameReal d a t 7)))
          (Mat4.rotationBlock (Mat4.ofReal (frameReal d a t 7))) := by
    rw [fk_getTipPose, h7]
    rfl
  have hr : (forwardKinematics self (fun k => Flt.fin (t k))).1
      = pose (Mat4.translation (Mat4.ofReal (frameReal d a t 8)))
          (Mat4.rotationBlock (Mat4.ofReal (frameReal d a t 8))) := by
    rw [fk_returned_pose, h8]
    rfl
  refine ⟨hg, hr, ?_⟩
  rw [hg, hr, pose_m_pos, pose_m_pos]
  intro heq
  have hk : ∀ k : Fin 3, frameReal d a t 7 k.castSucc 2 = 0 := by
    intro k
    have h1 := Flt.fin_injective (congrFun heq k)
    rw [frameReal_eight_translation] at h1
    have h2 : frameReal d a t 7 k.castSucc 2 * d 6 = 0 := by linarith
    rcases mul_eq_zero.mp h2 with h3 | h3
    · exact h3
    · exact absurd h3 h6
  have hc := (isRigid_frameReal d a t 7).col_sq 2
  have h0 : frameReal d a t 7 0 2 = 0 := hk 0
  have h1 : frameReal d a t 7 1 2 = 0 := hk 1
  have h2 : frameReal d a t 7 2 2 = 0 := hk 2
  rw [castSucc_two_fin3, h0, h1, h2] at hc
  norm_num at hc

/-- C2, witness: the example robot built with an end-effector of length 0.15, at
the zero joint values. -/
theorem C2_getTipPose_reads_joint_six_frame_witness :
    (forwardKinematics (ctor exampleTables blank URtype.UR5 true (Flt.fin 0.15))
        (fun _ => Flt.fin 0)).1.m_pos
      ≠ (getTipPose (forwardKinematics (ctor exampleTables blank URtype.UR5 true (Flt.fin 0.15))
          (fun _ => Flt.fin 0)).2).m_pos :=
  (C2_getTipPose_reads_joint_six_frame (ctor exampleTables blank URtype.UR5 true (Flt.fin 0.15))
    ![0.089159, 0.10915, 0, 0, 0, 0.0823, 0.15] ![0.425, 0.39225, 0.09465, 0] (fun _ => 0)
    (by
      rw [ctor_m_d]
      funext k
      fin_cases k <;> rfl)
    (by
      rw [ctor_m_a]
      funext k
      fin_cases k <;> rfl)
    (by
      show (0.15 : ℝ) ≠ 0
      norm_num)).2.2

/-! ### Orientation decomposition -/

theorem arg_mk_neg_one_zero : Complex.arg ⟨-1, 0⟩ = Real.pi := by
  have h : (⟨-1, 0⟩ : ℂ) = -1 := by
    apply Complex.ext <;> simp
  rw [h, Complex.arg_neg_one]

theorem ikRotation_fin (p : Fin 3 → Flt) (al be ga : ℝ) :
    ikRotation (⟨p, ![Flt.fin al, Flt.fin be, Flt.fin ga]⟩ : tipPose Flt)
      = Mat3.ofReal (rpyReal al be ga) := by
  funext i j
  fin_cases i <;> fin_cases j <;>
    simp only [ikRotation, Mat3.mul, angleAxisX, angleAxisY, angleAxisZ, Mat3.ofReal, rpyReal,
      Matrix.of_apply, Fin.mk_zero, Fin.mk_one, Fin.reduceFinMk, Fin.zero_eta, Fin.isValue,
      vec3_zero, vec3_one, vec3_two,
      Flt.lit_zero, Flt.lit_one, Flt.add_fin, Flt.mul_fin, Flt.neg_fin, Flt.sin_fin, Flt.cos_fin,
      Flt.fin_inj_iff] <;>
    ring

/-- The decomposition on a finite matrix outside the gimbal-lock branch. -/
theorem tipPose_ctor_general (p : Fin 3 → Flt) (M : Matrix (Fin 3) (Fin 3) ℝ)
    (h1 : M 0 2 ≠ 1) (h2 : M 0 2 ≠ -1) (hlo : -1 ≤ M 0 2) (hhi : M 0 2 ≤ 1) :
    (tipPose.ctor p (Mat3.ofReal M)).m_rpy
      = ![Flt.fin (Complex.arg ⟨M 0 0 / Real.cos (-Real.arcsin (M 0 2)),
            M 0 1 / Real.cos (-Real.arcsin (M 0 2))⟩),
          Flt.fin (-Real.arcsin (M 0 2)),
          Flt.fin (Complex.arg ⟨M 2 2 / Real.cos (-Real.arcsin (M 0 2)),
            M 1 2 / Real.cos (-Real.arcsin (M 0 2))⟩)] := by
  have hc : Real.cos (-Real.arcsin (M 0 2)) ≠ 0 := by
    rw [Real.cos_neg, Real.cos_arcsin]
    have : 0 < 1 - M 0 2 ^ 2 := by
      have ha : M 0 2 < 1 := lt_of_le_of_ne hhi h1
      have hb : -1 < M 0 2 := lt_of_le_of_ne hlo (Ne.symm h2)
      nlinarith
    exact (Real.sqrt_pos.mpr this).ne'
  unfold tipPose.ctor
  simp only [Mat3.ofReal, Flt.lit_one, Flt.neg_fin, Flt.eq_fin, h1, h2, decide_False,
    Bool.or_self, Bool.false_eq_true, if_false, Flt.asin_fin, hlo, hhi, and_self, if_true,
    Flt.cos_fin, Flt.div_fin_of_ne _ hc, Flt.atan2_fin]

/-- The decomposition on a finite matrix in the gimbal-lock branch `R[0][2] = -1`. -/
theorem tipPose_ctor_gimbal (p : Fin 3 → Flt) (M : Matrix (Fin 3) (Fin 3) ℝ)
    (h : M 0 2 = -1) :
    (tipPose.ctor p (Mat3.ofReal M)).m_rpy
      = ![Flt.fin 0, Flt.fin (Real.pi / 2), Flt.fin (0 + Complex.arg ⟨-1, M 0 1⟩)] := by
  have h1 : ¬ ((-1 : ℝ) = 1) := by norm_num
  have h2 : (2 : ℝ) ≠ 0 := by norm_num
  unfold tipPose.ctor
  simp only [Mat3.ofReal, Flt.lit_one, Flt.lit_zero, Flt.lit_two, Flt.neg_fin, Flt.eq_fin, h, h1,
    decide_False, decide_True, Bool.false_or, if_true, Flt.pi_eq, Flt.div_fin_of_ne _ h2,
    Flt.atan2_fin, Flt.add_fin]

/-- C10 (the code at the failing input): whenever the matrix the program builds has
`R[0][2] = -1`, which is pitch `-π/2` in the inverse engine's composition and pitch
`π/2` in the decomposition's own convention, the decomposition returns
`(0, π/2, π)` whatever the other two angles are: the third angle is
`atan2(R[0][1], R[0][2]) = atan2(0, -1) = π` and carries nothing of the input. -/
theorem C10_gimbal_lock_returns_constant_yaw (p q : Fin 3 → Flt) (al ga : ℝ) :
    (tipPose.ctor p
        (ikRotation (⟨q, ![Flt.fin al, Flt.fin (-(Real.pi / 2)), Flt.fin ga]⟩ : tipPose Flt))).m_rpy
      = ![Flt.fin 0, Flt.fin (Real.pi / 2), Flt.fin Real.pi] := by
  have hM : rpyReal al (-(Real.pi / 2)) ga 0 2 = -1 := by
    show Real.sin (-(Real.pi / 2)) = -1
    rw [Real.sin_neg, Real.sin_pi_div_two]
  have hM1 : rpyReal al (-(Real.pi / 2)) ga 0 1 = 0 := by
    show -(Real.cos (-(Real.pi / 2)) * Real.sin ga) = 0
    rw [Real.cos_neg, Real.cos_pi_div_two]
    ring
  rw [ikRotation_fin, tipPose_ctor_gimbal p _ hM, hM1, arg_mk_neg_one_zero, zero_add]

/-! ### Inverse kinematics: the first angle -/

theorem ikRow_theta1 (self : UR F) (T_06 : Mat4 F) (theta1 : F) (i : Fin m_numIkSol) :
    ikRow self T_06 theta1 i 0 = theta1 := by
  unfold ikRow
  simp only []
  split_ifs <;> rfl

theorem inverseKinematics_theta1 (self : UR F) (targetTipPose : tipPose F)
    (i : Fin m_numIkSol) :
    inverseKinematics self targetTipPose i 0 = ikTheta1 self targetTipPose i :=
  ikRow_theta1 self _ _ i

theorem ikTheta1_eq_nan_of_phi (self : UR Flt) (targetTipPose : tipPose Flt)
    (hphi : ikTheta1Phi self targetTipPose = Flt.nan) (row : Fin m_numIkSol) :
    ikTheta1 self targetTipPose row = Flt.nan := by
  unfold ikTheta1
  rw [hphi]
  simp only [Flt.mul_nan, Flt.add_nan, Flt.nan_sub]

theorem ikTheta1Phi_eq_nan (self : UR Flt) (targetTipPose : tipPose Flt) (x y c : ℝ)
    (hx : ikP05 self targetTipPose 0 = Flt.fin x) (hy : ikP05 self targetTipPose 1 = Flt.fin y)
    (hc : self.m_d 1 + self.m_d 2 + self.m_d 3 + self.m_d 4 = Flt.fin c)
    (hdist : Real.sqrt (x ^ 2 + y ^ 2) < |c| ∨ Real.sqrt (x ^ 2 + y ^ 2) = 0) :
    ikTheta1Phi self targetTipPose = Flt.nan := by
  have hs : y * y + x * x = x ^ 2 + y ^ 2 := by ring
  have hnn : ¬ (x ^ 2 + y ^ 2 < 0) := not_lt.mpr (by positivity)
  unfold ikTheta1Phi pow2
  rw [hx, hy, hc, Flt.mul_fin, Flt.mul_fin, Flt.add_fin, hs, Flt.sqrt_fin, if_neg hnn, Flt.div_fin]
  by_cases h0 : Real.sqrt (x ^ 2 + y ^ 2) = 0
  · rw [if_pos h0]
    rfl
  · rw [if_neg h0, Flt.acos_fin]
    have hlt : Real.sqrt (x ^ 2 + y ^ 2) < |c| := by
      rcases hdist with h | h
      · exact h
      · exact absurd h h0
    have hpos : 0 < Real.sqrt (x ^ 2 + y ^ 2) :=
      lt_of_le_of_ne (Real.sqrt_nonneg _) (Ne.symm h0)
    have habs : 1 < |c / Real.sqrt (x ^ 2 + y ^ 2)| := by
      rw [abs_div, abs_of_pos hpos, lt_div_iff₀ hpos]
      linarith
    have hnot : ¬ (-1 ≤ c / Real.sqrt (x ^ 2 + y ^ 2) ∧ c / Real.sqrt (x ^ 2 + y ^ 2) ≤ 1) := by
      intro h
      have := abs_le.mpr h
      linarith
    rw [if_neg hnot]

/-- C7: if the wrist centre `P_05` and the offset sum `d[1]+d[2]+d[3]+d[4]` are numbers
and the horizontal distance of `P_05` from the base z-axis is smaller than the
magnitude of that sum, or is zero, then the first angle is not-a-number in all
eight rows and every row is rejected by `checkPoseReachability`. -/
theorem C7_theta1_nan_when_wrist_too_close (self : UR Flt) (targetTipPose : tipPose Flt)
    (x y c : ℝ) (hx : ikP05 self targetTipPose 0 = Flt.fin x)
    (hy : ikP05 self targetTipPose 1 = Flt.fin y)
    (hc : self.m_d 1 + self.m_d 2 + self.m_d 3 + self.m_d 4 = Flt.fin c)
    (hdist : Real.sqrt (x ^ 2 + y ^ 2) < |c| ∨ Real.sqrt (x ^ 2 + y ^ 2) = 0)
    (row : Fin m_numIkSol) :
    FloatArith.isnan (inverseKinematics self targetTipPose row 0) = true
    ∧ checkPoseReachability self (rowArray (inverseKinematics self targetTipPose row)) = false := by
  have hnan : inverseKinematics self targetTipPose row 0 = Flt.nan := by
    rw [inverseKinematics_theta1]
    exact ikTheta1_eq_nan_of_phi self targetTipPose
      (ikTheta1Phi_eq_nan self targetTipPose x y c hx hy hc hdist) row
  refine ⟨by rw [hnan]; rfl, ?_⟩
  rw [checkPoseReachability_eq_false_iff]
  refine ⟨0, by decide, ?_⟩
  show FloatArith.isnan (inverseKinematics self targetTipPose row 0) = true
  rw [hnan]
  rfl

theorem ikT07_fin (p : Fin 3 → ℝ) (al be ga : ℝ) :
    ikT07 (finPose p al be ga) = Mat4.ofReal (t07Real p al be ga) := by
  funext i j
  unfold ikT07 finPose
  rw [ikRotation_fin]
  simp only [Mat4.ofReal, t07Real, Mat3.ofReal]
  split_ifs with h1 h2 h3
  · rfl
  · rfl
  · simp only [Mat4.identity, if_pos h3, Flt.lit_one]
  · simp only [Mat4.identity, if_neg h3, Flt.lit_zero]

theorem ikP05_fin (self : UR Flt) (p : Fin 3 → ℝ) (al be ga d5 d6 : ℝ)
    (h5 : self.m_d 5 = Flt.fin d5) (h6 : self.m_d 6 = Flt.fin d6) (k : Fin 4) :
    ikP05 self (finPose p al be ga) k
      = Flt.fin (t07Real p al be ga k 2 * (-d5 - d6) + t07Real p al be ga k 3) := by
  unfold ikP05
  rw [ikT07_fin, h5, h6]
  simp only [Mat4.mulVec, Mat4.ofReal, vec4_zero, vec4_one, vec4_two, vec4_three, Flt.lit_zero,
    Flt.lit_one, Flt.neg_fin, Flt.sub_fin, Flt.mul_fin, Flt.add_fin, Flt.fin_inj_iff]
  ring

/-- C7, witness: the example robot without end-effector and the target straight
above the base, `(0, 0, 1)` with all angles zero: the wrist centre is on the base
z-axis; row 5. -/
theorem C7_theta1_nan_when_wrist_too_close_witness :
    FloatArith.isnan (inverseKinematics (ctor exampleTables blank URtype.UR5 false (Flt.fin 0))
      (finPose ![0, 0, 1] 0 0 0) 5 0) = true
    ∧ checkPoseReachability (ctor exampleTables blank URtype.UR5 false (Flt.fin 0))
        (rowArray (inverseKinematics (ctor exampleTables blank URtype.UR5 false (Flt.fin 0))
          (finPose ![0, 0, 1] 0 0 0) 5)) = false :=
  C7_theta1_nan_when_wrist_too_close (ctor exampleTables blank URtype.UR5 false (Flt.fin 0))
    (finPose ![0, 0, 1] 0 0 0)
    (t07Real ![0, 0, 1] 0 0 0 0 2 * (-0.0823 - 0) + t07Real ![0, 0, 1] 0 0 0 0 3)
    (t07Real ![0, 0, 1] 0 0 0 1 2 * (-0.0823 - 0) + t07Real ![0, 0, 1] 0 0 0 1 3)
    (0.10915 + 0 + 0 + 0)
    (ikP05_fin _ _ 0 0 0 0.0823 0 rfl rfl 0)
    (ikP05_fin _ _ 0 0 0 0.0823 0 rfl rfl 1)
    rfl
    (Or.inr (by
      have h02 : t07Real ![0, 0, 1] 0 0 0 0 2 = 0 := by
        show Real.sin 0 = 0
        exact Real.sin_zero
      have h03 : t07Real ![0, 0, 1] 0 0 0 0 3 = 0 := rfl
      have h12 : t07Real ![0, 0, 1] 0 0 0 1 2 = 0 := by
        show -(Real.sin 0 * Real.cos 0) = 0
        rw [Real.sin_zero]; ring
      have h13 : t07Real ![0, 0, 1] 0 0 0 1 3 = 0 := rfl
      rw [h02, h03, h12, h13]
      norm_num))
    5

/-! ### Inverse kinematics: the wrist angles -/

theorem ikRow_theta5 (self : UR F) (T_06 : Mat4 F) (theta1 : F) (i : Fin m_numIkSol) :
    ikRow self T_06 theta1 i 4 = ikTheta5 self (ikT16 self T_06 theta1) i := by
  unfold ikRow
  simp only []
  split_ifs <;> rfl

theorem ikRow_theta6 (self : UR F) (T_06 : Mat4 F) (theta1 : F) (i : Fin m_numIkSol) :
    ikRow self T_06 theta1 i 5
      = ikTheta6 (ikT16 self T_06 theta1) (ikTheta5 self (ikT16 self T_06 theta1) i) := by
  unfold ikRow
  simp only []
  split_ifs <;> rfl

theorem acos_range (x : Flt) :
    FloatArith.acos x = Flt.nan ∨ ∃ v : ℝ, FloatArith.acos x = Flt.fin v ∧ 0 ≤ v ∧ v ≤ Real.pi := by
  cases x with
  | nan => exact Or.inl rfl
  | fin r =>
    rw [Flt.acos_fin]
    by_cases h : -1 ≤ r ∧ r ≤ 1
    · rw [if_pos h]
      exact Or.inr ⟨_, rfl, Real.arccos_nonneg r, Real.arccos_le_pi r⟩
    · rw [if_neg h]
      exact Or.inl rfl

/-- Every fifth angle the inverse engine writes is not-a-number or lies in `[-π, π]`. -/
theorem ikTheta5_range (self : UR Flt) (T_16 : Mat4 Flt) (i : Fin m_numIkSol) :
    ikTheta5 self T_16 i = Flt.nan
      ∨ ∃ v : ℝ, ikTheta5 self T_16 i = Flt.fin v ∧ -Real.pi ≤ v ∧ v ≤ Real.pi := by
  unfold ikTheta5
  split_ifs
  · rcases acos_range ((T_16 1 3 - (self.m_d 1 + self.m_d 2 + self.m_d 3 + self.m_d 4))
        / self.m_d 5) with h | ⟨v, hv, h0, h1⟩
    · exact Or.inl h
    · exact Or.inr ⟨v, hv, by linarith, h1⟩
  · rcases acos_range ((T_16 1 3 - (self.m_d 1 + self.m_d 2 + self.m_d 3 + self.m_d 4))
        / self.m_d 5) with h | ⟨v, hv, h0, h1⟩
    · left
      rw [h]
      rfl
    · right
      refine ⟨-v, ?_, by linarith, by linarith⟩
      rw [hv]
      rfl

/-- A fifth angle that is a multiple of `2π` is zero, and then the sixth angle is set
to zero. -/
theorem ik_singular_wrist (self : UR Flt) (targetTipPose : tipPose Flt) (i : Fin m_numIkSol)
    (n : ℤ)
    (h : Flt.eqMod2Pi (inverseKinematics self targetTipPose i 4) (Flt.fin (n * (2 * Real.pi)))) :
    inverseKinematics self targetTipPose i 4 = Flt.fin 0
      ∧ inverseKinematics self targetTipPose i 5 = Flt.fin 0 := by
  obtain ⟨a, b, k, ha, hb, hab⟩ := h
  have hb' : b = n * (2 * Real.pi) := (Flt.fin_injective hb).symm
  have h4 : inverseKinematics self targetTipPose i 4
      = ikTheta5 self (ikT16 self (ikT06 self targetTipPose) (ikTheta1 self targetTipPose i)) i :=
    ikRow_theta5 self _ _ i
  have h5 : inverseKinematics self targetTipPose i 5
      = ikTheta6 (ikT16 self (ikT06 self targetTipPose) (ikTheta1 self targetTipPose i))
          (ikTheta5 self (ikT16 self (ikT06 self targetTipPose) (ikTheta1 self targetTipPose i))
            i) :=
    ikRow_theta6 self _ _ i
  have hpi := Real.pi_pos
  have ha0 : a = 0 := by
    rcases ikTheta5_range self
        (ikT16 self (ikT06 self targetTipPose) (ikTheta1 self targetTipPose i)) i
      with hn | ⟨v, hv, hlo, hhi⟩
    · rw [h4, hn] at ha
      exact absurd ha (Flt.nan_ne_fin a)
    · rw [h4, hv] at ha
      have hva : v = a := Flt.fin_injective ha
      have hsum : a = ((k + n : ℤ) : ℝ) * (2 * Real.pi) := by
        push_cast
        linarith
      have hm : (k + n : ℤ) = 0 := by
        by_contra hne
        rcases lt_or_gt_of_ne hne with hlt | hgt
        · have h1 : ((k + n : ℤ) : ℝ) ≤ -1 := by exact_mod_cast Int.le_sub_one_of_lt hlt
          have : a ≤ -(2 * Real.pi) := by
            rw [hsum]
            nlinarith
          linarith
        · have h1 : (1 : ℝ) ≤ ((k + n : ℤ) : ℝ) := by exact_mod_cast hgt
          have : 2 * Real.pi ≤ a := by
            rw [hsum]
            nlinarith
          linarith
      rw [hsum, hm]
      simp
  rw [ha0] at ha
  refine ⟨ha, ?_⟩
  rw [h5, ← h4, ha]
  unfold ikTheta6
  simp only [Flt.lit_zero, Flt.eq_fin, decide_True, Bool.true_or, if_true]

theorem not_eqMod2Pi_of_small {v : ℝ} (h0 : v ≠ 0) (h1 : -(2 * Real.pi) < v)
    (h2 : v < 2 * Real.pi) : ¬ Flt.eqMod2Pi (Flt.fin v) (Flt.fin 0) := by
  rintro ⟨a, b, k, ha, hb, hab⟩
  have hav : v = a := Flt.fin_injective ha
  have hb0 : (0 : ℝ) = b := Flt.fin_injective hb
  have hpi := Real.pi_pos
  have hk : a = (k : ℝ) * (2 * Real.pi) := by linarith
  have hk0 : k = 0 := by
    by_contra hne
    rcases lt_or_gt_of_ne hne with hlt | hgt
    · have h3 : (k : ℝ) ≤ -1 := by exact_mod_cast Int.le_sub_one_of_lt hlt
      have : a ≤ -(2 * Real.pi) := by
        rw [hk]
        nlinarith
      linarith
    · have h3 : (1 : ℝ) ≤ (k : ℝ) := by exact_mod_cast hgt
      have : 2 * Real.pi ≤ a := by
        rw [hk]
        nlinarith
      linarith
  rw [hk0] at hk
  simp at hk
  exact h0 (by rw [hav, hk])

theorem no_row_at_singular_wrist (self : UR Flt) (targetTipPose : tipPose Flt)
    (q : Fin m_numDoF → Flt) (n : ℤ) (h5 : q 4 = Flt.fin (n * (2 * Real.pi)))
    (h6 : ¬ Flt.eqMod2Pi (q 5) (Flt.fin 0)) (row : Fin m_numIkSol) :
    ¬ ∀ j, Flt.eqMod2Pi (inverseKinematics self targetTipPose row j) (q j) := by
  intro hall
  have h4 := hall 4
  rw [h5] at h4
  have hz := (ik_singular_wrist self targetTipPose row n h4).2
  have h5' := hall 5
  rw [hz] at h5'
  obtain ⟨a, b, k, ha, hb, hab⟩ := h5'
  apply h6
  refine ⟨b, 0, -k, hb, rfl, ?_⟩
  have ha0 : (0 : ℝ) = a := Flt.fin_injective ha
  push_cast
  linarith

/-- C1 (amended): the round trip at a singular wrist.  Every row whose fifth angle
is a multiple of `2π` has its fifth and sixth angles exactly zero, whatever the
target pose; hence for joint values with `θ5 ≡ 0` and `θ6 ≢ 0` modulo `2π`, no row
written by `inverseKinematics` for the pose returned by `forwardKinematics` equals
the joint values modulo `2π`. -/
theorem C1_round_trip_fails_at_singular_wrist (self : UR Flt) (q : Fin m_numDoF → Flt) (n : ℤ)
    (h5 : q 4 = Flt.fin (n * (2 * Real.pi))) (h6 : ¬ Flt.eqMod2Pi (q 5) (Flt.fin 0))
    (row : Fin m_numIkSol) :
    (∀ (targetTipPose : tipPose Flt) (m : ℤ),
        Flt.eqMod2Pi (inverseKinematics self targetTipPose row 4) (Flt.fin (m * (2 * Real.pi))) →
          inverseKinematics self targetTipPose row 4 = Flt.fin 0
            ∧ inverseKinematics self targetTipPose row 5 = Flt.fin 0)
    ∧ ¬ ∀ j, Flt.eqMod2Pi
        (inverseKinematics (forwardKinematics self q).2 (forwardKinematics self q).1 row j) (q j) :=
  ⟨fun targetTipPose m h => ik_singular_wrist self targetTipPose row m h,
    no_row_at_singular_wrist _ _ q n h5 h6 row⟩

/-- C1, witness: the example UR3 with an end-effector of length 0.1, the joint values
`(1, -1, 1/2, 0, 2π, -2)` and the row 3. -/
theorem C1_round_trip_fails_at_singular_wrist_witness :
    ¬ ∀ j, Flt.eqMod2Pi
        (inverseKinematics
          (forwardKinematics (ctor exampleTables blank URtype.UR3 true (Flt.fin 0.1))
            ![Flt.fin 1, Flt.fin (-1), Flt.fin (1 / 2), Flt.fin 0, Flt.fin (2 * Real.pi),
              Flt.fin (-2)]).2
          (forwardKinematics (ctor exampleTables blank URtype.UR3 true (Flt.fin 0.1))
            ![Flt.fin 1, Flt.fin (-1), Flt.fin (1 / 2), Flt.fin 0, Flt.fin (2 * Real.pi),
              Flt.fin (-2)]).1
          3 j)
        ((![Flt.fin 1, Flt.fin (-1), Flt.fin (1 / 2), Flt.fin 0, Flt.fin (2 * Real.pi),
          Flt.fin (-2)] : Fin m_numDoF → Flt) j) :=
  (C1_round_trip_fails_at_singular_wrist (ctor exampleTables blank URtype.UR3 true (Flt.fin 0.1))
    ![Flt.fin 1, Flt.fin (-1), Flt.fin (1 / 2), Flt.fin 0, Flt.fin (2 * Real.pi), Flt.fin (-2)] 1
    (by
      show Flt.fin (2 * Real.pi) = Flt.fin (((1 : ℤ) : ℝ) * (2 * Real.pi))
      simp)
    (by
      show ¬ Flt.eqMod2Pi (Flt.fin (-2)) (Flt.fin 0)
      exact not_eqMod2Pi_of_small (by norm_num) (by linarith [Real.pi_gt_three])
        (by linarith [Real.pi_gt_three]))
    3).2

/-- C1, counterexample: for the example UR5 without end-effector and the joint
values `(0, 0, 0, 0, 0, 1)`, all within `[-2π, 2π]`, none of the eight rows written
by `inverseKinematics` for the pose returned by `forwardKinematics` equals the joint
values modulo `2π`. -/
theorem C1_counterexample :
    (∀ j : Fin m_numDoF, ∃ v : ℝ,
        (![Flt.fin 0, Flt.fin 0, Flt.fin 0, Flt.fin 0, Flt.fin 0, Flt.fin 1] :
          Fin m_numDoF → Flt) j = Flt.fin v ∧ -(2 * Real.pi) ≤ v ∧ v ≤ 2 * Real.pi)
    ∧ ¬ ∃ row : Fin m_numIkSol, ∀ j, Flt.eqMod2Pi
        (inverseKinematics
          (forwardKinematics (ctor exampleTables blank URtype.UR5 false (Flt.fin 0))
            ![Flt.fin 0, Flt.fin 0, Flt.fin 0, Flt.fin 0, Flt.fin 0, Flt.fin 1]).2
          (forwardKinematics (ctor exampleTables blank URtype.UR5 false (Flt.fin 0))
            ![Flt.fin 0, Flt.fin 0, Flt.fin 0, Flt.fin 0, Flt.fin 0, Flt.fin 1]).1
          row j)
        ((![Flt.fin 0, Flt.fin 0, Flt.fin 0, Flt.fin 0, Flt.fin 0, Flt.fin 1] :
          Fin m_numDoF → Flt) j) := by
  have hpi := Real.pi_gt_three
  constructor
  · intro j
    fin_cases j
    · exact ⟨0, rfl, by linarith, by linarith⟩
    · exact ⟨0, rfl, by linarith, by linarith⟩
    · exact ⟨0, rfl, by linarith, by linarith⟩
    · exact ⟨0, rfl, by linarith, by linarith⟩
    · exact ⟨0, rfl, by linarith, by linarith⟩
    · exact ⟨1, rfl, by linarith, by linarith⟩
  · rintro ⟨row, hrow⟩
    refine no_row_at_singular_wrist _ _ _ 0 ?_ ?_ row hrow
    · show Flt.fin 0 = Flt.fin (((0 : ℤ) : ℝ) * (2 * Real.pi))
      simp
    · show ¬ Flt.eqMod2Pi (Flt.fin 1) (Flt.fin 0)
      exact not_eqMod2Pi_of_small (by norm_num) (by linarith) (by linarith)

end UR
end universalRobots

namespace universalRobots
namespace UR
open mathLib

/-! ### Inverse kinematics on finite inputs -/

theorem ikT06_fin (self : UR Flt) (p : Fin 3 → ℝ) (al be ga d6 : ℝ)
    (h6 : self.m_d 6 = Flt.fin d6) :
    ikT06 self (finPose p al be ga) = Mat4.ofReal (t06Real p al be ga d6) := by
  unfold ikT06 t06Real
  have h6' : self.m_d ⟨m_numTransZ - 1, by decide⟩ = Flt.fin d6 := h6
  rw [ikT07_fin, h6']
  funext i j
  by_cases hi : i = 2
  · subst hi
    by_cases hj : j = 3
    · subst hj
      simp only [Function.update_same, Mat4.ofReal, Flt.sub_fin]
    · simp only [Function.update_same, Function.update_noteq hj, Mat4.ofReal]
  · simp only [Function.update_noteq hi, Mat4.ofReal]

theorem pi_div_two_fin : (FloatArith.pi / 2 : Flt) = Flt.fin (Real.pi / 2) := by
  rw [Flt.pi_eq, Flt.lit_two, Flt.div_fin_of_ne _ (by norm_num)]

theorem neg_pi_div_two_fin : (-FloatArith.pi / 2 : Flt) = Flt.fin (-Real.pi / 2) := by
  rw [Flt.pi_eq, Flt.lit_two, Flt.neg_fin, Flt.div_fin_of_ne _ (by norm_num)]

theorem ikT01_fin (self : UR Flt) (d0 t1 : ℝ) (h0 : self.m_d 0 = Flt.fin d0) :
    ikT01 self (Flt.fin t1) = Mat4.ofReal (mdhReal 0 0 d0 t1) := by
  unfold ikT01
  rw [h0, Flt.lit_zero, calcTransformationMatrix_fin]

theorem ikT16_fin (self : UR Flt) (d0 t1 : ℝ) (h0 : self.m_d 0 = Flt.fin d0)
    (M06 : Matrix (Fin 4) (Fin 4) ℝ) :
    ikT16 self (Mat4.ofReal M06) (Flt.fin t1) = Mat4.ofReal (ik16Real d0 t1 M06) := by
  unfold ikT16 ik16Real
  rw [ikT01_fin self d0 t1 h0, Mat4.inverse_ofReal_rigid (isRigid_mdhReal _ _ _ _),
    Mat4.mul_ofReal]

theorem ikT46_fin (self : UR Flt) (d : Fin m_numTransZ → ℝ) (a : Fin m_numTransX → ℝ)
    (hd : self.m_d = fun k => Flt.fin (d k)) (ha : self.m_a = fun k => Flt.fin (a k))
    (t5 t6 : ℝ) :
    ikT46 self (Flt.fin t5) (Flt.fin t6) = Mat4.ofReal (t46Real d a t5 t6) := by
  unfold ikT46 t46Real
  simp only [hd, ha, Flt.lit_zero, pi_div_two_fin, neg_pi_div_two_fin,
    calcTransformationMatrix_fin, Mat4.mul_ofReal]

theorem isRigid_t46Real (d : Fin m_numTransZ → ℝ) (a : Fin m_numTransX → ℝ) (t5 t6 : ℝ) :
    IsRigid (t46Real d a t5 t6) :=
  ((isRigid_mdhReal _ _ _ _).mul (isRigid_mdhReal _ _ _ _)).mul
    ((isRigid_mdhReal _ _ _ _).mul (isRigid_mdhReal _ _ _ _))

theorem ikTheta5_fin (self : UR Flt) (d : Fin m_numTransZ → ℝ)
    (hd : self.m_d = fun k => Flt.fin (d k)) (M16 : Matrix (Fin 4) (Fin 4) ℝ)
    (h5 : d 5 ≠ 0) (hx : -1 ≤ ikX5Real d M16 ∧ ikX5Real d M16 ≤ 1) (i : Fin m_numIkSol) :
    ikTheta5 self (Mat4.ofReal M16) i = Flt.fin (ikTheta5Real d M16 i) := by
  unfold ikTheta5 ikTheta5Real
  have hacos : FloatArith.acos ((Mat4.ofReal M16 1 3
      - (self.m_d 1 + self.m_d 2 + self.m_d 3 + self.m_d 4)) / self.m_d 5)
      = Flt.fin (Real.arccos (ikX5Real d M16)) := by
    simp only [hd, Mat4.ofReal, Flt.add_fin, Flt.sub_fin, Flt.div_fin_of_ne _ h5, Flt.acos_fin]
    unfold ikX5Real at hx
    rw [if_pos hx]
    rfl
  rw [hacos]
  split_ifs <;> rfl

theorem ikTheta6_fin (M16 : Matrix (Fin 4) (Fin 4) ℝ) (h16 : IsRigid M16) (t5 : ℝ)
    (h : t5 = 0 ∨ t5 = 2 * Real.pi ∨ Real.sin t5 ≠ 0) :
    ikTheta6 (Mat4.ofReal M16) (Flt.fin t5) = Flt.fin (ikTheta6Real M16 t5) := by
  unfold ikTheta6 ikTheta6Real
  simp only [Flt.lit_zero, Flt.lit_two, Flt.pi_eq, Flt.mul_fin, Flt.eq_fin, Bool.or_eq_true,
    decide_eq_true_eq]
  by_cases hg : t5 = 0 ∨ t5 = 2 * Real.pi
  · rw [if_pos hg, if_pos hg]
  · rw [if_neg hg, if_neg hg]
    have hs : Real.sin t5 ≠ 0 := by
      rcases h with h | h | h
      · exact absurd (Or.inl h) hg
      · exact absurd (Or.inr h) hg
      · exact h
    simp only [Mat4.inverse_ofReal_rigid h16, Mat4.ofReal, rigidInv_zero_one, rigidInv_one_one,
      Flt.sin_fin, Flt.neg_fin, Flt.div_fin_of_ne _ hs, Flt.atan2_fin,
      Flt.div_fin_of_ne _ (two_ne_zero' ℝ), Flt.add_fin]

theorem ikP14xz_fin (M14 : Matrix (Fin 4) (Fin 4) ℝ) :
    ikP14xz (Mat4.ofReal M14) = Flt.fin (ikPReal M14) := by
  unfold ikP14xz ikPReal pow2
  simp only [Mat4.ofReal, Flt.mul_fin, Flt.add_fin, Flt.sqrt_fin]
  rw [if_neg]
  have h1 := mul_self_nonneg (M14 0 3)
  have h2 := mul_self_nonneg (M14 2 3)
  linarith

theorem ikTheta3Psi_fin (self : UR Flt) (a : Fin m_numTransX → ℝ)
    (ha : self.m_a = fun k => Flt.fin (a k)) (P : ℝ) (h0 : -2 * a 0 * a 1 ≠ 0)
    (hx : -1 ≤ ikArg3Real a P ∧ ikArg3Real a P ≤ 1) :
    ikTheta3Psi self (Flt.fin P) = Flt.fin (Real.arccos (ikArg3Real a P)) := by
  unfold ikTheta3Psi pow2
  unfold ikArg3Real at hx
  simp only [ha, Flt.lit_two, Flt.neg_fin, Flt.mul_fin, Flt.sub_fin, Flt.div_fin_of_ne _ h0,
    Flt.acos_fin]
  rw [if_pos hx]
  rfl

theorem ikMask_fin (x : ℝ) :
    ikMask (Flt.fin x) = Flt.fin (if x > Real.pi then x - Real.pi * 2 else x) := by
  unfold ikMask
  simp only [Flt.pi_eq, Flt.gt_fin, Flt.lit_two, Flt.mul_fin, Flt.sub_fin, decide_eq_true_eq]
  split_ifs <;> rfl

theorem asin_fin_of_abs_le {x : ℝ} (h : |x| ≤ 1) :
    FloatArith.asin (Flt.fin x) = Flt.fin (Real.arcsin x) := by
  rw [Flt.asin_fin, if_pos (abs_le.mp h)]

theorem ikTheta4_fin (self : UR Flt) (d : Fin m_numTransZ → ℝ) (a : Fin m_numTransX → ℝ)
    (hd : self.m_d = fun k => Flt.fin (d k)) (ha : self.m_a = fun k => Flt.fin (a k))
    (M06 M01 M46 : Matrix (Fin 4) (Fin 4) ℝ) (h01 : IsRigid M01) (h46 : IsRigid M46)
    (t2 t3 : ℝ) :
    ∃ t4 : ℝ, ikTheta4 self (Mat4.ofReal M06) (Mat4.ofReal M01) (Mat4.ofReal M46) (Flt.fin t2)
      (Flt.fin t3) = Flt.fin t4 := by
  unfold ikTheta4
  have h03 : IsRigid (M01 * mdhReal (-Real.pi / 2) 0 (d 1) (t2 - Real.pi / 2)
      * mdhReal 0 (a 0) (d 2) t3) :=
    (h01.mul (isRigid_mdhReal _ _ _ _)).mul (isRigid_mdhReal _ _ _ _)
  simp only [hd, ha, Flt.lit_zero, pi_div_two_fin, neg_pi_div_two_fin, Flt.sub_fin,
    calcTransformationMatrix_fin, Mat4.mul_ofReal, Mat4.inverse_ofReal_rigid h03,
    Mat4.inverse_ofReal_rigid h46]
  exact ⟨_, rfl⟩

theorem ikTheta2_fin (self : UR Flt) (a : Fin m_numTransX → ℝ)
    (ha : self.m_a = fun k => Flt.fin (a k)) (M14 : Matrix (Fin 4) (Fin 4) ℝ) (psi P : ℝ)
    (hP0 : P ≠ 0) (hP : |a 1| ≤ |P|) :
    (∃ t2 : ℝ, ikTheta2Odd self (Mat4.ofReal M14) (Flt.fin psi) (Flt.fin P) = Flt.fin t2)
    ∧ ∃ t2 : ℝ, ikTheta2Even self (Mat4.ofReal M14) (Flt.fin psi) (Flt.fin P) = Flt.fin t2 := by
  have hpos : 0 < |P| := abs_pos.mpr hP0
  have hb : ∀ s : ℝ, |s| ≤ 1 → |a 1 * s / P| ≤ 1 := by
    intro s hs
    rw [abs_div, abs_mul, div_le_one hpos]
    calc |a 1| * |s| ≤ |a 1| * 1 := mul_le_mul_of_nonneg_left hs (abs_nonneg _)
      _ = |a 1| := mul_one _
      _ ≤ |P| := hP
  constructor
  · unfold ikTheta2Odd
    simp only [ha, Mat4.ofReal, pi_div_two_fin, Flt.atan2_fin, Flt.neg_fin, Flt.sin_fin,
      Flt.mul_fin, Flt.div_fin_of_ne _ hP0, Flt.sub_fin,
      asin_fin_of_abs_le (hb _ (Real.abs_sin_le_one (-psi))), Flt.add_fin]
    exact ⟨_, rfl⟩
  · unfold ikTheta2Even
    simp only [ha, Mat4.ofReal, pi_div_two_fin, Flt.atan2_fin, Flt.sin_fin,
      Flt.mul_fin, Flt.div_fin_of_ne _ hP0, Flt.sub_fin,
      asin_fin_of_abs_le (hb _ (Real.abs_sin_le_one psi)), Flt.add_fin]
    exact ⟨_, rfl⟩

/-- The row written by iteration `i`, slot by slot. -/
theorem ikRow_eq {F : Type} [FloatArith F] (self : UR F) (T_06 : Mat4 F) (theta1 : F)
    (i : Fin m_numIkSol) :
    ikRow self T_06 theta1 i
      = ![theta1, ikRowTheta2 self T_06 theta1 i, ikRowTheta3 self T_06 theta1 i,
          ikRowTheta4 self T_06 theta1 i, ikRowTheta5 self T_06 theta1 i,
          ikRowTheta6 self T_06 theta1 i] := by
  unfold ikRow ikRowTheta4 ikRowTheta2 ikRowTheta3 ikRowPsi3 ikRowT14 ikRowT46 ikRowTheta6
    ikRowTheta5
  simp only []
  split_ifs <;> rfl

/-- A row of `inverseKinematics` on finite inputs: when no domain failure and no
division by zero occurs, the six angles of the row are numbers. -/
theorem ikRow_fin (self : UR Flt) (d : Fin m_numTransZ → ℝ) (a : Fin m_numTransX → ℝ)
    (hd : self.m_d = fun k => Flt.fin (d k)) (ha : self.m_a = fun k => Flt.fin (a k))
    (M06 : Matrix (Fin 4) (Fin 4) ℝ) (h06 : IsRigid M06) (t1 : ℝ) (i : Fin m_numIkSol)
    (M16 : Matrix (Fin 4) (Fin 4) ℝ) (hM16 : M16 = ik16Real (d 0) t1 M06)
    (t5 : ℝ) (ht5 : t5 = ikTheta5Real d M16 i) (t6 : ℝ) (ht6 : t6 = ikTheta6Real M16 t5)
    (M14 : Matrix (Fin 4) (Fin 4) ℝ) (hM14 : M14 = ik14Real d a M16 t5 t6)
    (P : ℝ) (hPdef : P = ikPReal M14)
    (h5 : d 5 ≠ 0) (hx5 : -1 ≤ ikX5Real d M16 ∧ ikX5Real d M16 ≤ 1)
    (hs5 : t5 = 0 ∨ t5 = 2 * Real.pi ∨ Real.sin t5 ≠ 0)
    (h01 : -2 * a 0 * a 1 ≠ 0) (hx3 : -1 ≤ ikArg3Real a P ∧ ikArg3Real a P ≤ 1)
    (hPa : |a 1| ≤ P) (hP0 : P ≠ 0) :
    ∃ t2 t3 t4 : ℝ, ikRow self (Mat4.ofReal M06) (Flt.fin t1) i
      = ![Flt.fin t1, Flt.fin t2, Flt.fin t3, Flt.fin t4, Flt.fin t5, Flt.fin t6] := by
  have h0 : self.m_d 0 = Flt.fin (d 0) := by rw [hd]
  have h16 : IsRigid M16 := by
    rw [hM16]
    exact (isRigid_rigidInv (isRigid_mdhReal _ _ _ _)).mul h06
  have h46 := isRigid_t46Real d a t5 t6
  have e16 : ikT16 self (Mat4.ofReal M06) (Flt.fin t1) = Mat4.ofReal M16 := by
    rw [ikT16_fin self (d 0) t1 h0, hM16]
  have e5 : ikRowTheta5 self (Mat4.ofReal M06) (Flt.fin t1) i = Flt.fin t5 := by
    unfold ikRowTheta5
    rw [e16, ikTheta5_fin self d hd _ h5 hx5, ht5]
  have e6 : ikRowTheta6 self (Mat4.ofReal M06) (Flt.fin t1) i = Flt.fin t6 := by
    unfold ikRowTheta6
    rw [e5, e16, ikTheta6_fin _ h16 _ hs5, ht6]
  have e46 : ikRowT46 self (Mat4.ofReal M06) (Flt.fin t1) i = Mat4.ofReal (t46Real d a t5 t6) := by
    unfold ikRowT46
    rw [e5, e6, ikT46_fin self d a hd ha]
  have e14 : ikRowT14 self (Mat4.ofReal M06) (Flt.fin t1) i = Mat4.ofReal M14 := by
    unfold ikRowT14
    rw [e16, e46, Mat4.inverse_ofReal_rigid h46, Mat4.mul_ofReal, hM14]
    rfl
  have eP : ikP14xz (ikRowT14 self (Mat4.ofReal M06) (Flt.fin t1) i) = Flt.fin P := by
    rw [e14, ikP14xz_fin, hPdef]
  have epsi : ikRowPsi3 self (Mat4.ofReal M06) (Flt.fin t1) i
      = Flt.fin (Real.arccos (ikArg3Real a P)) := by
    unfold ikRowPsi3
    rw [eP, ikTheta3Psi_fin self a ha _ h01 hx3]
  have e3 : ∃ t3 : ℝ, ikRowTheta3 self (Mat4.ofReal M06) (Flt.fin t1) i = Flt.fin t3 := by
    unfold ikRowTheta3
    rw [epsi, Flt.pi_eq, Flt.sub_fin, Flt.add_fin, ikMask_fin, ikMask_fin]
    split_ifs <;> exact ⟨_, rfl⟩
  have e2 : ∃ t2 : ℝ, ikRowTheta2 self (Mat4.ofReal M06) (Flt.fin t1) i = Flt.fin t2 := by
    unfold ikRowTheta2
    rw [e14, epsi, ikP14xz_fin, ← hPdef]
    obtain ⟨ho, he⟩ := ikTheta2_fin self a ha M14 (Real.arccos (ikArg3Real a P)) P hP0
      (le_trans hPa (le_abs_self P))
    split_ifs
    · exact ho
    · exact he
  obtain ⟨t3, ht3⟩ := e3
  obtain ⟨t2, ht2⟩ := e2
  have e4 : ∃ t4 : ℝ, ikRowTheta4 self (Mat4.ofReal M06) (Flt.fin t1) i = Flt.fin t4 := by
    unfold ikRowTheta4
    rw [e46, ht2, ht3, ikT01_fin self (d 0) t1 h0]
    exact ikTheta4_fin self d a hd ha M06 _ _ (isRigid_mdhReal 0 0 (d 0) t1) h46 t2 t3
  obtain ⟨t4, ht4⟩ := e4
  refine ⟨t2, t3, t4, ?_⟩
  rw [ikRow_eq, ht2, ht3, ht4, e5, e6]

/-- The local `T_46` over the reals in closed form. -/
theorem t46Real_eq (d : Fin m_numTransZ → ℝ) (a : Fin m_numTransX → ℝ) (t5 t6 : ℝ) :
    t46Real d a t5 t6
      = Matrix.of ![![Real.cos t6, -Real.sin t6, 0, a 2 + a 3],
          ![Real.cos t5 * Real.sin t6, Real.cos t5 * Real.cos t6, -Real.sin t5,
            -(Real.sin t5 * d 5)],
          ![Real.sin t5 * Real.sin t6, Real.sin t5 * Real.cos t6, Real.cos t5,
            d 4 + Real.cos t5 * d 5],
          ![0, 0, 0, 1]] := by
  have hc : Real.cos (-Real.pi / 2) = 0 := by
    rw [neg_div, Real.cos_neg, Real.cos_pi_div_two]
  have hs : Real.sin (-Real.pi / 2) = -1 := by
    rw [neg_div, Real.sin_neg, Real.sin_pi_div_two]
  ext i j
  fin_cases i <;> fin_cases j <;>
    simp only [t46Real, Matrix.mul_apply, Fin.sum_univ_four, Matrix.of_apply,
      Fin.mk_zero, Fin.mk_one, Fin.reduceFinMk, Fin.zero_eta, Fin.isValue,
      mdhReal_zero_zero, mdhReal_zero_one, mdhReal_zero_two, mdhReal_zero_three,
      mdhReal_one_zero, mdhReal_one_one, mdhReal_one_two, mdhReal_one_three,
      mdhReal_two_zero, mdhReal_two_one, mdhReal_two_two, mdhReal_two_three,
      mdhReal_three_zero, mdhReal_three_one, mdhReal_three_two, mdhReal_three_three,
      vec4_zero, vec4_one, vec4_two, vec4_three,
      Real.cos_pi_div_two, Real.sin_pi_div_two, Real.cos_zero, Real.sin_zero, hc, hs] <;>
    ring

theorem rpyReal_eq_mul (al be ga : ℝ) :
    rpyReal al be ga
      = Matrix.of ![![1, 0, 0], ![0, Real.cos al, -Real.sin al], ![0, Real.sin al, Real.cos al]]
        * Matrix.of ![![Real.cos be, 0, Real.sin be], ![0, 1, 0],
            ![-Real.sin be, 0, Real.cos be]]
        * Matrix.of ![![Real.cos ga, -Real.sin ga, 0], ![Real.sin ga, Real.cos ga, 0],
            ![0, 0, 1]] := by
  ext i j
  fin_cases i <;> fin_cases j <;>
    simp only [rpyReal, Matrix.mul_apply, Fin.sum_univ_three, Matrix.of_apply,
      Fin.mk_zero, Fin.mk_one, Fin.reduceFinMk, Fin.zero_eta, Fin.isValue,
      vec3_zero, vec3_one, vec3_two] <;>
    ring

theorem rpyReal_orthogonal (al be ga : ℝ) :
    Matrix.transpose (rpyReal al be ga) * rpyReal al be ga = 1 := by
  have hx : Matrix.transpose (Matrix.of ![![1, 0, 0], ![0, Real.cos al, -Real.sin al],
      ![0, Real.sin al, Real.cos al]])
      * Matrix.of ![![1, 0, 0], ![0, Real.cos al, -Real.sin al], ![0, Real.sin al, Real.cos al]]
      = (1 : Matrix (Fin 3) (Fin 3) ℝ) := by
    have h := Real.sin_sq_add_cos_sq al
    ext i j
    fin_cases i <;> fin_cases j <;>
      simp only [Matrix.mul_apply, Matrix.transpose_apply, Fin.sum_univ_three, Matrix.of_apply,
        Fin.mk_zero, Fin.mk_one, Fin.reduceFinMk, Fin.zero_eta, Fin.isValue,
        vec3_zero, vec3_one, vec3_two, Matrix.one_apply_eq, Matrix.one_apply_ne, ne_eq,
        Fin.reduceEq, not_false_eq_true] <;>
      nlinarith [h]
  have hy : Matrix.transpose (Matrix.of ![![Real.cos be, 0, Real.sin be], ![0, 1, 0],
      ![-Real.sin be, 0, Real.cos be]])
      * Matrix.of ![![Real.cos be, 0, Real.sin be], ![0, 1, 0], ![-Real.sin be, 0, Real.cos be]]
      = (1 : Matrix (Fin 3) (Fin 3) ℝ) := by
    have h := Real.sin_sq_add_cos_sq be
    ext i j
    fin_cases i <;> fin_cases j <;>
      simp only [Matrix.mul_apply, Matrix.transpose_apply, Fin.sum_univ_three, Matrix.of_apply,
        Fin.mk_zero, Fin.mk_one, Fin.reduceFinMk, Fin.zero_eta, Fin.isValue,
        vec3_zero, vec3_one, vec3_two, Matrix.one_apply_eq, Matrix.one_apply_ne, ne_eq,
        Fin.reduceEq, not_false_eq_true] <;>
      nlinarith [h]
  have hz : Matrix.transpose (Matrix.of ![![Real.cos ga, -Real.sin ga, 0],
      ![Real.sin ga, Real.cos ga, 0], ![0, 0, 1]])
      * Matrix.of ![![Real.cos ga, -Real.sin ga, 0], ![Real.sin ga, Real.cos ga, 0], ![0, 0, 1]]
      = (1 : Matrix (Fin 3) (Fin 3) ℝ) := by
    have h := Real.sin_sq_add_cos_sq ga
    ext i j
    fin_cases i <;> fin_cases j <;>
      simp only [Matrix.mul_apply, Matrix.transpose_apply, Fin.sum_univ_three, Matrix.of_apply,
        Fin.mk_zero, Fin.mk_one, Fin.reduceFinMk, Fin.zero_eta, Fin.isValue,
        vec3_zero, vec3_one, vec3_two, Matrix.one_apply_eq, Matrix.one_apply_ne, ne_eq,
        Fin.reduceEq, not_false_eq_true] <;>
      nlinarith [h]
  rw [rpyReal_eq_mul, Matrix.transpose_mul, Matrix.transpose_mul]
  calc _ = Matrix.transpose (Matrix.of ![![Real.cos ga, -Real.sin ga, 0],
          ![Real.sin ga, Real.cos ga, 0], ![0, 0, 1]])
        * (Matrix.transpose (Matrix.of ![![Real.cos be, 0, Real.sin be], ![0, 1, 0],
            ![-Real.sin be, 0, Real.cos be]])
          * (Matrix.transpose (Matrix.of ![![1, 0, 0], ![0, Real.cos al, -Real.sin al],
              ![0, Real.sin al, Real.cos al]])
            * Matrix.of ![![1, 0, 0], ![0, Real.cos al, -Real.sin al],
              ![0, Real.sin al, Real.cos al]])
          * Matrix.of ![![Real.cos be, 0, Real.sin be], ![0, 1, 0],
            ![-Real.sin be, 0, Real.cos be]])
        * Matrix.of ![![Real.cos ga, -Real.sin ga, 0], ![Real.sin ga, Real.cos ga, 0],
          ![0, 0, 1]] := by
        simp only [Matrix.mul_assoc]
    _ = 1 := by
        rw [hx, Matrix.mul_one, hy, Matrix.mul_one, hz]

theorem isRigid_t07Real (p : Fin 3 → ℝ) (al be ga : ℝ) : IsRigid (t07Real p al be ga) := by
  have hr : rotR (t07Real p al be ga) = rpyReal al be ga := by
    ext i j
    fin_cases i <;> fin_cases j <;> rfl
  refine ⟨?_, ?_, ?_⟩
  · rw [hr]
    exact rpyReal_orthogonal al be ga
  · intro j
    fin_cases j <;> rfl
  · rfl

theorem isRigid_t06Real (p : Fin 3 → ℝ) (al be ga d6 : ℝ) :
    IsRigid (t06Real p al be ga d6) := by
  have hr : rotR (t06Real p al be ga d6) = rpyReal al be ga := by
    ext i j
    fin_cases i <;> fin_cases j <;> rfl
  refine ⟨?_, ?_, ?_⟩
  · rw [hr]
    exact rpyReal_orthogonal al be ga
  · intro j
    fin_cases j <;> rfl
  · rfl

end UR
end universalRobots

namespace universalRobots
namespace UR
open mathLib

/-! ### An example target for the long-wrist robot -/

theorem mdhReal_zero_eq_one : mdhReal 0 0 0 0 = 1 := by
  ext i j
  fin_cases i <;> fin_cases j <;>
    simp only [Fin.mk_zero, Fin.mk_one, Fin.reduceFinMk, Fin.zero_eta, Fin.isValue,
      mdhReal_zero_zero, mdhReal_zero_one, mdhReal_zero_two, mdhReal_zero_three,
      mdhReal_one_zero, mdhReal_one_one, mdhReal_one_two, mdhReal_one_three,
      mdhReal_two_zero, mdhReal_two_one, mdhReal_two_two, mdhReal_two_three,
      mdhReal_three_zero, mdhReal_three_one, mdhReal_three_two, mdhReal_three_three,
      Real.cos_zero, Real.sin_zero, Matrix.one_apply_eq, Matrix.one_apply_ne, ne_eq,
      Fin.reduceEq, not_false_eq_true] <;>
    norm_num

theorem ik16Real_zero (M : Matrix (Fin 4) (Fin 4) ℝ) : ik16Real 0 0 M = M := by
  unfold ik16Real
  have h : rigidInv (mdhReal 0 0 0 0) = 1 := by
    have h1 := rigidInv_mul (isRigid_mdhReal 0 0 0 0)
    rw [mdhReal_zero_eq_one] at h1 ⊢
    rw [Matrix.mul_one] at h1
    exact h1
  rw [h, Matrix.one_mul]

theorem exampleLongWristRobot_m_d :
    exampleLongWristRobot.m_d = fun k => Flt.fin ((![0, 0, 0, 0, 2, 1, 1] : Fin 7 → ℝ) k) := by
  funext k
  fin_cases k <;> rfl

theorem exampleLongWristRobot_m_a :
    exampleLongWristRobot.m_a = fun k => Flt.fin ((![1, 1, 0, 0] : Fin 4 → ℝ) k) := by
  funext k
  fin_cases k <;> rfl

theorem exampleFarTarget_theta1 :
    ikTheta1 exampleLongWristRobot exampleFarTarget 0 = Flt.fin 0 := by
  have h5 : exampleLongWristRobot.m_d 5 = Flt.fin 1 := rfl
  have h6 : exampleLongWristRobot.m_d 6 = Flt.fin 1 := rfl
  have hx0 : ikP05 exampleLongWristRobot exampleFarTarget 0 = Flt.fin 0 := by
    unfold exampleFarTarget
    rw [ikP05_fin _ _ _ _ _ 1 1 h5 h6 0, Flt.fin_inj_iff]
    show Real.sin 0 * (-1 - 1) + 0 = 0
    rw [Real.sin_zero]
    ring
  have hx1 : ikP05 exampleLongWristRobot exampleFarTarget 1 = Flt.fin 2 := by
    unfold exampleFarTarget
    rw [ikP05_fin _ _ _ _ _ 1 1 h5 h6 1, Flt.fin_inj_iff]
    show -(Real.sin (-(Real.pi / 6)) * Real.cos 0) * (-1 - 1) + 3 = 2
    rw [Real.sin_neg, Real.sin_pi_div_six, Real.cos_zero]
    ring
  have hc : exampleLongWristRobot.m_d 1 + exampleLongWristRobot.m_d 2
      + exampleLongWristRobot.m_d 3 + exampleLongWristRobot.m_d 4 = Flt.fin 2 := by
    show Flt.fin (0 + 0 + 0 + 2) = Flt.fin 2
    rw [Flt.fin_inj_iff]
    ring
  have hsq : Real.sqrt (2 * 2 + 0 * 0) = 2 := by
    have : (2 * 2 + 0 * 0 : ℝ) = 2 ^ 2 := by ring
    rw [this, Real.sqrt_sq (by norm_num)]
  have harg : Complex.arg ⟨0, 2⟩ = Real.pi / 2 :=
    Complex.arg_eq_pi_div_two_iff.mpr ⟨rfl, by norm_num⟩
  have hnn : ¬ ((2 : ℝ) * 2 + 0 * 0 < 0) := by norm_num
  have hrow : ((0 : Fin m_numIkSol).val < 4) := by decide
  have h1 : (2 : ℝ) / 2 = 1 := by norm_num
  unfold ikTheta1 ikTheta1Psi ikTheta1Phi pow2
  rw [hx0, hx1, hc, if_pos hrow]
  simp only [Flt.mul_fin, Flt.add_fin, Flt.sqrt_fin, Flt.atan2_fin, harg, hsq]
  rw [if_neg hnn, Flt.div_fin_of_ne _ (by norm_num), Flt.acos_fin,
    if_pos (by rw [h1]; norm_num), h1, Real.arccos_one, pi_div_two_fin, Flt.pi_eq, Flt.lit_one]
  simp only [Flt.add_fin, Flt.mul_fin, Flt.sub_fin, Flt.fin_inj_iff]
  ring

theorem ik14Real_zero_col (d : Fin m_numTransZ → ℝ) (a : Fin m_numTransX → ℝ)
    (M16 : Matrix (Fin 4) (Fin 4) ℝ) (i : Fin 4) :
    ik14Real d a M16 0 0 i 3
      = M16 i 0 * (-(a 2 + a 3)) + M16 i 2 * (-(d 4 + d 5)) + M16 i 3 := by
  unfold ik14Real
  rw [Matrix.mul_apply, Fin.sum_univ_four, rigidInv_zero_three, rigidInv_one_three,
    rigidInv_two_three, rigidInv_three_three, t46Real_eq]
  simp only [Matrix.of_apply, Matrix.cons_val_zero, Matrix.cons_val_one, Matrix.head_cons,
    Matrix.cons_val_two, Matrix.tail_cons, Matrix.cons_val_three, Real.cos_zero, Real.sin_zero]
  ring

end UR
end universalRobots

namespace universalRobots
namespace UR
open mathLib

/-! ### The pitch of the decomposition -/

/-- C11: for every 3×3 matrix whose entry `R[0][2]` is a number in `[-1, 1]`, the
pitch written by the decomposition is a number in `[-π/2, π/2]`: it is `-π/2` when
the entry is `1`, `π/2` when it is `-1` (the two gimbal-lock cases) and
`-asin(R[0][2])` otherwise. -/
theorem C11_pitch_within_quarter_turn (pos : Fin 3 → Flt) (R : Mat3 Flt) (x : ℝ)
    (hx : R 0 2 = Flt.fin x) (hlo : -1 ≤ x) (hhi : x ≤ 1) :
    ∃ b : ℝ, (tipPose.ctor pos R).m_rpy 1 = Flt.fin b
      ∧ -(Real.pi / 2) ≤ b ∧ b ≤ Real.pi / 2
      ∧ b = (if x = 1 then -(Real.pi / 2) else if x = -1 then Real.pi / 2
              else -Real.arcsin x) := by
  have h2 : (2 : ℝ) ≠ 0 := by norm_num
  have hpi : 0 < Real.pi := Real.pi_pos
  by_cases h1 : x = 1
  · refine ⟨-(Real.pi / 2), ?_, le_rfl, by linarith, by rw [if_pos h1]⟩
    have hne : ¬ ((1 : ℝ) = -1) := by norm_num
    unfold tipPose.ctor
    simp only [hx, h1, Flt.lit_one, Flt.lit_two, Flt.neg_fin, Flt.eq_fin, hne,
      decide_False, decide_True, Bool.true_or, if_true, Flt.pi_eq, Flt.div_fin_of_ne _ h2]
    show Flt.fin (-Real.pi / 2) = Flt.fin (-(Real.pi / 2))
    rw [neg_div]
  · by_cases hm : x = -1
    · refine ⟨Real.pi / 2, ?_, by linarith, le_rfl, by rw [if_neg h1, if_pos hm]⟩
      have hne : ¬ ((-1 : ℝ) = 1) := by norm_num
      unfold tipPose.ctor
      simp only [hx, hm, Flt.lit_one, Flt.lit_two, Flt.neg_fin, Flt.eq_fin, hne,
        decide_False, decide_True, Bool.false_or, if_true, Flt.pi_eq, Flt.div_fin_of_ne _ h2]
      rfl
    · refine ⟨-Real.arcsin x, ?_, ?_, ?_, by rw [if_neg h1, if_neg hm]⟩
      · unfold tipPose.ctor
        simp only [hx, Flt.lit_one, Flt.neg_fin, Flt.eq_fin, h1, hm, decide_False,
          Bool.or_self, Flt.asin_fin, if_pos (And.intro hlo hhi)]
        rfl
      · have := Real.arcsin_le_pi_div_two x
        linarith
      · have := Real.neg_pi_div_two_le_arcsin x
        linarith

/-- C11, witness: the matrix with rows `(0, 0, 1/2)`, `(0, 1, 0)`, `(0, 0, 0)`. -/
theorem C11_pitch_within_quarter_turn_witness :
    ∃ b : ℝ, (tipPose.ctor (fun _ => Flt.fin 0)
        ![![Flt.fin 0, Flt.fin 0, Flt.fin (1 / 2)], ![Flt.fin 0, Flt.fin 1, Flt.fin 0],
          ![Flt.fin 0, Flt.fin 0, Flt.fin 0]]).m_rpy 1 = Flt.fin b
      ∧ -(Real.pi / 2) ≤ b ∧ b ≤ Real.pi / 2
      ∧ b = (if (1 / 2 : ℝ) = 1 then -(Real.pi / 2) else if (1 / 2 : ℝ) = -1 then Real.pi / 2
              else -Real.arcsin (1 / 2)) :=
  C11_pitch_within_quarter_turn (fun _ => Flt.fin 0)
    ![![Flt.fin 0, Flt.fin 0, Flt.fin (1 / 2)], ![Flt.fin 0, Flt.fin 1, Flt.fin 0],
      ![Flt.fin 0, Flt.fin 0, Flt.fin 0]] (1 / 2) rfl (by norm_num) (by norm_num)

/-! ### The zero configuration -/

theorem rotR_mdhReal (al a d th : ℝ) :
    rotR (mdhReal al a d th)
      = Matrix.of ![![Real.cos th, -Real.sin th, 0],
          ![Real.sin th * Real.cos al, Real.cos th * Real.cos al, -Real.sin al],
          ![Real.sin th * Real.sin al, Real.cos th * Real.sin al, Real.cos al]] := by
  ext i j
  fin_cases i <;> fin_cases j <;> rfl

theorem mdhReal_last_row (al a d th : ℝ) (j : Fin 3) : mdhReal al a d th 3 j.castSucc = 0 := by
  fin_cases j <;> rfl

theorem frameReal_succ (d : Fin m_numTransZ → ℝ) (a : Fin m_numTransX → ℝ)
    (t : Fin m_numDoF → ℝ) (n : Nat) (h : n + 1 < m_numReferenceFrames) :
    frameReal d a t (n + 1) = frameReal d a t n * linkReal d a t ⟨n + 1, h⟩ := by
  show frameReal d a t n * (if h' : n + 1 < m_numReferenceFrames then linkReal d a t ⟨n + 1, h'⟩
    else 1) = _
  rw [dif_pos h]

theorem rotR_frameReal_succ (d : Fin m_numTransZ → ℝ) (a : Fin m_numTransX → ℝ)
    (t : Fin m_numDoF → ℝ) (n : Nat) (h : n + 1 < m_numReferenceFrames) :
    rotR (frameReal d a t (n + 1)) = rotR (frameReal d a t n) * rotR (linkReal d a t ⟨n + 1, h⟩) := by
  rw [frameReal_succ d a t n h]
  exact rotR_mul _ _ (fun j => mdhReal_last_row _ _ _ _ j)

theorem rotR_link_zero_config (d : Fin m_numTransZ → ℝ) (a : Fin m_numTransX → ℝ) :
    rotR (linkReal d a (fun _ => 0) 0) = 1
    ∧ rotR (linkReal d a (fun _ => 0) 1) = zeroConfigRotation
    ∧ rotR (linkReal d a (fun _ => 0) 2) = 1
    ∧ rotR (linkReal d a (fun _ => 0) 3) = 1
    ∧ rotR (linkReal d a (fun _ => 0) 4) = Matrix.of ![![0, -1, 0], ![1, 0, 0], ![0, 0, 1]]
    ∧ rotR (linkReal d a (fun _ => 0) 5) = Matrix.of ![![1, 0, 0], ![0, 0, -1], ![0, 1, 0]]
    ∧ rotR (linkReal d a (fun _ => 0) 6) = zeroConfigRotation
    ∧ rotR (linkReal d a (fun _ => 0) 7) = 1
    ∧ rotR (linkReal d a (fun _ => 0) 8) = 1 := by
  have h0 : linkReal d a (fun _ => 0) 0 = mdhReal 0 0 (d 0) 0 := rfl
  have h1 : linkReal d a (fun _ => 0) 1
      = mdhReal (-(Real.pi / 2)) 0 (d 1) (0 + -(Real.pi / 2)) := rfl
  have h2 : linkReal d a (fun _ => 0) 2 = mdhReal 0 (a 0) (d 2) 0 := rfl
  have h3 : linkReal d a (fun _ => 0) 3 = mdhReal 0 (a 1) (d 3) 0 := rfl
  have h4 : linkReal d a (fun _ => 0) 4 = mdhReal 0 (a 2) (d 4) (Real.pi / 2) := rfl
  have h5 : linkReal d a (fun _ => 0) 5 = mdhReal (Real.pi / 2) 0 0 0 := rfl
  have h6 : linkReal d a (fun _ => 0) 6
      = mdhReal (-(Real.pi / 2)) 0 0 (-(Real.pi / 2)) := rfl
  have h7 : linkReal d a (fun _ => 0) 7 = mdhReal 0 (a 3) (d 5) 0 := rfl
  have h8 : linkReal d a (fun _ => 0) 8 = mdhReal 0 0 (d 6) 0 := rfl
  rw [h0, h1, h2, h3, h4, h5, h6, h7, h8]
  simp only [rotR_mdhReal, zero_add, Real.cos_neg, Real.sin_neg, Real.cos_pi_div_two,
    Real.sin_pi_div_two, Real.cos_zero, Real.sin_zero, zeroConfigRotation]
  refine ⟨?_, ?_, ?_, ?_, ?_, ?_, ?_, ?_, ?_⟩ <;>
    (ext i j; fin_cases i <;> fin_cases j <;> first | (simp; done) | (simp; rfl))

theorem rotR_frameReal_zero_config (d : Fin m_numTransZ → ℝ) (a : Fin m_numTransX → ℝ) :
    rotR (frameReal d a (fun _ => 0) 8) = zeroConfigRotation := by
  obtain ⟨l0, l1, l2, l3, l4, l5, l6, l7, l8⟩ := rotR_link_zero_config d a
  have f0 : rotR (frameReal d a (fun _ => 0) 0) = 1 := l0
  have f1 : rotR (frameReal d a (fun _ => 0) 1) = zeroConfigRotation := by
    rw [rotR_frameReal_succ d a _ 0 (by decide), f0, Matrix.one_mul]
    exact l1
  have f2 : rotR (frameReal d a (fun _ => 0) 2) = zeroConfigRotation := by
    rw [rotR_frameReal_succ d a _ 1 (by decide), f1]
    show zeroConfigRotation * rotR (linkReal d a (fun _ => 0) 2) = _
    rw [l2, Matrix.mul_one]
  have f3 : rotR (frameReal d a (fun _ => 0) 3) = zeroConfigRotation := by
    rw [rotR_frameReal_succ d a _ 2 (by decide), f2]
    show zeroConfigRotation * rotR (linkReal d a (fun _ => 0) 3) = _
    rw [l3, Matrix.mul_one]
  have f4 : rotR (frameReal d a (fun _ => 0) 4)
      = Matrix.of ![![1, 0, 0], ![0, 0, 1], ![0, -1, 0]] := by
    rw [rotR_frameReal_succ d a _ 3 (by decide), f3]
    show zeroConfigRotation * rotR (linkReal d a (fun _ => 0) 4) = _
    rw [l4]
    ext i j
    fin_cases i <;> fin_cases j <;>
      first
        | (simp [zeroConfigRotation, Matrix.mul_apply, Fin.sum_univ_three]; done)
        | (simp [zeroConfigRotation, Matrix.mul_apply, Fin.sum_univ_three]; rfl)
  have f5 : rotR (frameReal d a (fun _ => 0) 5) = 1 := by
    rw [rotR_frameReal_succ d a _ 4 (by decide), f4]
    show _ * rotR (linkReal d a (fun _ => 0) 5) = _
    rw [l5]
    ext i j
    fin_cases i <;> fin_cases j <;>
      first
        | (simp [Matrix.mul_apply, Fin.sum_univ_three]; done)
        | (simp [Matrix.mul_apply, Fin.sum_univ_three]; rfl)
  have f6 : rotR (frameReal d a (fun _ => 0) 6) = zeroConfigRotation := by
    rw [rotR_frameReal_succ d a _ 5 (by decide), f5, Matrix.one_mul]
    exact l6
  have f7 : rotR (frameReal d a (fun _ => 0) 7) = zeroConfigRotation := by
    rw [rotR_frameReal_succ d a _ 6 (by decide), f6]
    show zeroConfigRotation * rotR (linkReal d a (fun _ => 0) 7) = _
    rw [l7, Matrix.mul_one]
  rw [rotR_frameReal_succ d a _ 7 (by decide), f7]
  show zeroConfigRotation * rotR (linkReal d a (fun _ => 0) 8) = _
  rw [l8, Matrix.mul_one]

theorem rotationBlock_ofReal (M : Matrix (Fin 4) (Fin 4) ℝ) :
    Mat4.rotationBlock (Mat4.ofReal M) = Mat3.ofReal (rotR M) := rfl

/-- The tip frame and the returned angles of `forwardKinematics` at the zero
configuration, for every robot whose link dimensions are numbers. -/
theorem fk_zero_config (self : UR Flt) (d : Fin m_numTransZ → ℝ) (a : Fin m_numTransX → ℝ)
    (hd : self.m_d = fun k => Flt.fin (d k)) (ha : self.m_a = fun k => Flt.fin (a k)) :
    Mat4.rotationBlock
        ((forwardKinematics self (fun _ => Flt.fin 0)).2.m_generalTransformationMatrices 8)
      = Mat3.ofReal zeroConfigRotation
    ∧ (forwardKinematics self (fun _ => Flt.fin 0)).1.m_rpy
      = ![Flt.fin (Real.pi / 2), Flt.fin 0, Flt.fin (Real.pi / 2)] := by
  have hG := fk_general_fin self d a (fun _ => 0) hd ha 8
  have hR : Mat4.rotationBlock
      ((forwardKinematics self (fun _ => Flt.fin 0)).2.m_generalTransformationMatrices 8)
      = Mat3.ofReal zeroConfigRotation := by
    rw [hG, rotationBlock_ofReal]
    show Mat3.ofReal (rotR (frameReal d a (fun _ => 0) 8)) = _
    rw [rotR_frameReal_zero_config]
  refine ⟨hR, ?_⟩
  have h02 : zeroConfigRotation 0 2 = 0 := rfl
  have h00 : zeroConfigRotation 0 0 = 0 := rfl
  have h01 : zeroConfigRotation 0 1 = 1 := rfl
  have h22 : zeroConfigRotation 2 2 = 0 := rfl
  have h12 : zeroConfigRotation 1 2 = 1 := rfl
  have harg : Complex.arg ⟨0, 1⟩ = Real.pi / 2 :=
    Complex.arg_eq_pi_div_two_iff.mpr ⟨rfl, by norm_num⟩
  rw [fk_returned_pose]
  unfold pose
  rw [hR, tipPose_ctor_general _ zeroConfigRotation (by rw [h02]; norm_num)
    (by rw [h02]; norm_num) (by rw [h02]; norm_num) (by rw [h02]; norm_num)]
  simp only [h02, h00, h01, h22, h12, Real.arcsin_zero, neg_zero, Real.cos_zero, div_one, harg]

/-- C12, as the code has it: for every robot whose link dimensions are numbers
(every variant, with or without end-effector), at joint values `(0,0,0,0,0,0)` the
rotation block of the last cumulative transform of `forwardKinematics` has rows
`(0, 1, 0)`, `(0, 0, 1)`, `(1, 0, 0)`, the product of the fixed quarter turns of the
MDH rows, and the returned roll-pitch-yaw angles are `(π/2, 0, π/2)`. -/
theorem C12_zero_config_tip_rotation (self : UR Flt) (d : Fin m_numTransZ → ℝ)
    (a : Fin m_numTransX → ℝ) (hd : self.m_d = fun k => Flt.fin (d k))
    (ha : self.m_a = fun k => Flt.fin (a k)) :
    Mat4.rotationBlock
        ((forwardKinematics self (fun _ => Flt.fin 0)).2.m_generalTransformationMatrices 8)
      = ![![Flt.fin 0, Flt.fin 1, Flt.fin 0], ![Flt.fin 0, Flt.fin 0, Flt.fin 1],
          ![Flt.fin 1, Flt.fin 0, Flt.fin 0]]
    ∧ (forwardKinematics self (fun _ => Flt.fin 0)).1.m_rpy
      = ![Flt.fin (Real.pi / 2), Flt.fin 0, Flt.fin (Real.pi / 2)] := by
  obtain ⟨hR, hrpy⟩ := fk_zero_config self d a hd ha
  refine ⟨?_, hrpy⟩
  rw [hR]
  funext i j
  fin_cases i <;> fin_cases j <;> rfl

/-- C12, witness: the medium variant without end-effector on the example
dimensions. -/
theorem C12_zero_config_tip_rotation_witness :
    Mat4.rotationBlock
        ((forwardKinematics (ctor exampleTables blank URtype.UR5 false (Flt.fin 0))
          (fun _ => Flt.fin 0)).2.m_generalTransformationMatrices 8)
      = ![![Flt.fin 0, Flt.fin 1, Flt.fin 0], ![Flt.fin 0, Flt.fin 0, Flt.fin 1],
          ![Flt.fin 1, Flt.fin 0, Flt.fin 0]]
    ∧ (forwardKinematics (ctor exampleTables blank URtype.UR5 false (Flt.fin 0))
        (fun _ => Flt.fin 0)).1.m_rpy
      = ![Flt.fin (Real.pi / 2), Flt.fin 0, Flt.fin (Real.pi / 2)] :=
  C12_zero_config_tip_rotation (ctor exampleTables blank URtype.UR5 false (Flt.fin 0))
    ![0.089159, 0.10915, 0, 0, 0, 0.0823, 0] ![0.425, 0.39225, 0.09465, 0]
    (by funext k; fin_cases k <;> rfl) (by funext k; fin_cases k <;> rfl)

/-- C12, counterexample: for the medium variant without end-effector on the example
dimensions, at joint values `(0,0,0,0,0,0)` the rotation block of the last
cumulative transform is not the identity and the returned roll is not `0`. -/
theorem C12_counterexample :
    ¬ (Mat4.rotationBlock
          ((forwardKinematics (ctor exampleTables blank URtype.UR5 false (Flt.fin 0))
            (fun _ => Flt.fin 0)).2.m_generalTransformationMatrices 8)
        = ![![Flt.fin 1, Flt.fin 0, Flt.fin 0], ![Flt.fin 0, Flt.fin 1, Flt.fin 0],
            ![Flt.fin 0, Flt.fin 0, Flt.fin 1]])
    ∧ ¬ ((forwardKinematics (ctor exampleTables blank URtype.UR5 false (Flt.fin 0))
          (fun _ => Flt.fin 0)).1.m_rpy = ![Flt.fin 0, Flt.fin 0, Flt.fin 0]) := by
  obtain ⟨hR, hrpy⟩ := fk_zero_config (ctor exampleTables blank URtype.UR5 false (Flt.fin 0))
    ![0.089159, 0.10915, 0, 0, 0, 0.0823, 0] ![0.425, 0.39225, 0.09465, 0]
    (by funext k; fin_cases k <;> rfl) (by funext k; fin_cases k <;> rfl)
  constructor
  · intro h
    rw [hR] at h
    have h00 := congrFun (congrFun h 0) 0
    have h00' : Flt.fin (0 : ℝ) = Flt.fin 1 := h00
    rw [Flt.fin_inj_iff] at h00'
    norm_num at h00'
  · intro h
    rw [hrpy] at h
    have h0 := congrFun h 0
    have h0' : Flt.fin (Real.pi / 2) = Flt.fin 0 := h0
    rw [Flt.fin_inj_iff] at h0'
    have := Real.pi_pos
    linarith

/-! ### The wrist-singularity convention -/

theorem ikTheta6_of_guard (T_16 : Mat4 Flt) (theta5 : Flt)
    (h : theta5 = Flt.fin 0 ∨ theta5 = Flt.fin (2 * Real.pi)) :
    ikTheta6 T_16 theta5 = Flt.fin 0 := by
  unfold ikTheta6
  rcases h with h | h
  · rw [h]
    simp only [Flt.lit_zero, Flt.eq_fin, decide_True, Bool.true_or, if_true]
  · rw [h]
    simp only [Flt.lit_zero, Flt.lit_two, Flt.pi_eq, Flt.mul_fin, Flt.eq_fin, decide_True,
      Bool.or_true, if_true]

theorem exampleFarTarget_T16 :
    ikT16 exampleLongWristRobot (ikT06 exampleLongWristRobot exampleFarTarget) (Flt.fin 0)
      = Mat4.ofReal (t06Real ![0, 3, 29 / 10 + 3 / 2 * Real.sqrt 3] (-(Real.pi / 6)) 0 0 1) := by
  have h6 : exampleLongWristRobot.m_d 6 = Flt.fin 1 := rfl
  have h0 : exampleLongWristRobot.m_d 0 = Flt.fin 0 := rfl
  unfold exampleFarTarget
  rw [ikT06_fin _ _ _ _ _ 1 h6, ikT16_fin _ 0 0 h0, ik16Real_zero]

theorem exampleFarTarget_theta1_low (i : Fin m_numIkSol) (hi : i.val < 4) :
    ikTheta1 exampleLongWristRobot exampleFarTarget i = Flt.fin 0 := by
  have h : ikTheta1 exampleLongWristRobot exampleFarTarget i
      = ikTheta1 exampleLongWristRobot exampleFarTarget 0 := by
    unfold ikTheta1
    rw [if_pos hi, if_pos (by decide)]
  rw [h, exampleFarTarget_theta1]

theorem exampleFarTarget_theta5 (i : Fin m_numIkSol) (hi : i.val = 0 ∨ i.val = 1) :
    inverseKinematics exampleLongWristRobot exampleFarTarget i 4 = Flt.fin 0 := by
  have hlt : i.val < 4 := by omega
  have hx5 : ikX5Real (![0, 0, 0, 0, 2, 1, 1] : Fin m_numTransZ → ℝ)
      (t06Real ![0, 3, 29 / 10 + 3 / 2 * Real.sqrt 3] (-(Real.pi / 6)) 0 0 1) = 1 := by
    show ((3 : ℝ) - (0 + 0 + 0 + 2)) / 1 = 1
    norm_num
  have hsel : i.val = 0 ∨ i.val = 1 ∨ i.val = 4 ∨ i.val = 5 := by omega
  show ikRow exampleLongWristRobot _ _ i 4 = _
  rw [ikRow_theta5, exampleFarTarget_theta1_low i hlt, exampleFarTarget_T16,
    ikTheta5_fin _ _ exampleLongWristRobot_m_d _ (by show (1 : ℝ) ≠ 0; norm_num)
      (by rw [hx5]; norm_num)]
  unfold ikTheta5Real
  rw [if_pos hsel, hx5, Real.arccos_one]

/-- C13: whenever the fifth angle solved for a row is exactly `0` or exactly `2π`,
`inverseKinematics` writes exactly `0` as the sixth angle of that row, a number;
the value does not depend on the matrix `T_16` whose inverse the other branch
divides by `sin θ5`, so it is `0` even where that matrix is not-a-number. -/
theorem C13_singular_wrist_sets_theta6_to_zero (self : UR Flt) (targetTipPose : tipPose Flt)
    (i : Fin m_numIkSol)
    (h : inverseKinematics self targetTipPose i 4 = Flt.fin 0
      ∨ inverseKinematics self targetTipPose i 4 = Flt.fin (2 * Real.pi)) :
    inverseKinematics self targetTipPose i 5 = Flt.fin 0
    ∧ FloatArith.isnan (inverseKinematics self targetTipPose i 5) = false
    ∧ ∀ T : Mat4 Flt, ikTheta6 T (inverseKinematics self targetTipPose i 4) = Flt.fin 0 := by
  have h4 : inverseKinematics self targetTipPose i 4
      = ikTheta5 self (ikT16 self (ikT06 self targetTipPose) (ikTheta1 self targetTipPose i)) i :=
    ikRow_theta5 self _ _ i
  have h5 : inverseKinematics self targetTipPose i 5
      = ikTheta6 (ikT16 self (ikT06 self targetTipPose) (ikTheta1 self targetTipPose i))
          (ikTheta5 self (ikT16 self (ikT06 self targetTipPose) (ikTheta1 self targetTipPose i))
            i) :=
    ikRow_theta6 self _ _ i
  have h6 : inverseKinematics self targetTipPose i 5 = Flt.fin 0 := by
    rw [h5, ← h4]
    exact ikTheta6_of_guard _ _ h
  refine ⟨h6, ?_, fun T => ikTheta6_of_guard T _ h⟩
  rw [h6]
  rfl

/-- C13, witness: row 0 for the far target of the long-wrist robot, whose fifth
angle is `acos 1 = 0`; the sixth angle is `0` also for a matrix of not-a-numbers. -/
theorem C13_singular_wrist_sets_theta6_to_zero_witness :
    inverseKinematics exampleLongWristRobot exampleFarTarget 0 5 = Flt.fin 0
    ∧ FloatArith.isnan (inverseKinematics exampleLongWristRobot exampleFarTarget 0 5) = false
    ∧ ikTheta6 (fun _ _ => Flt.nan)
        (inverseKinematics exampleLongWristRobot exampleFarTarget 0 4) = Flt.fin 0 :=
  ⟨(C13_singular_wrist_sets_theta6_to_zero exampleLongWristRobot exampleFarTarget 0
      (Or.inl (exampleFarTarget_theta5 0 (Or.inl rfl)))).1,
    (C13_singular_wrist_sets_theta6_to_zero exampleLongWristRobot exampleFarTarget 0
      (Or.inl (exampleFarTarget_theta5 0 (Or.inl rfl)))).2.1,
    (C13_singular_wrist_sets_theta6_to_zero exampleLongWristRobot exampleFarTarget 0
      (Or.inl (exampleFarTarget_theta5 0 (Or.inl rfl)))).2.2 (fun _ _ => Flt.nan)⟩

end UR
end universalRobots

namespace universalRobots
namespace UR
open mathLib

/-! ### What inverse kinematics writes -/

section
variable {F : Type} [FloatArith F]

theorem foldl_ikFirstLoopBody_robot (self : UR F) (targetTipPose : tipPose F)
    (l : List (Fin m_numIkSol)) (st : ikState F) :
    (l.foldl (ikFirstLoopBody self targetTipPose) st).robot = st.robot := by
  induction l generalizing st with
  | nil => rfl
  | cons a l ih =>
    rw [List.foldl_cons, ih]
    rfl

theorem foldl_ikFirstLoopBody_out (self : UR F) (targetTipPose : tipPose F)
    (l : List (Fin m_numIkSol)) (st : ikState F) (r : Fin m_numIkSol) :
    (l.foldl (ikFirstLoopBody self targetTipPose) st).outIkSols r
      = if r ∈ l then Function.update (st.outIkSols r) 0 (ikTheta1 self targetTipPose r)
        else st.outIkSols r := by
  induction l generalizing st with
  | nil => simp
  | cons a l ih =>
    rw [List.foldl_cons, ih]
    by_cases hra : r = a
    · subst hra
      have h1 : (ikFirstLoopBody self targetTipPose st r).outIkSols r
          = Function.update (st.outIkSols r) 0 (ikTheta1 self targetTipPose r) := by
        unfold ikFirstLoopBody
        simp only [Function.update_same]
      rw [h1, Function.update_idem, if_pos (List.mem_cons_self r l)]
      split_ifs <;> rfl
    · have h1 : (ikFirstLoopBody self targetTipPose st a).outIkSols r = st.outIkSols r := by
        unfold ikFirstLoopBody
        simp only [Function.update_noteq hra]
      rw [h1]
      simp only [List.mem_cons, hra, false_or]

theorem foldl_ikSecondLoopBody_robot (T_06 : Mat4 F) (l : List (Fin m_numIkSol))
    (st : ikState F) :
    (l.foldl (ikSecondLoopBody T_06) st).robot = st.robot := by
  induction l generalizing st with
  | nil => rfl
  | cons a l ih =>
    rw [List.foldl_cons, ih]
    rfl

theorem foldl_ikSecondLoopBody_out (T_06 : Mat4 F) (l : List (Fin m_numIkSol))
    (st : ikState F) (r : Fin m_numIkSol) :
    (l.foldl (ikSecondLoopBody T_06) st).outIkSols r
      = if r ∈ l then ikRow st.robot T_06 (st.outIkSols r 0) r else st.outIkSols r := by
  induction l generalizing st with
  | nil => simp
  | cons a l ih =>
    rw [List.foldl_cons, ih]
    have hrob : (ikSecondLoopBody T_06 st a).robot = st.robot := rfl
    by_cases hra : r = a
    · subst hra
      have h1 : (ikSecondLoopBody T_06 st r).outIkSols r
          = ikRow st.robot T_06 (st.outIkSols r 0) r := by
        unfold ikSecondLoopBody
        simp only [Function.update_same]
      rw [h1, hrob, ikRow_theta1, if_pos (List.mem_cons_self r l)]
      split_ifs <;> rfl
    · have h1 : (ikSecondLoopBody T_06 st a).outIkSols r = st.outIkSols r := by
        unfold ikSecondLoopBody
        simp only [Function.update_noteq hra]
      rw [h1, hrob]
      simp only [List.mem_cons, hra, false_or]

theorem inverseKinematicsRun_robot (self : UR F) (targetTipPose : tipPose F)
    (outIkSols : Fin m_numIkSol → Fin m_numDoF → F) :
    (inverseKinematicsRun self targetTipPose outIkSols).robot = self := by
  unfold inverseKinematicsRun
  simp only []
  rw [foldl_ikSecondLoopBody_robot, foldl_ikFirstLoopBody_robot]

theorem inverseKinematicsRun_out (self : UR F) (targetTipPose : tipPose F)
    (outIkSols : Fin m_numIkSol → Fin m_numDoF → F) :
    (inverseKinematicsRun self targetTipPose outIkSols).outIkSols
      = inverseKinematics self targetTipPose := by
  funext r
  unfold inverseKinematicsRun
  simp only []
  rw [foldl_ikSecondLoopBody_out, if_pos (List.mem_finRange r), foldl_ikFirstLoopBody_robot,
    foldl_ikFirstLoopBody_out, if_pos (List.mem_finRange r), Function.update_same]
  rfl

/-- C14: `inverseKinematics` leaves the robot object exactly as it was, so the joint
angles, the joint poses, the MDH table, the individual and the cumulative transforms
and the link tables are unchanged; it overwrites every entry of the caller's array
with a value that does not depend on what the array held; and
`checkPoseReachability` leaves the robot object as it was. -/
theorem C14_inverse_kinematics_writes_only_the_output (self : UR F) (targetTipPose : tipPose F)
    (outIkSols : Fin m_numIkSol → Fin m_numDoF → F) (ikSol : Nat → F) :
    (inverseKinematicsRun self targetTipPose outIkSols).robot = self
    ∧ (∀ k, ((inverseKinematicsRun self targetTipPose outIkSols).robot.m_jointState k).m_jointValue
          = (self.m_jointState k).m_jointValue
        ∧ ((inverseKinematicsRun self targetTipPose outIkSols).robot.m_jointState k).m_jointPose
          = (self.m_jointState k).m_jointPose)
    ∧ (inverseKinematicsRun self targetTipPose outIkSols).robot.m_MDHmatrix = self.m_MDHmatrix
    ∧ (inverseKinematicsRun self targetTipPose outIkSols).robot.m_individualTransformationMatrices
        = self.m_individualTransformationMatrices
    ∧ (inverseKinematicsRun self targetTipPose outIkSols).robot.m_generalTransformationMatrices
        = self.m_generalTransformationMatrices
    ∧ (inverseKinematicsRun self targetTipPose outIkSols).robot.m_d = self.m_d
    ∧ (inverseKinematicsRun self targetTipPose outIkSols).robot.m_a = self.m_a
    ∧ (inverseKinematicsRun self targetTipPose outIkSols).outIkSols
        = inverseKinematics self targetTipPose
    ∧ (checkPoseReachabilityRun self ikSol).2 = self
    ∧ (checkPoseReachabilityRun self ikSol).1 = checkPoseReachability self ikSol := by
  have h := inverseKinematicsRun_robot self targetTipPose outIkSols
  refine ⟨h, ?_, ?_, ?_, ?_, ?_, ?_, inverseKinematicsRun_out self targetTipPose outIkSols,
    rfl, rfl⟩
  · intro k
    rw [h]
    exact ⟨rfl, rfl⟩
  all_goals rw [h]

end

/-! ### The elbow angle -/

/-- The locals of a row of `inverseKinematics` on finite inputs, up to the elbow
angle `theta3_psi`. -/
theorem ikRow_parts_fin (self : UR Flt) (d : Fin m_numTransZ → ℝ) (a : Fin m_numTransX → ℝ)
    (hd : self.m_d = fun k => Flt.fin (d k)) (ha : self.m_a = fun k => Flt.fin (a k))
    (M06 : Matrix (Fin 4) (Fin 4) ℝ) (h06 : IsRigid M06) (t1 : ℝ) (i : Fin m_numIkSol)
    (M16 : Matrix (Fin 4) (Fin 4) ℝ) (hM16 : M16 = ik16Real (d 0) t1 M06)
    (t5 : ℝ) (ht5 : t5 = ikTheta5Real d M16 i) (t6 : ℝ) (ht6 : t6 = ikTheta6Real M16 t5)
    (M14 : Matrix (Fin 4) (Fin 4) ℝ) (hM14 : M14 = ik14Real d a M16 t5 t6)
    (P : ℝ) (hPdef : P = ikPReal M14)
    (h5 : d 5 ≠ 0) (hx5 : -1 ≤ ikX5Real d M16 ∧ ikX5Real d M16 ≤ 1)
    (hs5 : t5 = 0 ∨ t5 = 2 * Real.pi ∨ Real.sin t5 ≠ 0)
    (h01 : -2 * a 0 * a 1 ≠ 0) (hx3 : -1 ≤ ikArg3Real a P ∧ ikArg3Real a P ≤ 1) :
    ikRowTheta5 self (Mat4.ofReal M06) (Flt.fin t1) i = Flt.fin t5
    ∧ ikRowTheta6 self (Mat4.ofReal M06) (Flt.fin t1) i = Flt.fin t6
    ∧ ikRowT14 self (Mat4.ofReal M06) (Flt.fin t1) i = Mat4.ofReal M14
    ∧ ikRowPsi3 self (Mat4.ofReal M06) (Flt.fin t1) i
        = Flt.fin (Real.arccos (ikArg3Real a P)) := by
  have h0 : self.m_d 0 = Flt.fin (d 0) := by rw [hd]
  have h16 : IsRigid M16 := by
    rw [hM16]
    exact (isRigid_rigidInv (isRigid_mdhReal _ _ _ _)).mul h06
  have h46 := isRigid_t46Real d a t5 t6
  have e16 : ikT16 self (Mat4.ofReal M06) (Flt.fin t1) = Mat4.ofReal M16 := by
    rw [ikT16_fin self (d 0) t1 h0, hM16]
  have e5 : ikRowTheta5 self (Mat4.ofReal M06) (Flt.fin t1) i = Flt.fin t5 := by
    unfold ikRowTheta5
    rw [e16, ikTheta5_fin self d hd _ h5 hx5, ht5]
  have e6 : ikRowTheta6 self (Mat4.ofReal M06) (Flt.fin t1) i = Flt.fin t6 := by
    unfold ikRowTheta6
    rw [e5, e16, ikTheta6_fin _ h16 _ hs5, ht6]
  have e46 : ikRowT46 self (Mat4.ofReal M06) (Flt.fin t1) i = Mat4.ofReal (t46Real d a t5 t6) := by
    unfold ikRowT46
    rw [e5, e6, ikT46_fin self d a hd ha]
  have e14 : ikRowT14 self (Mat4.ofReal M06) (Flt.fin t1) i = Mat4.ofReal M14 := by
    unfold ikRowT14
    rw [e16, e46, Mat4.inverse_ofReal_rigid h46, Mat4.mul_ofReal, hM14]
    rfl
  refine ⟨e5, e6, e14, ?_⟩
  unfold ikRowPsi3
  rw [e14, ikP14xz_fin, ← hPdef, ikTheta3Psi_fin self a ha _ h01 hx3]

/-- Rows 0 and 1 for the far target of the long-wrist robot: all six angles are
numbers, the first, fifth and sixth are `0`, and the elbow angle `theta3_psi` is
`acos(-161/200)`. -/
theorem exampleFarTarget_rows (i : Fin m_numIkSol) (hi : i.val = 0 ∨ i.val = 1) :
    (∃ t2 t3 t4 : ℝ, inverseKinematics exampleLongWristRobot exampleFarTarget i
      = ![Flt.fin 0, Flt.fin t2, Flt.fin t3, Flt.fin t4, Flt.fin 0, Flt.fin 0])
    ∧ ikRowPsi3 exampleLongWristRobot (ikT06 exampleLongWristRobot exampleFarTarget)
        (ikTheta1 exampleLongWristRobot exampleFarTarget i) i
      = Flt.fin (Real.arccos (-(161 / 200))) := by
  have hlt : i.val < 4 := by omega
  have hsel : i.val = 0 ∨ i.val = 1 ∨ i.val = 4 ∨ i.val = 5 := by omega
  have h6 : exampleLongWristRobot.m_d 6 = Flt.fin 1 := rfl
  have hc6 : Real.cos (-(Real.pi / 6)) = Real.sqrt 3 / 2 := by
    rw [Real.cos_neg, Real.cos_pi_div_six]
  have hM16 : ik16Real ((![0, 0, 0, 0, 2, 1, 1] : Fin m_numTransZ → ℝ) 0) 0
      (t06Real ![0, 3, 29 / 10 + 3 / 2 * Real.sqrt 3] (-(Real.pi / 6)) 0 0 1)
      = t06Real ![0, 3, 29 / 10 + 3 / 2 * Real.sqrt 3] (-(Real.pi / 6)) 0 0 1 :=
    ik16Real_zero _
  have hx5 : ikX5Real (![0, 0, 0, 0, 2, 1, 1] : Fin m_numTransZ → ℝ)
      (t06Real ![0, 3, 29 / 10 + 3 / 2 * Real.sqrt 3] (-(Real.pi / 6)) 0 0 1) = 1 := by
    show ((3 : ℝ) - (0 + 0 + 0 + 2)) / 1 = 1
    norm_num
  have ht5 : ikTheta5Real (![0, 0, 0, 0, 2, 1, 1] : Fin m_numTransZ → ℝ)
      (t06Real ![0, 3, 29 / 10 + 3 / 2 * Real.sqrt 3] (-(Real.pi / 6)) 0 0 1) i = 0 := by
    unfold ikTheta5Real
    rw [if_pos hsel, hx5, Real.arccos_one]
  have ht6 : ikTheta6Real
      (t06Real ![0, 3, 29 / 10 + 3 / 2 * Real.sqrt 3] (-(Real.pi / 6)) 0 0 1) 0 = 0 := by
    have hg : (0 : ℝ) = 0 ∨ (0 : ℝ) = 2 * Real.pi := Or.inl rfl
    unfold ikTheta6Real
    rw [if_pos hg]
  have h03 : ik14Real (![0, 0, 0, 0, 2, 1, 1] : Fin m_numTransZ → ℝ)
      (![1, 1, 0, 0] : Fin m_numTransX → ℝ)
      (t06Real ![0, 3, 29 / 10 + 3 / 2 * Real.sqrt 3] (-(Real.pi / 6)) 0 0 1) 0 0 0 3 = 0 := by
    rw [ik14Real_zero_col]
    show Real.cos 0 * Real.cos 0 * (-((0 : ℝ) + 0)) + Real.sin 0 * (-((2 : ℝ) + 1)) + 0 = 0
    rw [Real.sin_zero]
    ring
  have h23 : ik14Real (![0, 0, 0, 0, 2, 1, 1] : Fin m_numTransZ → ℝ)
      (![1, 1, 0, 0] : Fin m_numTransX → ℝ)
      (t06Real ![0, 3, 29 / 10 + 3 / 2 * Real.sqrt 3] (-(Real.pi / 6)) 0 0 1) 0 0 2 3
        = 19 / 10 := by
    rw [ik14Real_zero_col]
    show (Real.sin (-(Real.pi / 6)) * Real.sin 0
          - Real.cos (-(Real.pi / 6)) * Real.sin 0 * Real.cos 0) * (-((0 : ℝ) + 0))
        + Real.cos (-(Real.pi / 6)) * Real.cos 0 * (-((2 : ℝ) + 1))
        + (29 / 10 + 3 / 2 * Real.sqrt 3 - 1) = 19 / 10
    rw [hc6, Real.cos_zero, Real.sin_zero]
    ring
  have hP : ikPReal (ik14Real (![0, 0, 0, 0, 2, 1, 1] : Fin m_numTransZ → ℝ)
      (![1, 1, 0, 0] : Fin m_numTransX → ℝ)
      (t06Real ![0, 3, 29 / 10 + 3 / 2 * Real.sqrt 3] (-(Real.pi / 6)) 0 0 1) 0 0)
        = 19 / 10 := by
    unfold ikPReal
    rw [h03, h23]
    have : (0 * 0 + 19 / 10 * (19 / 10) : ℝ) = (19 / 10) ^ 2 := by ring
    rw [this, Real.sqrt_sq (by norm_num)]
  have harg : ikArg3Real (![1, 1, 0, 0] : Fin m_numTransX → ℝ) (19 / 10) = -(161 / 200) := by
    show ((19 / 10 : ℝ) * (19 / 10) - 1 * 1 - 1 * 1) / (-2 * 1 * 1) = -(161 / 200)
    norm_num
  have hd5 : (![0, 0, 0, 0, 2, 1, 1] : Fin m_numTransZ → ℝ) 5 ≠ 0 := by
    show (1 : ℝ) ≠ 0
    norm_num
  have ha01 : -2 * (![1, 1, 0, 0] : Fin m_numTransX → ℝ) 0
      * (![1, 1, 0, 0] : Fin m_numTransX → ℝ) 1 ≠ 0 := by
    show (-2 * 1 * 1 : ℝ) ≠ 0
    norm_num
  have hrigid := isRigid_t06Real ![0, 3, 29 / 10 + 3 / 2 * Real.sqrt 3] (-(Real.pi / 6)) 0 0 1
  have e1 := exampleFarTarget_theta1_low i hlt
  have e06 : ikT06 exampleLongWristRobot exampleFarTarget
      = Mat4.ofReal (t06Real ![0, 3, 29 / 10 + 3 / 2 * Real.sqrt 3] (-(Real.pi / 6)) 0 0 1) := by
    unfold exampleFarTarget
    rw [ikT06_fin _ _ _ _ _ 1 h6]
  constructor
  · obtain ⟨t2, t3, t4, hrow⟩ := ikRow_fin exampleLongWristRobot
      (![0, 0, 0, 0, 2, 1, 1] : Fin m_numTransZ → ℝ) (![1, 1, 0, 0] : Fin m_numTransX → ℝ)
      exampleLongWristRobot_m_d exampleLongWristRobot_m_a _ hrigid 0 i _ hM16.symm
      0 ht5.symm 0 ht6.symm _ rfl (19 / 10) hP.symm hd5 (by rw [hx5]; norm_num) (Or.inl rfl)
      ha01 (by rw [harg]; norm_num)
      (by show |(1 : ℝ)| ≤ 19 / 10; rw [abs_one]; norm_num) (by norm_num)
    refine ⟨t2, t3, t4, ?_⟩
    unfold inverseKinematics
    rw [e1, e06]
    exact hrow
  · obtain ⟨-, -, -, hpsi⟩ := ikRow_parts_fin exampleLongWristRobot
      (![0, 0, 0, 0, 2, 1, 1] : Fin m_numTransZ → ℝ) (![1, 1, 0, 0] : Fin m_numTransX → ℝ)
      exampleLongWristRobot_m_d exampleLongWristRobot_m_a _ hrigid 0 i _ hM16.symm
      0 ht5.symm 0 ht6.symm _ rfl (19 / 10) hP.symm hd5 (by rw [hx5]; norm_num) (Or.inl rfl)
      ha01 (by rw [harg]; norm_num)
    rw [e1, e06, hpsi, harg]

theorem inverseKinematics_theta3 {F : Type} [FloatArith F] (self : UR F)
    (targetTipPose : tipPose F) (i : Fin m_numIkSol) :
    inverseKinematics self targetTipPose i 2
      = ikRowTheta3 self (ikT06 self targetTipPose) (ikTheta1 self targetTipPose i) i := by
  show ikRow self _ _ i 2 = _
  rw [ikRow_eq]
  rfl

theorem ikRowPsi3_range (self : UR Flt) (T_06 : Mat4 Flt) (theta1 : Flt) (i : Fin m_numIkSol)
    (psi : ℝ) (h : ikRowPsi3 self T_06 theta1 i = Flt.fin psi) : 0 ≤ psi ∧ psi ≤ Real.pi := by
  unfold ikRowPsi3 ikTheta3Psi at h
  rcases acos_range ((pow2 (ikP14xz (ikRowT14 self T_06 theta1 i)) - pow2 (self.m_a 1)
      - pow2 (self.m_a 0)) / (-2 * self.m_a 0 * self.m_a 1)) with hn | ⟨v, hv, h0, h1⟩
  · rw [hn] at h
    exact absurd h (Flt.nan_ne_fin psi)
  · rw [hv] at h
    have : v = psi := Flt.fin_injective h
    subst this
    exact ⟨h0, h1⟩

/-- The third angle of a row whose elbow angle `theta3_psi` is the number `psi`. -/
theorem ikRowTheta3_of_psi (self : UR Flt) (T_06 : Mat4 Flt) (theta1 : Flt)
    (i : Fin m_numIkSol) (psi : ℝ) (h : ikRowPsi3 self T_06 theta1 i = Flt.fin psi) :
    ikRowTheta3 self T_06 theta1 i
      = Flt.fin (if i.val % 2 = 1 then Real.pi - psi
          else if psi = 0 then Real.pi else Real.pi + psi - 2 * Real.pi) := by
  obtain ⟨h0, h1⟩ := ikRowPsi3_range self T_06 theta1 i psi h
  have hpi := Real.pi_pos
  unfold ikRowTheta3
  rw [h, Flt.pi_eq, Flt.sub_fin, Flt.add_fin, ikMask_fin, ikMask_fin]
  by_cases hodd : i.val % 2 = 1
  · have hc : (i.val + 1) % 2 = 0 := by omega
    rw [if_pos hc, if_pos hodd, if_neg (by linarith)]
  · have hc : ¬ (i.val + 1) % 2 = 0 := by omega
    rw [if_neg hc, if_neg hodd]
    by_cases hz : psi = 0
    · rw [if_pos hz, hz, add_zero, if_neg (lt_irrefl _)]
    · have hpos : 0 < psi := lt_of_le_of_ne h0 (Ne.symm hz)
      rw [if_neg hz, if_pos (by linarith)]
      congr 1
      ring

/-- C15, as the code has it: for every row whose elbow angle `theta3_psi` is a number
`ψ₃` (then `0 ≤ ψ₃ ≤ π`), the third angle written to the row is a number in
`(-π, π]`; it is `π - ψ₃` for the odd-indexed rows 1, 3, 5, 7 (those with
`(i + 1) % 2 == 0`), and for the even-indexed rows 0, 2, 4, 6 it is `π + ψ₃`
lowered by `2π` when it exceeds `π`, that is `ψ₃ - π` for `ψ₃ > 0` and `π` for
`ψ₃ = 0`. -/
theorem C15_theta3_wrapped_by_row_parity (self : UR Flt) (targetTipPose : tipPose Flt)
    (i : Fin m_numIkSol) (psi : ℝ)
    (h : ikRowPsi3 self (ikT06 self targetTipPose) (ikTheta1 self targetTipPose i) i
      = Flt.fin psi) :
    0 ≤ psi ∧ psi ≤ Real.pi
    ∧ ∃ t3 : ℝ, inverseKinematics self targetTipPose i 2 = Flt.fin t3
        ∧ -Real.pi < t3 ∧ t3 ≤ Real.pi
        ∧ t3 = (if i.val % 2 = 1 then Real.pi - psi
            else if psi = 0 then Real.pi else Real.pi + psi - 2 * Real.pi) := by
  obtain ⟨h0, h1⟩ := ikRowPsi3_range _ _ _ i psi h
  have hpi := Real.pi_pos
  refine ⟨h0, h1, _, ?_, ?_, ?_, rfl⟩
  · rw [inverseKinematics_theta3, ikRowTheta3_of_psi _ _ _ i psi h]
  · split_ifs with ha hb
    · linarith
    · linarith
    · have hpos : 0 < psi := lt_of_le_of_ne h0 (Ne.symm hb)
      linarith
  · split_ifs with ha hb
    · linarith
    · exact le_rfl
    · linarith

/-- C15, witness: row 1 for the far target of the long-wrist robot, with
`ψ₃ = acos(-161/200)`. -/
theorem C15_theta3_wrapped_by_row_parity_witness :
    0 ≤ Real.arccos (-(161 / 200)) ∧ Real.arccos (-(161 / 200)) ≤ Real.pi
    ∧ ∃ t3 : ℝ, inverseKinematics exampleLongWristRobot exampleFarTarget 1 2 = Flt.fin t3
        ∧ -Real.pi < t3 ∧ t3 ≤ Real.pi
        ∧ t3 = (if (1 : Fin m_numIkSol).val % 2 = 1 then Real.pi - Real.arccos (-(161 / 200))
            else if Real.arccos (-(161 / 200)) = 0 then Real.pi
            else Real.pi + Real.arccos (-(161 / 200)) - 2 * Real.pi) :=
  C15_theta3_wrapped_by_row_parity exampleLongWristRobot exampleFarTarget 1
    (Real.arccos (-(161 / 200))) (exampleFarTarget_rows 1 (Or.inr rfl)).2

/-- C15, counterexample: row 0, an even-indexed row, for the far target of the
long-wrist robot.  Its elbow angle `ψ₃ = acos(-161/200)` is defined and `π - ψ₃`
lies in `(-π, π]`, yet the third angle written is `ψ₃ - π`, not `π - ψ₃`. -/
theorem C15_counterexample :
    ikRowPsi3 exampleLongWristRobot (ikT06 exampleLongWristRobot exampleFarTarget)
        (ikTheta1 exampleLongWristRobot exampleFarTarget 0) 0
      = Flt.fin (Real.arccos (-(161 / 200)))
    ∧ (0 : Fin m_numIkSol).val % 2 = 0
    ∧ -Real.pi < Real.pi - Real.arccos (-(161 / 200))
    ∧ Real.pi - Real.arccos (-(161 / 200)) ≤ Real.pi
    ∧ inverseKinematics exampleLongWristRobot exampleFarTarget 0 2
      = Flt.fin (Real.arccos (-(161 / 200)) - Real.pi)
    ∧ inverseKinematics exampleLongWristRobot exampleFarTarget 0 2
      ≠ Flt.fin (Real.pi - Real.arccos (-(161 / 200))) := by
  have hpsi := (exampleFarTarget_rows 0 (Or.inl rfl)).2
  have hpi := Real.pi_pos
  have h0 := Real.arccos_nonneg (-(161 / 200))
  have h1 := Real.arccos_le_pi (-(161 / 200))
  have hlt : Real.arccos (-(161 / 200)) < Real.pi := by
    rcases lt_or_eq_of_le h1 with hl | he
    · exact hl
    · exfalso
      have hc := Real.cos_arccos (x := -(161 / 200)) (by norm_num) (by norm_num)
      rw [he, Real.cos_pi] at hc
      norm_num at hc
  have hgt : 0 < Real.arccos (-(161 / 200)) := by
    rcases lt_or_eq_of_le h0 with hl | he
    · exact hl
    · exfalso
      have hc := Real.cos_arccos (x := -(161 / 200)) (by norm_num) (by norm_num)
      rw [← he, Real.cos_zero] at hc
      norm_num at hc
  have h3 : inverseKinematics exampleLongWristRobot exampleFarTarget 0 2
      = Flt.fin (Real.arccos (-(161 / 200)) - Real.pi) := by
    rw [inverseKinematics_theta3, ikRowTheta3_of_psi _ _ _ 0 _ hpsi,
      if_neg (by decide), if_neg (ne_of_gt hgt), Flt.fin_inj_iff]
    ring
  refine ⟨hpsi, rfl, by linarith, by linarith, h3, ?_⟩
  rw [h3]
  intro h
  rw [Flt.fin_inj_iff] at h
  linarith

/-! ### The chain of cumulative transforms -/

section
variable {F : Type} [FloatArith F]

theorem fkLoopBody_MDHmatrix (st : fkLoopState F) (i : Fin m_numReferenceFrames) :
    (fkLoopBody st i).robot.m_MDHmatrix = st.robot.m_MDHmatrix := by
  unfold fkLoopBody
  simp only []
  split_ifs <;> rfl

theorem fkLoopUpTo_MDHmatrix (self : UR F) (q : Fin m_numDoF → F) (n : Nat)
    (hn : n ≤ m_numReferenceFrames) :
    (fkLoopUpTo self q n).robot.m_MDHmatrix = (fkInit self q).robot.m_MDHmatrix := by
  induction n with
  | zero => rfl
  | succ m ih =>
    rw [fkLoopUpTo_succ self q m (by omega), fkLoopBody_MDHmatrix, ih (by omega)]

theorem fkLoopUpTo_jointsBefore (self : UR F) (q : Fin m_numDoF → F) (n : Nat)
    (hn : n ≤ m_numReferenceFrames) :
    (fkLoopUpTo self q n).currentJoint = jointsBefore n := by
  induction n with
  | zero => rfl
  | succ m ih =>
    have hm : m < 9 := hn
    rw [fkLoopUpTo_succ self q m hm, fkLoopBody_currentJoint, ih (by omega)]
    interval_cases m <;> simp [jointsBefore]

theorem jointFrame_eq_iff (k : Fin m_numDoF) (n : Nat) (hn : n < m_numReferenceFrames) :
    ((n = 0 ∨ n = 1 ∨ n = 2 ∨ n = 3 ∨ n = 5 ∨ n = 7) ∧ k.val = jointsBefore n)
      ↔ (jointFrame k).val = n := by
  have hn9 : n < 9 := hn
  interval_cases n <;> fin_cases k <;> decide

/-- The joint states while the second loop of `forwardKinematics` runs: after `n`
iterations, joint `k` holds the pose of its frame if that frame is below `n`, and
is as the loop found it otherwise. -/
theorem fkLoopUpTo_jointState (self : UR F) (q : Fin m_numDoF → F) (k : Fin m_numDoF) (n : Nat)
    (hn : n ≤ m_numReferenceFrames) :
    (fkLoopUpTo self q n).robot.m_jointState k
      = if (jointFrame k).val < n then
          { (fkInit self q).robot.m_jointState k with
            m_jointPose :=
              pose (Mat4.translation
                  (fkCumulative (fkLoopUpTo self q (jointFrame k).val).robot (jointFrame k)))
                (Mat4.rotationBlock
                  (fkCumulative (fkLoopUpTo self q (jointFrame k).val).robot (jointFrame k))) }
        else (fkInit self q).robot.m_jointState k := by
  induction n with
  | zero =>
    rw [if_neg (Nat.not_lt_zero _)]
    rfl
  | succ m ih =>
    have hm : m < m_numReferenceFrames := hn
    rw [fkLoopUpTo_succ self q m hm, fkLoopBody_jointState, fkLoopUpTo_jointsBefore self q m
      (by omega), ih (by omega)]
    have hiff := jointFrame_eq_iff k m hm
    by_cases hjf : (jointFrame k).val = m
    · have hfin : jointFrame k = ⟨m, hm⟩ := Fin.ext hjf
      rw [if_pos (hiff.mpr hjf), if_neg (by omega), if_pos (by omega), hjf, hfin]
    · rw [if_neg (fun h => hjf (hiff.mp h))]
      by_cases hlt : (jointFrame k).val < m
      · rw [if_pos hlt, if_pos (by omega)]
      · rw [if_neg hlt, if_neg (by omega)]

theorem fk_general_eq_cumulative (self : UR F) (q : Fin m_numDoF → F)
    (i : Fin m_numReferenceFrames) :
    (forwardKinematics self q).2.m_generalTransformationMatrices i
      = fkCumulative (fkLoopUpTo self q i.val).robot i := by
  have hi : i.val < 9 := i.isLt
  show (fkLoop self q).robot.m_generalTransformationMatrices i = _
  rw [fkLoop_eq_upTo, fkLoopUpTo_general_stable self q i 9 (by omega) (by decide)]
  exact fkLoopUpTo_general_new self q i.val i.isLt

theorem fk_individual (self : UR F) (q : Fin m_numDoF → F) (i : Fin m_numReferenceFrames) :
    (forwardKinematics self q).2.m_individualTransformationMatrices i
      = calcTransformationMatrix
          (mdhRows self.m_d self.m_a (setTheta self q).m_jointState i) := by
  show (fkLoop self q).robot.m_individualTransformationMatrices i = _
  rw [fkLoop_eq_upTo, fkLoopUpTo_individual self q 9 (by decide)]
  rfl

theorem fk_general_step (self : UR F) (q : Fin m_numDoF → F) (i : Fin m_numReferenceFrames)
    (h : 0 < i.val) :
    (forwardKinematics self q).2.m_generalTransformationMatrices i
      = Mat4.mul
          ((forwardKinematics self q).2.m_generalTransformationMatrices ⟨i.val - 1, by omega⟩)
          ((forwardKinematics self q).2.m_individualTransformationMatrices i) := by
  have hi : i.val < 9 := i.isLt
  rw [fk_general_eq_cumulative]
  unfold fkCumulative
  rw [if_neg (by omega)]
  show _ = Mat4.mul ((fkLoop self q).robot.m_generalTransformationMatrices ⟨i.val - 1, by omega⟩)
    ((fkLoop self q).robot.m_individualTransformationMatrices i)
  rw [fkLoop_eq_upTo, fkLoopUpTo_individual self q 9 (by decide),
    fkLoopUpTo_individual self q i.val (by omega),
    fkLoopUpTo_general_stable self q ⟨i.val - 1, by omega⟩ 9 (by simp) (by decide)]
  have hsucc : i.val - 1 + 1 = i.val := by omega
  simp only [hsucc]

theorem fk_general_zero (self : UR F) (q : Fin m_numDoF → F) :
    (forwardKinematics self q).2.m_generalTransformationMatrices 0
      = (forwardKinematics self q).2.m_individualTransformationMatrices 0 := by
  have h0 : (0 : Fin m_numReferenceFrames).val = 0 := rfl
  rw [fk_general_eq_cumulative]
  unfold fkCumulative
  rw [if_pos h0]
  show _ = (fkLoop self q).robot.m_individualTransformationMatrices 0
  rw [fkLoop_eq_upTo, fkLoopUpTo_individual self q 9 (by decide)]
  rfl

theorem fk_jointState (self : UR F) (q : Fin m_numDoF → F) (k : Fin m_numDoF) :
    (forwardKinematics self q).2.m_jointState k
      = ⟨q k, pose
          (Mat4.translation
            ((forwardKinematics self q).2.m_generalTransformationMatrices (jointFrame k)))
          (Mat4.rotationBlock
            ((forwardKinematics self q).2.m_generalTransformationMatrices (jointFrame k)))⟩ := by
  have hjf : (jointFrame k).val < 9 := (jointFrame k).isLt
  rw [fk_general_eq_cumulative]
  show (fkLoop self q).robot.m_jointState k = _
  rw [fkLoop_eq_upTo, fkLoopUpTo_jointState self q k 9 (by decide), if_pos hjf]
  rfl

/-- C16: after `forwardKinematics(θ)` the nine individual transforms are those of the
MDH rows rebuilt from `θ`; cumulative transform 0 is individual transform 0 and
cumulative transform `i` is cumulative transform `i - 1` times individual transform
`i` for `i = 1..8`; the joints 1 to 6 hold the angle given and the pose extracted from
the cumulative frames 0, 1, 2, 3, 5, 7; the returned tip pose is extracted from frame
8; no joint is assigned the frames 4, 6 or 8. -/
theorem C16_forward_chain_composition (self : UR F) (q : Fin m_numDoF → F) :
    (∀ i, (forwardKinematics self q).2.m_individualTransformationMatrices i
        = calcTransformationMatrix
            (mdhRows self.m_d self.m_a (setTheta self q).m_jointState i))
    ∧ (forwardKinematics self q).2.m_generalTransformationMatrices 0
        = (forwardKinematics self q).2.m_individualTransformationMatrices 0
    ∧ (∀ j : Fin 8,
        (forwardKinematics self q).2.m_generalTransformationMatrices j.succ
          = Mat4.mul ((forwardKinematics self q).2.m_generalTransformationMatrices j.castSucc)
              ((forwardKinematics self q).2.m_individualTransformationMatrices j.succ))
    ∧ (∀ k, (forwardKinematics self q).2.m_jointState k
        = ⟨q k, pose
            (Mat4.translation
              ((forwardKinematics self q).2.m_generalTransformationMatrices (jointFrame k)))
            (Mat4.rotationBlock
              ((forwardKinematics self q).2.m_generalTransformationMatrices (jointFrame k)))⟩)
    ∧ (forwardKinematics self q).1
        = pose (Mat4.translation ((forwardKinematics self q).2.m_generalTransformationMatrices 8))
            (Mat4.rotationBlock ((forwardKinematics self q).2.m_generalTransformationMatrices 8))
    ∧ (∀ k, jointFrame k ≠ 4 ∧ jointFrame k ≠ 6 ∧ jointFrame k ≠ 8)
    ∧ (∀ k, (jointFrame k).val = ((![0, 1, 2, 3, 5, 7] : Fin m_numDoF → Nat) k)) :=
  ⟨fk_individual self q, fk_general_zero self q,
    fun j => fk_general_step self q j.succ (Nat.succ_pos _), fk_jointState self q,
    fk_returned_pose self q, by decide, by decide⟩

end

end UR
end universalRobots

namespace universalRobots
namespace UR
open mathLib

/-! ### The frame 0→6 transform of the inverse engine -/

theorem t06Real_apply (p : Fin 3 → ℝ) (al be ga d6 : ℝ) (i j : Fin 4) :
    t06Real p al be ga d6 i j
      = if i = 2 ∧ j = 3 then t07Real p al be ga 2 3 - d6 else t07Real p al be ga i j := by
  unfold t06Real
  by_cases hi : i = 2
  · subst hi
    rw [Function.update_same]
    by_cases hj : j = 3
    · subst hj
      rw [Function.update_same, if_pos ⟨rfl, rfl⟩]
    · rw [Function.update_noteq hj, if_neg (fun h => hj h.2)]
  · rw [Function.update_noteq hi, if_neg (fun h => hi h.1)]

/-- The product of the local `T_06` with the last MDH transform, over the reals:
the last column is the target position plus `d6` times the difference of the tool
z-axis and the base z-axis. -/
theorem t06Real_mul_last_link (p : Fin 3 → ℝ) (al be ga d6 : ℝ) (i j : Fin 4) :
    (t06Real p al be ga d6 * mdhReal 0 0 d6 0) i j
      = if j = 3 then
          t07Real p al be ga i 3 + d6 * (t07Real p al be ga i 2 - (if i = 2 then 1 else 0))
        else t07Real p al be ga i j := by
  rw [Matrix.mul_apply, Fin.sum_univ_four]
  simp only [t06Real_apply]
  fin_cases i <;> fin_cases j <;>
    simp only [Fin.mk_zero, Fin.mk_one, Fin.reduceFinMk, Fin.zero_eta, Fin.isValue,
      mdhReal_zero_zero, mdhReal_zero_one, mdhReal_zero_two, mdhReal_zero_three,
      mdhReal_one_zero, mdhReal_one_one, mdhReal_one_two, mdhReal_one_three,
      mdhReal_two_zero, mdhReal_two_one, mdhReal_two_two, mdhReal_two_three,
      mdhReal_three_zero, mdhReal_three_one, mdhReal_three_two, mdhReal_three_three,
      Real.cos_zero, Real.sin_zero, Fin.reduceEq, and_false, false_and, and_self, if_false,
      if_true] <;>
    ring

theorem ikT06_mul_last_link (self : UR Flt) (p : Fin 3 → ℝ) (al be ga d6 : ℝ)
    (h6 : self.m_d 6 = Flt.fin d6) :
    Mat4.mul (ikT06 self (finPose p al be ga)) (calcTransformationMatrix ![0, 0, self.m_d 6, 0])
      = Mat4.ofReal (t06Real p al be ga d6 * mdhReal 0 0 d6 0) := by
  rw [ikT06_fin self p al be ga d6 h6, h6, Flt.lit_zero, calcTransformationMatrix_fin,
    Mat4.mul_ofReal]

/-- When the local `T_06` times the last MDH transform gives back `T_07`, on finite
inputs. -/
theorem ikT06_mul_last_link_eq_iff (self : UR Flt) (p : Fin 3 → ℝ) (al be ga d6 : ℝ)
    (h6 : self.m_d 6 = Flt.fin d6) :
    Mat4.mul (ikT06 self (finPose p al be ga)) (calcTransformationMatrix ![0, 0, self.m_d 6, 0])
        = ikT07 (finPose p al be ga)
      ↔ d6 = 0 ∨ (Real.sin be = 0 ∧ Real.sin al * Real.cos be = 0
          ∧ Real.cos al * Real.cos be = 1) := by
  have e02 : t07Real p al be ga 0 2 = Real.sin be := rfl
  have e12 : t07Real p al be ga 1 2 = -(Real.sin al * Real.cos be) := rfl
  have e22 : t07Real p al be ga 2 2 = Real.cos al * Real.cos be := rfl
  rw [ikT06_mul_last_link self p al be ga d6 h6, ikT07_fin]
  constructor
  · intro h
    have hM := Mat4.ofReal_injective h
    have h0 := congrFun (congrFun hM 0) 3
    have h1 := congrFun (congrFun hM 1) 3
    have h2 := congrFun (congrFun hM 2) 3
    rw [t06Real_mul_last_link, if_pos rfl, if_neg (by decide), e02] at h0
    rw [t06Real_mul_last_link, if_pos rfl, if_neg (by decide), e12] at h1
    rw [t06Real_mul_last_link, if_pos rfl, if_pos rfl, e22] at h2
    by_cases hd : d6 = 0
    · exact Or.inl hd
    · right
      have k0 : d6 * (Real.sin be - 0) = 0 := by linarith
      have k1 : d6 * (-(Real.sin al * Real.cos be) - 0) = 0 := by linarith
      have k2 : d6 * (Real.cos al * Real.cos be - 1) = 0 := by linarith
      rcases mul_eq_zero.mp k0 with h | h
      · exact absurd h hd
      rcases mul_eq_zero.mp k1 with h' | h'
      · exact absurd h' hd
      rcases mul_eq_zero.mp k2 with h'' | h''
      · exact absurd h'' hd
      exact ⟨by linarith, by linarith, by linarith⟩
  · intro h
    suffices hM : t06Real p al be ga d6 * mdhReal 0 0 d6 0 = t07Real p al be ga by rw [hM]
    ext i j
    rw [t06Real_mul_last_link]
    by_cases hj : j = 3
    · rw [if_pos hj, hj]
      rcases h with hd | ⟨hs, hsc, hcc⟩
      · rw [hd, zero_mul, add_zero]
      · fin_cases i
        · show t07Real p al be ga 0 3 + d6 * (t07Real p al be ga 0 2 - 0)
            = t07Real p al be ga 0 3
          rw [e02, hs]
          ring
        · show t07Real p al be ga 1 3 + d6 * (t07Real p al be ga 1 2 - 0)
            = t07Real p al be ga 1 3
          rw [e12, hsc]
          ring
        · show t07Real p al be ga 2 3 + d6 * (t07Real p al be ga 2 2 - 1)
            = t07Real p al be ga 2 3
          rw [e22, hcc]
          ring
        · show t07Real p al be ga 3 3 + d6 * (t07Real p al be ga 3 2 - 0)
            = t07Real p al be ga 3 3
          have e32 : t07Real p al be ga 3 2 = 0 := rfl
          rw [e32]
          ring
    · rw [if_neg hj]

/-- C17, the code on finite inputs: the transform `T_06` that `inverseKinematics`
derives from `T_07` satisfies `T_06 · T_67 = T_07`, with `T_67` the transform of the
last MDH row `(0, 0, d[6], 0)`, exactly when `d[6] = 0` or the third column of the
target rotation is `(0, 0, 1)`, the tool z-axis being the base z-axis.  For every
other target and end-effector length the two sides differ. -/
theorem C17_T06_times_T67_is_T07_iff (self : UR Flt) (p : Fin 3 → ℝ) (al be ga d6 : ℝ)
    (h6 : self.m_d 6 = Flt.fin d6) :
    Mat4.mul (ikT06 self (finPose p al be ga)) (calcTransformationMatrix ![0, 0, self.m_d 6, 0])
        = ikT07 (finPose p al be ga)
      ↔ d6 = 0 ∨ (Real.sin be = 0 ∧ Real.sin al * Real.cos be = 0
          ∧ Real.cos al * Real.cos be = 1) :=
  ikT06_mul_last_link_eq_iff self p al be ga d6 h6

/-- C17, witness: the long-wrist robot with an end-effector of length 1 and the far
target, rolled by `-π/6`: `T_06 · T_67` is not `T_07`. -/
theorem C17_T06_times_T67_is_T07_iff_witness :
    ¬ (Mat4.mul (ikT06 exampleLongWristRobot exampleFarTarget)
          (calcTransformationMatrix ![0, 0, exampleLongWristRobot.m_d 6, 0])
        = ikT07 exampleFarTarget) := by
  intro h
  have hc : Real.cos (-(Real.pi / 6)) * Real.cos 0 ≠ 1 := by
    rw [Real.cos_neg, Real.cos_pi_div_six, Real.cos_zero, mul_one]
    intro h3
    have h3' : Real.sqrt 3 = 2 := by linarith
    have hsq := Real.sq_sqrt (show (0 : ℝ) ≤ 3 by norm_num)
    rw [h3'] at hsq
    norm_num at hsq
  rcases (C17_T06_times_T67_is_T07_iff exampleLongWristRobot
      ![0, 3, 29 / 10 + 3 / 2 * Real.sqrt 3] (-(Real.pi / 6)) 0 0 1 rfl).mp h with h0 | ⟨-, -, h2⟩
  · norm_num at h0
  · exact hc h2

/-! ### The guard of the sixth angle -/

section
variable {F : Type} [FloatArith F]

theorem inverseKinematics_congr (r1 r2 : UR F) (targetTipPose : tipPose F)
    (hd : r1.m_d = r2.m_d) (ha : r1.m_a = r2.m_a) :
    inverseKinematics r1 targetTipPose = inverseKinematics r2 targetTipPose := by
  cases r1
  cases r2
  simp only at hd ha
  subst hd
  subst ha
  rfl

theorem fk_tables (self : UR F) (q : Fin m_numDoF → F) :
    (forwardKinematics self q).2.m_d = self.m_d ∧ (forwardKinematics self q).2.m_a = self.m_a := by
  show (fkLoop self q).robot.m_d = self.m_d ∧ (fkLoop self q).robot.m_a = self.m_a
  rw [fkLoop_eq_upTo]
  exact fkLoopUpTo_tables self q 9 (by decide)

/-- C20: two robots with the same link tables `m_d` and `m_a`, whatever their joint
angles, joint poses, MDH tables, stored transforms, variant tags and end-effector
flags, get identical solution arrays from `inverseKinematics` on the same target
pose, whatever the caller's arrays held before. -/
theorem C20_inverse_kinematics_ignores_joint_state (r1 r2 : UR F) (targetTipPose : tipPose F)
    (out1 out2 : Fin m_numIkSol → Fin m_numDoF → F)
    (hd : r1.m_d = r2.m_d) (ha : r1.m_a = r2.m_a) :
    inverseKinematics r1 targetTipPose = inverseKinematics r2 targetTipPose
    ∧ (inverseKinematicsRun r1 targetTipPose out1).outIkSols
        = (inverseKinematicsRun r2 targetTipPose out2).outIkSols := by
  refine ⟨inverseKinematics_congr r1 r2 targetTipPose hd ha, ?_⟩
  rw [inverseKinematicsRun_out, inverseKinematicsRun_out]
  exact inverseKinematics_congr r1 r2 targetTipPose hd ha

end

/-- C20, witness: the example UR5 before and after a call of `forwardKinematics`
with the joint values `(1, -1, 1/2, 0, 2, -2)`, on the far target. -/
theorem C20_inverse_kinematics_ignores_joint_state_witness :
    inverseKinematics (ctor exampleTables blank URtype.UR5 true (Flt.fin 0.1)) exampleFarTarget
      = inverseKinematics
          (forwardKinematics (ctor exampleTables blank URtype.UR5 true (Flt.fin 0.1))
            ![Flt.fin 1, Flt.fin (-1), Flt.fin (1 / 2), Flt.fin 0, Flt.fin 2, Flt.fin (-2)]).2
          exampleFarTarget
    ∧ (inverseKinematicsRun (ctor exampleTables blank URtype.UR5 true (Flt.fin 0.1))
          exampleFarTarget (fun _ _ => Flt.fin 0)).outIkSols
      = (inverseKinematicsRun
          (forwardKinematics (ctor exampleTables blank URtype.UR5 true (Flt.fin 0.1))
            ![Flt.fin 1, Flt.fin (-1), Flt.fin (1 / 2), Flt.fin 0, Flt.fin 2, Flt.fin (-2)]).2
          exampleFarTarget (fun _ _ => Flt.nan)).outIkSols :=
  C20_inverse_kinematics_ignores_joint_state _ _ exampleFarTarget (fun _ _ => Flt.fin 0)
    (fun _ _ => Flt.nan)
    (fk_tables (ctor exampleTables blank URtype.UR5 true (Flt.fin 0.1)) _).1.symm
    (fk_tables (ctor exampleTables blank URtype.UR5 true (Flt.fin 0.1)) _).2.symm

end UR
end universalRobots

/-! ### Which scalars are numbers -/

namespace Flt

theorem isFin_fin (r : ℝ) : IsFin (fin r) := ⟨r, rfl⟩

theorem not_isFin_nan : ¬ IsFin nan := by
  rintro ⟨r, h⟩
  cases h

theorem isFin_iff_isnan (x : Flt) : IsFin x ↔ FloatArith.isnan x = false := by
  cases x with
  | nan => exact ⟨fun h => absurd h not_isFin_nan, fun h => by cases h⟩
  | fin r => exact ⟨fun _ => rfl, fun _ => isFin_fin r⟩

theorem isFin_add (x y : Flt) : IsFin (x + y) ↔ IsFin x ∧ IsFin y := by
  cases x <;> cases y <;>
    simp only [add_fin, nan_add, add_nan, isFin_fin, not_isFin_nan, and_self, and_false,
      false_and]

theorem isFin_sub (x y : Flt) : IsFin (x - y) ↔ IsFin x ∧ IsFin y := by
  cases x <;> cases y <;>
    simp only [sub_fin, nan_sub, sub_nan, isFin_fin, not_isFin_nan, and_self, and_false,
      false_and]

theorem isFin_mul (x y : Flt) : IsFin (x * y) ↔ IsFin x ∧ IsFin y := by
  cases x <;> cases y <;>
    simp only [mul_fin, nan_mul, mul_nan, isFin_fin, not_isFin_nan, and_self, and_false,
      false_and]

theorem isFin_neg (x : Flt) : IsFin (-x) ↔ IsFin x := by
  cases x <;> simp only [neg_fin, neg_nan, isFin_fin, not_isFin_nan]

theorem isFin_sin (x : Flt) : IsFin (FloatArith.sin x) ↔ IsFin x := by
  cases x <;> simp only [sin_fin, sin_nan, isFin_fin, not_isFin_nan]

theorem isFin_cos (x : Flt) : IsFin (FloatArith.cos x) ↔ IsFin x := by
  cases x <;> simp only [cos_fin, cos_nan, isFin_fin, not_isFin_nan]

theorem isFin_atan2 (y x : Flt) : IsFin (FloatArith.atan2 y x) ↔ IsFin y ∧ IsFin x := by
  cases x <;> cases y <;>
    simp only [atan2_fin, nan_atan2, atan2_nan, isFin_fin, not_isFin_nan, and_self, and_false,
      false_and]

theorem isFin_of_div {x y : Flt} (h : IsFin (x / y)) : IsFin x ∧ IsFin y := by
  cases x <;> cases y <;>
    simp only [nan_div, div_nan, isFin_fin, not_isFin_nan, and_self, and_false,
      false_and] at h ⊢

theorem isFin_of_acos {x : Flt} (h : IsFin (FloatArith.acos x)) : IsFin x := by
  cases x with
  | nan => exact absurd h not_isFin_nan
  | fin r => exact isFin_fin r

theorem isFin_lit (n : Nat) : IsFin (OfNat.ofNat n : Flt) := ⟨(n : ℝ), rfl⟩

theorem isFin_pi : IsFin (FloatArith.pi : Flt) := ⟨Real.pi, rfl⟩

end Flt

/-! ### Which matrix entries are numbers -/

theorem Mat4.isFin_mul_entry (A B : Mat4 Flt) (i j : Fin 4) :
    Flt.IsFin (Mat4.mul A B i j) ↔ ∀ k, Flt.IsFin (A i k) ∧ Flt.IsFin (B k j) := by
  simp only [Mat4.mul, Flt.isFin_add, Flt.isFin_mul]
  constructor
  · rintro ⟨⟨⟨h0, h1⟩, h2⟩, h3⟩ k
    fin_cases k
    · exact h0
    · exact h1
    · exact h2
    · exact h3
  · intro h
    exact ⟨⟨⟨h 0, h 1⟩, h 2⟩, h 3⟩

theorem Mat4.exists_ofReal (A : Mat4 Flt) (h : ∀ i j, Flt.IsFin (A i j)) :
    ∃ M : Matrix (Fin 4) (Fin 4) ℝ, A = Mat4.ofReal M := by
  choose M hM using h
  exact ⟨M, by funext i j; exact hM i j⟩

theorem Mat4.isFin_ofReal (M : Matrix (Fin 4) (Fin 4) ℝ) (i j : Fin 4) :
    Flt.IsFin (Mat4.ofReal M i j) := ⟨M i j, rfl⟩

theorem Mat3.isFin_of_det3 (N : Mat3 Flt) (h : Flt.IsFin (Mat3.det N)) (r c : Fin 3) :
    Flt.IsFin (N r c) := by
  simp only [Mat3.det, Flt.isFin_add, Flt.isFin_sub, Flt.isFin_mul] at h
  obtain ⟨⟨⟨h00, ⟨h11, h22⟩, h12, h21⟩, h01, ⟨h10, -⟩, -, h20⟩, h02, -, -⟩ := h
  fin_cases r <;> fin_cases c <;> assumption

theorem Mat4.isFin_of_cofactor (M : Mat4 Flt) (i j : Fin 4)
    (h : Flt.IsFin (Mat4.cofactor M i j)) (r c : Fin 3) :
    Flt.IsFin (M (i.succAbove r) (j.succAbove c)) := by
  unfold Mat4.cofactor at h
  split_ifs at h
  · exact Mat3.isFin_of_det3 _ h r c
  · exact Mat3.isFin_of_det3 _ ((Flt.isFin_neg _).mp h) r c

theorem Mat4.isFin_of_det (M : Mat4 Flt) (h : Flt.IsFin (Mat4.det M)) (i j : Fin 4) :
    Flt.IsFin (M i j) := by
  simp only [Mat4.det, Flt.isFin_add, Flt.isFin_mul] at h
  obtain ⟨⟨⟨⟨h00, c00⟩, h01, c01⟩, h02, -⟩, h03, -⟩ := h
  have a := Mat4.isFin_of_cofactor M 0 0 c00
  have b := Mat4.isFin_of_cofactor M 0 1 c01
  fin_cases i
  · fin_cases j
    · exact h00
    · exact h01
    · exact h02
    · exact h03
  · fin_cases j
    · exact b 0 0
    · exact a 0 0
    · exact a 0 1
    · exact a 0 2
  · fin_cases j
    · exact b 1 0
    · exact a 1 0
    · exact a 1 1
    · exact a 1 2
  · fin_cases j
    · exact b 2 0
    · exact a 2 0
    · exact a 2 1
    · exact a 2 2

theorem Mat4.isFin_of_inverse (M : Mat4 Flt) (i j : Fin 4)
    (h : Flt.IsFin (Mat4.inverse M i j)) (r c : Fin 4) : Flt.IsFin (M r c) :=
  Mat4.isFin_of_det M (Flt.isFin_of_div h).2 r c

namespace universalRobots
namespace UR
open mathLib

/-! ### Rows of an elbow pair -/

/-- A transform of an MDH row with a numeric entry in its first two rows has numeric
parameters. -/
theorem calcTransformationMatrix_params_isFin (row : Fin 4 → Flt)
    (h0 : Flt.IsFin (calcTransformationMatrix row 0 0))
    (h1 : Flt.IsFin (calcTransformationMatrix row 1 0)) :
    Flt.IsFin (row 0) ∧ Flt.IsFin (row 1) ∧ Flt.IsFin (row 2) ∧ Flt.IsFin (row 3) := by
  unfold calcTransformationMatrix at h0 h1
  have a0 := (Mat4.isFin_mul_entry _ _ 0 0).mp h0
  have a1 := (Mat4.isFin_mul_entry _ _ 1 0).mp h1
  have b0 := (Mat4.isFin_mul_entry _ _ 0 3).mp (a0 3).1
  have b1 := (Mat4.isFin_mul_entry _ _ 1 1).mp (a1 1).1
  have c0 := (Mat4.isFin_mul_entry _ _ 0 3).mp (b0 3).1
  have c1 := (Mat4.isFin_mul_entry _ _ 1 1).mp (b1 1).1
  have r3 : Flt.IsFin (FloatArith.cos (row 3)) := (a0 0).2
  have r2 : Flt.IsFin (row 2) := (b0 2).2
  have r1 : Flt.IsFin (row 1) := (c0 0).2
  have r0 : Flt.IsFin (FloatArith.cos (row 0)) := (c1 1).1
  exact ⟨(Flt.isFin_cos _).mp r0, r1, r2, (Flt.isFin_cos _).mp r3⟩

theorem isFin_ikMask (x : Flt) : Flt.IsFin (ikMask x) ↔ Flt.IsFin x := by
  cases x with
  | nan =>
    unfold ikMask
    rw [Flt.gt_nan_left]
    simp only [Bool.false_eq_true, if_false]
  | fin r =>
    rw [ikMask_fin]
    exact ⟨fun _ => Flt.isFin_fin r, fun _ => Flt.isFin_fin _⟩

theorem isFin_asin_neg (u : ℝ) :
    Flt.IsFin (FloatArith.asin (Flt.fin (-u))) ↔ Flt.IsFin (FloatArith.asin (Flt.fin u)) := by
  rw [Flt.asin_fin, Flt.asin_fin]
  by_cases h : -1 ≤ u ∧ u ≤ 1
  · have h' : -1 ≤ -u ∧ -u ≤ 1 := ⟨by linarith [h.2], by linarith [h.1]⟩
    rw [if_pos h, if_pos h']
    exact ⟨fun _ => Flt.isFin_fin _, fun _ => Flt.isFin_fin _⟩
  · have h' : ¬ (-1 ≤ -u ∧ -u ≤ 1) := fun hc => h ⟨by linarith [hc.2], by linarith [hc.1]⟩
    rw [if_neg h, if_neg h']

/-- The second angles of the two elbow branches are numbers together. -/
theorem isFin_ikTheta2_iff (self : UR Flt) (T_14 : Mat4 Flt) (psi P : Flt) :
    Flt.IsFin (ikTheta2Odd self T_14 psi P) ↔ Flt.IsFin (ikTheta2Even self T_14 psi P) := by
  unfold ikTheta2Odd ikTheta2Even
  rw [Flt.isFin_add, Flt.isFin_add]
  apply and_congr_right
  intro _
  cases ha : self.m_a 1 with
  | nan => simp only [Flt.nan_mul, Flt.nan_div, Flt.asin_nan]
  | fin a1 =>
    cases psi with
    | nan => simp only [Flt.neg_nan, Flt.sin_nan, Flt.mul_nan, Flt.nan_div, Flt.asin_nan]
    | fin s =>
      cases P with
      | nan => simp only [Flt.div_nan, Flt.asin_nan]
      | fin q =>
        simp only [Flt.neg_fin, Flt.sin_fin, Flt.mul_fin, Flt.div_fin]
        by_cases hq : q = 0
        · rw [if_pos hq, if_pos hq]
        · rw [if_neg hq, if_neg hq]
          have e : a1 * Real.sin (-s) / q = -(a1 * Real.sin s / q) := by
            rw [Real.sin_neg]
            ring
          rw [e]
          exact isFin_asin_neg _

/-- The fourth angle is a number for one pair of numeric second and third angles
exactly when it is for any other pair: whether it is a number depends on the link
dimensions, on `T_06`, on `theta1` and on `T_46` only. -/
theorem isFin_ikTheta4_transfer (self : UR Flt) (T_06 : Mat4 Flt) (theta1 : Flt)
    (T_46 : Mat4 Flt) (t2 t3 u2 u3 : ℝ)
    (h : Flt.IsFin (ikTheta4 self T_06 (ikT01 self theta1) T_46 (Flt.fin t2) (Flt.fin t3))) :
    Flt.IsFin (ikTheta4 self T_06 (ikT01 self theta1) T_46 (Flt.fin u2) (Flt.fin u3)) := by
  unfold ikTheta4 at h
  simp only [] at h
  obtain ⟨h10, h00⟩ := (Flt.isFin_atan2 _ _).mp h
  have a1 := (Mat4.isFin_mul_entry _ _ 1 0).mp h10
  have a0 := (Mat4.isFin_mul_entry _ _ 0 0).mp h00
  have b := fun k => (Mat4.isFin_mul_entry _ _ 1 k).mp (a1 k).1
  have hT06 : ∀ m k, Flt.IsFin (T_06 m k) := fun m k => ((b k) m).2
  have hT03 := Mat4.isFin_of_inverse _ 1 0 ((b 0) 0).1
  have hT23 : ∀ k j, Flt.IsFin (calcTransformationMatrix
      ![0, self.m_a 0, self.m_d 2, Flt.fin t3] k j) :=
    fun k j => ((Mat4.isFin_mul_entry _ _ 0 j).mp (hT03 0 j) k).2
  have hT012 := fun i k => ((Mat4.isFin_mul_entry _ _ i 0).mp (hT03 i 0) k).1
  have hT01 : ∀ i m, Flt.IsFin (ikT01 self theta1 i m) :=
    fun i m => ((Mat4.isFin_mul_entry _ _ i 0).mp (hT012 i 0) m).1
  have hT12 : ∀ m k, Flt.IsFin (calcTransformationMatrix
      ![-FloatArith.pi / 2, 0, self.m_d 1, Flt.fin t2 - FloatArith.pi / 2] m k) :=
    fun m k => ((Mat4.isFin_mul_entry _ _ 0 k).mp (hT012 0 k) m).2
  obtain ⟨-, -, ⟨d0, hd0⟩, ⟨t1, ht1⟩⟩ :=
    calcTransformationMatrix_params_isFin _ (hT01 0 0) (hT01 1 0)
  obtain ⟨-, -, ⟨d1, hd1⟩, -⟩ := calcTransformationMatrix_params_isFin _ (hT12 0 0) (hT12 1 0)
  obtain ⟨-, ⟨a0', ha0⟩, ⟨d2, hd2⟩, -⟩ :=
    calcTransformationMatrix_params_isFin _ (hT23 0 0) (hT23 1 0)
  simp only [vec4_two, vec4_three, vec4_one] at hd0 ht1 hd1 ha0 hd2
  obtain ⟨M06, hM06⟩ := Mat4.exists_ofReal T_06 hT06
  have e01 : ikT01 self theta1 = Mat4.ofReal (mdhReal 0 0 d0 t1) := by
    rw [ht1]
    exact ikT01_fin self d0 t1 hd0
  have h03 : IsRigid (mdhReal 0 0 d0 t1 * mdhReal (-Real.pi / 2) 0 d1 (u2 - Real.pi / 2)
      * mdhReal 0 a0' d2 u3) :=
    ((isRigid_mdhReal _ _ _ _).mul (isRigid_mdhReal _ _ _ _)).mul (isRigid_mdhReal _ _ _ _)
  unfold ikTheta4
  simp only [e01, hd1, ha0, hd2, hM06, Flt.lit_zero, pi_div_two_fin, neg_pi_div_two_fin,
    Flt.sub_fin, calcTransformationMatrix_fin, Mat4.mul_ofReal, Mat4.inverse_ofReal_rigid h03]
  rw [Flt.isFin_atan2, Mat4.isFin_mul_entry, Mat4.isFin_mul_entry]
  exact ⟨fun k => ⟨Mat4.isFin_ofReal _ _ _, (a1 k).2⟩,
    fun k => ⟨Mat4.isFin_ofReal _ _ _, (a0 k).2⟩⟩

theorem isFin_elbow_angles_iff (self : UR Flt) (T_06 : Mat4 Flt) (theta1 : Flt)
    (T_46 : Mat4 Flt) (x2 x3 y2 y3 : Flt) (h2 : Flt.IsFin x2 ↔ Flt.IsFin y2)
    (h3 : Flt.IsFin x3 ↔ Flt.IsFin y3) :
    (Flt.IsFin x2 ∧ Flt.IsFin x3
        ∧ Flt.IsFin (ikTheta4 self T_06 (ikT01 self theta1) T_46 x2 x3))
      ↔ (Flt.IsFin y2 ∧ Flt.IsFin y3
        ∧ Flt.IsFin (ikTheta4 self T_06 (ikT01 self theta1) T_46 y2 y3)) := by
  constructor
  · rintro ⟨a2, a3, a4⟩
    obtain ⟨u2, hu2⟩ := h2.mp a2
    obtain ⟨u3, hu3⟩ := h3.mp a3
    obtain ⟨t2, ht2⟩ := a2
    obtain ⟨t3, ht3⟩ := a3
    rw [ht2, ht3] at a4
    rw [hu2, hu3]
    exact ⟨Flt.isFin_fin _, Flt.isFin_fin _, isFin_ikTheta4_transfer self T_06 theta1 T_46 _ _ _ _ a4⟩
  · rintro ⟨a2, a3, a4⟩
    obtain ⟨u2, hu2⟩ := h2.mpr a2
    obtain ⟨u3, hu3⟩ := h3.mpr a3
    obtain ⟨t2, ht2⟩ := a2
    obtain ⟨t3, ht3⟩ := a3
    rw [ht2, ht3] at a4
    rw [hu2, hu3]
    exact ⟨Flt.isFin_fin _, Flt.isFin_fin _, isFin_ikTheta4_transfer self T_06 theta1 T_46 _ _ _ _ a4⟩

section
variable {F : Type} [FloatArith F]

theorem ikTheta1_pair (self : UR F) (targetTipPose : tipPose F) (k : Fin 4) :
    ikTheta1 self targetTipPose (evenRow k) = ikTheta1 self targetTipPose (oddRow k) := by
  unfold ikTheta1
  fin_cases k <;> rfl

theorem ikTheta5_pair (self : UR F) (T_16 : Mat4 F) (k : Fin 4) :
    ikTheta5 self T_16 (evenRow k) = ikTheta5 self T_16 (oddRow k) := by
  unfold ikTheta5
  fin_cases k <;> rfl

/-- The locals shared by the two rows of an elbow pair. -/
theorem ikRow_pair_common (self : UR F) (T_06 : Mat4 F) (theta1 : F) (k : Fin 4) :
    ikRowTheta5 self T_06 theta1 (evenRow k) = ikRowTheta5 self T_06 theta1 (oddRow k)
    ∧ ikRowTheta6 self T_06 theta1 (evenRow k) = ikRowTheta6 self T_06 theta1 (oddRow k)
    ∧ ikRowT46 self T_06 theta1 (evenRow k) = ikRowT46 self T_06 theta1 (oddRow k)
    ∧ ikRowT14 self T_06 theta1 (evenRow k) = ikRowT14 self T_06 theta1 (oddRow k)
    ∧ ikRowPsi3 self T_06 theta1 (evenRow k) = ikRowPsi3 self T_06 theta1 (oddRow k) := by
  have h5 : ikRowTheta5 self T_06 theta1 (evenRow k) = ikRowTheta5 self T_06 theta1 (oddRow k) :=
    ikTheta5_pair self _ k
  have h6 : ikRowTheta6 self T_06 theta1 (evenRow k) = ikRowTheta6 self T_06 theta1 (oddRow k) := by
    unfold ikRowTheta6
    rw [h5]
  have h46 : ikRowT46 self T_06 theta1 (evenRow k) = ikRowT46 self T_06 theta1 (oddRow k) := by
    unfold ikRowT46
    rw [h5, h6]
  have h14 : ikRowT14 self T_06 theta1 (evenRow k) = ikRowT14 self T_06 theta1 (oddRow k) := by
    unfold ikRowT14
    rw [h46]
  refine ⟨h5, h6, h46, h14, ?_⟩
  unfold ikRowPsi3
  rw [h14]

theorem evenRow_parity (k : Fin 4) : ¬ ((evenRow k).val + 1) % 2 = 0 := by
  show ¬ (2 * k.val + 1) % 2 = 0
  omega

theorem oddRow_parity (k : Fin 4) : ((oddRow k).val + 1) % 2 = 0 := by
  show (2 * k.val + 1 + 1) % 2 = 0
  omega

end

theorem checkPoseReachability_rowArray_iff (self : UR Flt) (row : Fin m_numDoF → Flt) :
    checkPoseReachability self (rowArray row) = true ↔ ∀ j, Flt.IsFin (row j) := by
  rw [← Bool.not_eq_false, checkPoseReachability_eq_false_iff]
  constructor
  · intro h j
    rw [Flt.isFin_iff_isnan]
    cases hv : FloatArith.isnan (row j)
    · rfl
    · exfalso
      apply h
      refine ⟨j.val, j.isLt, ?_⟩
      unfold rowArray
      rw [dif_pos j.isLt]
      exact hv
  · rintro h ⟨n, hn, hv⟩
    have hn6 : n < m_numDoF := hn
    have := (Flt.isFin_iff_isnan _).mp (h ⟨n, hn6⟩)
    unfold rowArray at hv
    rw [dif_pos hn6, this] at hv
    cases hv

theorem forall_vec6_isFin (a0 a1 a2 a3 a4 a5 : Flt) :
    (∀ j : Fin m_numDoF, Flt.IsFin ((![a0, a1, a2, a3, a4, a5] : Fin m_numDoF → Flt) j))
      ↔ Flt.IsFin a0 ∧ Flt.IsFin a1 ∧ Flt.IsFin a2 ∧ Flt.IsFin a3 ∧ Flt.IsFin a4
          ∧ Flt.IsFin a5 := by
  constructor
  · intro h
    exact ⟨h 0, h 1, h 2, h 3, h 4, h 5⟩
  · rintro ⟨b0, b1, b2, b3, b4, b5⟩ j
    fin_cases j
    · exact b0
    · exact b1
    · exact b2
    · exact b3
    · exact b4
    · exact b5

/-- The two rows of an elbow pair, for the same `T_06` and `theta1`, are accepted or
rejected together. -/
theorem ikRow_pair_valid_iff (self : UR Flt) (T_06 : Mat4 Flt) (theta1 : Flt) (k : Fin 4) :
    (∀ j, Flt.IsFin (ikRow self T_06 theta1 (evenRow k) j))
      ↔ ∀ j, Flt.IsFin (ikRow self T_06 theta1 (oddRow k) j) := by
  obtain ⟨h5, h6, h46, h14, hpsi⟩ := ikRow_pair_common self T_06 theta1 k
  have e3 : ikRowTheta3 self T_06 theta1 (evenRow k)
      = ikMask (FloatArith.pi + ikRowPsi3 self T_06 theta1 (oddRow k)) := by
    unfold ikRowTheta3
    rw [if_neg (evenRow_parity k), hpsi]
  have o3 : ikRowTheta3 self T_06 theta1 (oddRow k)
      = ikMask (FloatArith.pi - ikRowPsi3 self T_06 theta1 (oddRow k)) := by
    unfold ikRowTheta3
    rw [if_pos (oddRow_parity k)]
  have e2 : ikRowTheta2 self T_06 theta1 (evenRow k)
      = ikTheta2Even self (ikRowT14 self T_06 theta1 (oddRow k))
          (ikRowPsi3 self T_06 theta1 (oddRow k))
          (ikP14xz (ikRowT14 self T_06 theta1 (oddRow k))) := by
    unfold ikRowTheta2
    rw [if_neg (evenRow_parity k), hpsi, h14]
  have o2 : ikRowTheta2 self T_06 theta1 (oddRow k)
      = ikTheta2Odd self (ikRowT14 self T_06 theta1 (oddRow k))
          (ikRowPsi3 self T_06 theta1 (oddRow k))
          (ikP14xz (ikRowT14 self T_06 theta1 (oddRow k))) := by
    unfold ikRowTheta2
    rw [if_pos (oddRow_parity k)]
  have e4 : ikRowTheta4 self T_06 theta1 (evenRow k)
      = ikTheta4 self T_06 (ikT01 self theta1) (ikRowT46 self T_06 theta1 (oddRow k))
          (ikRowTheta2 self T_06 theta1 (evenRow k)) (ikRowTheta3 self T_06 theta1 (evenRow k)) := by
    unfold ikRowTheta4
    rw [h46]
  have o4 : ikRowTheta4 self T_06 theta1 (oddRow k)
      = ikTheta4 self T_06 (ikT01 self theta1) (ikRowT46 self T_06 theta1 (oddRow k))
          (ikRowTheta2 self T_06 theta1 (oddRow k)) (ikRowTheta3 self T_06 theta1 (oddRow k)) := rfl
  have k2 : Flt.IsFin (ikRowTheta2 self T_06 theta1 (evenRow k))
      ↔ Flt.IsFin (ikRowTheta2 self T_06 theta1 (oddRow k)) := by
    rw [e2, o2]
    exact (isFin_ikTheta2_iff self _ _ _).symm
  have k3 : Flt.IsFin (ikRowTheta3 self T_06 theta1 (evenRow k))
      ↔ Flt.IsFin (ikRowTheta3 self T_06 theta1 (oddRow k)) := by
    rw [e3, o3, isFin_ikMask, isFin_ikMask, Flt.isFin_add, Flt.isFin_sub]
  have key := isFin_elbow_angles_iff self T_06 theta1 (ikRowT46 self T_06 theta1 (oddRow k))
    _ _ _ _ k2 k3
  rw [← e4, ← o4] at key
  rw [ikRow_eq, ikRow_eq, h5, h6, forall_vec6_isFin, forall_vec6_isFin]
  constructor
  · rintro ⟨b0, b1, b2, b3, b4, b5⟩
    obtain ⟨c1, c2, c3⟩ := key.mp ⟨b1, b2, b3⟩
    exact ⟨b0, c1, c2, c3, b4, b5⟩
  · rintro ⟨b0, b1, b2, b3, b4, b5⟩
    obtain ⟨c1, c2, c3⟩ := key.mpr ⟨b1, b2, b3⟩
    exact ⟨b0, c1, c2, c3, b4, b5⟩

theorem ik_pair_valid_eq (self : UR Flt) (targetTipPose : tipPose Flt) (k : Fin 4) :
    checkPoseReachability self (rowArray (inverseKinematics self targetTipPose (evenRow k)))
      = checkPoseReachability self
          (rowArray (inverseKinematics self targetTipPose (oddRow k))) := by
  rw [Bool.eq_iff_iff, checkPoseReachability_rowArray_iff, checkPoseReachability_rowArray_iff]
  unfold inverseKinematics
  rw [ikTheta1_pair self targetTipPose k]
  exact ikRow_pair_valid_iff self _ _ k

theorem countP_pairs_even (p : Fin m_numIkSol → Bool)
    (h : ∀ k : Fin 4, p (evenRow k) = p (oddRow k)) :
    Even ((List.finRange m_numIkSol).countP p) := by
  have hl : List.finRange m_numIkSol = [0, 1, 2, 3, 4, 5, 6, 7] := rfl
  have h0 : p 0 = p 1 := h 0
  have h1 : p 2 = p 3 := h 1
  have h2 : p 4 = p 5 := h 2
  have h3 : p 6 = p 7 := h 3
  rw [hl]
  simp only [List.countP_cons, List.countP_nil, h0, h1, h2, h3]
  cases p 1 <;> cases p 3 <;> cases p 5 <;> cases p 7 <;> decide

/-- C18: for every target pose and every `k` in `{0, 1, 2, 3}`, the rows `2k` and
`2k + 1` written by `inverseKinematics` have the same first, fifth and sixth angles
and the same elbow angle `theta3_psi`, and `checkPoseReachability` gives the same
answer for both; hence the number of accepted rows among the eight is even. -/
theorem C18_valid_rows_come_in_elbow_pairs (self : UR Flt) (targetTipPose : tipPose Flt) :
    (∀ k : Fin 4,
      (evenRow k).val = 2 * k.val ∧ (oddRow k).val = 2 * k.val + 1
      ∧ inverseKinematics self targetTipPose (evenRow k) 0
          = inverseKinematics self targetTipPose (oddRow k) 0
      ∧ inverseKinematics self targetTipPose (evenRow k) 4
          = inverseKinematics self targetTipPose (oddRow k) 4
      ∧ inverseKinematics self targetTipPose (evenRow k) 5
          = inverseKinematics self targetTipPose (oddRow k) 5
      ∧ ikRowPsi3 self (ikT06 self targetTipPose) (ikTheta1 self targetTipPose (evenRow k))
            (evenRow k)
          = ikRowPsi3 self (ikT06 self targetTipPose) (ikTheta1 self targetTipPose (oddRow k))
            (oddRow k)
      ∧ checkPoseReachability self (rowArray (inverseKinematics self targetTipPose (evenRow k)))
          = checkPoseReachability self
              (rowArray (inverseKinematics self targetTipPose (oddRow k))))
    ∧ Even (validRowCount self targetTipPose) := by
  constructor
  · intro k
    obtain ⟨h5, h6, -, -, hpsi⟩ := ikRow_pair_common self (ikT06 self targetTipPose)
      (ikTheta1 self targetTipPose (oddRow k)) k
    have h1 := ikTheta1_pair self targetTipPose k
    refine ⟨rfl, rfl, ?_, ?_, ?_, ?_, ik_pair_valid_eq self targetTipPose k⟩
    · rw [inverseKinematics_theta1, inverseKinematics_theta1, h1]
    · show ikRow self _ _ (evenRow k) 4 = ikRow self _ _ (oddRow k) 4
      rw [h1, ikRow_theta5, ikRow_theta5, ikTheta5_pair]
    · show ikRow self _ _ (evenRow k) 5 = ikRow self _ _ (oddRow k) 5
      rw [h1, ikRow_theta6, ikRow_theta6, ikTheta5_pair]
    · rw [h1, hpsi]
  · exact countP_pairs_even _ (ik_pair_valid_eq self targetTipPose)

end UR
end universalRobots
